import Mathlib

/-!
# bl-cli: the paginated-list aggregation protocol

A shallow embedding of package `bl` (the service layer of the BinaryLane
CLI) and of the pagination driver `PaginateResp` that every `List` method of
that package is built on.

Conventions of the embedding.

* A Go slice is `Slice α := Option (List α)`; `none` is the `nil` slice.
* A Go `interface{}` value is `Iface W := Option (Dyn W)`: `none` is the nil
  interface, `some ⟨t, v⟩` is a value `v` of dynamic type `t`.  The wire
  structs of the vendored client are a parameter `W : WireType → Type`.
* A Go `int` page number is a `Nat`; pages are counted from 1 and a run never
  gets near `2^63`.
* A closure that talks to the API is a function of an explicit world state
  `σ` (the server, and the variables the closure captured).
* A loop with no iteration bound takes a fuel argument and returns `none`
  when the fuel runs out before the loop has finished.
-/

namespace BlCli

/-! ## Go values -/

/-- A Go slice: `none` is `nil`, `some l` a (possibly empty) non-nil slice. -/
abbrev Slice (α : Type) := Option (List α)

/-- The elements of a slice (`nil` has none). -/
def Slice.toList {α : Type} : Slice α → List α
  | none => []
  | some l => l

/-- Go `len(s)`. -/
def Slice.len {α : Type} (s : Slice α) : Nat := s.toList.length

/-- The concrete types a list element can have at run time: the wire structs
of the `binarylane` client that the `List` methods of package `bl` handle
(`VPCPtr` is `*binarylane.VPC`), and `Other` for any other Go type. -/
inductive WireType
  | Server | Kernel | Image | Action | Tag | Region | Size | VPCPtr | LoadBalancer
  | FloatingIP | InvoiceListItem | InvoiceItem | BillingHistoryEntry | Firewall | Other
  deriving DecidableEq, Repr

/-- A non-nil `interface{}` value: a dynamic type and a value of that type. -/
structure Dyn (W : WireType → Type) where
  dynType : WireType
  val : W dynType

/-- A Go `interface{}` value; `none` is the nil interface. -/
abbrev Iface (W : WireType → Type) := Option (Dyn W)

/-- Conversion of a value of static type `t` to `interface{}`
(`si[i] = list[i]`). -/
def toIface {W : WireType → Type} (t : WireType) (v : W t) : Iface W :=
  some ⟨t, v⟩

/-- The comma-ok type assertion `x.(T)`: the value when `x` is non-nil and
its dynamic type is `T`, `none` (ok = false) otherwise. -/
def typeAssert {W : WireType → Type} (t : WireType) : Iface W → Option (W t)
  | none => none
  | some d => if h : d.dynType = t then some (h ▸ d.val) else none

/-- An `error` value as package `bl` sees it.  `ext e` is an error value that
was handed to the package by the client or the driver; `new msg` is the value
of a call `errors.New(msg)` made by the package itself (each such call yields
a value distinct from every error received before it). -/
inductive GoError (ε : Type)
  | ext (e : ε)
  | new (msg : String)
  deriving DecidableEq, Repr

/-- What a call of a Go function with results `(T, error)` does: it returns a
pair, or it panics. -/
inductive GoResult (ε α : Type)
  | ret (val : α) (err : Option (GoError ε))
  | panic
  deriving DecidableEq, Repr

/-! ## The client's pagination types -/

/-- The client type `binarylane.ListOptions`: the page selector. -/
structure ListOptions where
  Page : Nat
  PerPage : Nat
  deriving DecidableEq, Repr

/-- The client type `binarylane.Pages`: the navigation links of a page. -/
structure Pages where
  First : String
  Prev : String
  Last : String
  Next : String
  deriving DecidableEq, Repr

/-- The client type `binarylane.Links`. -/
structure Links where
  Pages : Option Pages
  deriving DecidableEq, Repr

/-- The client type `binarylane.Meta`. -/
structure Meta where
  Total : Int
  deriving DecidableEq, Repr

/-- The client type `binarylane.Response`, reduced to the pagination metadata of the
envelope (`links` and `meta`); both are pointers and may be nil. -/
structure Response where
  Links : Option Links
  Meta : Option Meta
  deriving DecidableEq, Repr

/-- The result triple `([]interface{}, *binarylane.Response, error)` of one
call of a page fetcher. -/
structure FetchResult (ε : Type) (W : WireType → Type) where
  elems : Slice (Iface W)
  resp : Option Response
  err : Option ε

/-- The type `Generator`: a page fetcher, `func(*ListOptions) ([]interface{},
*Response, error)`, as a function of the world state. -/
abbrev Generator (σ ε : Type) (W : WireType → Type) :=
  ListOptions → σ → FetchResult ε W × σ

/-- The result pair `([]interface{}, error)` of the pagination driver. -/
abbrev DriverResult (ε : Type) (W : WireType → Type) :=
  Slice (Iface W) × Option ε

/-! ## The pagination driver -/

/-- Modelled from the spec: the has-next-page signal of a page, which
`PaginateResp` (not among the sources) reads off the response.  It is
"derived from whether the page response included a next navigation link"
(`links.pages.next`); a response without links carries no next link. -/
def hasNextPage : Option Response → Bool
  | some ⟨some ⟨some p⟩, _⟩ => p.Next != ""
  | _ => false

/-- Modelled from the spec: the page-size ceiling of `PaginateResp`, "a fixed
internal constant" (200; the integration tests expect `per_page=200`). -/
def perPage : Nat := 200

/-- Modelled from the spec: the loop of `PaginateResp` (§4.2).  "Invoke the
Page Fetcher; on error, abort and return the error (discarding all elements
accumulated so far).  On success, append the page's elements, in order, to
the Aggregate Collection.  If the page's metadata indicates no next page,
stop and return the Aggregate Collection.  Otherwise, advance the Page
Selector's page number by exactly one (page size unchanged) and repeat."
The loop has no iteration cap; `none` means the fuel ran out first. -/
def paginateLoop {σ ε : Type} {W : WireType → Type} (gen : Generator σ ε W) :
    Nat → ListOptions → List (Iface W) → σ → Option (DriverResult ε W × σ)
  | 0, _, _, _ => none
  | fuel + 1, opt, acc, s =>
    match gen opt s with
    | (r, s1) =>
      match r.err with
      | some e => some ((none, some e), s1)
      | none =>
        if hasNextPage r.resp then
          paginateLoop gen fuel { opt with Page := opt.Page + 1 } (acc ++ r.elems.toList) s1
        else
          some ((some (acc ++ r.elems.toList), none), s1)

/-- Modelled from the spec: `PaginateResp` (not among the sources; §4.2):
"initialize Page Selector to page 1 at the maximum page size", then run the
loop from an empty Aggregate Collection. -/
def PaginateResp {σ ε : Type} {W : WireType → Type} (gen : Generator σ ε W)
    (fuel : Nat) (s : σ) : Option (DriverResult ε W × σ) :=
  paginateLoop gen fuel { Page := 1, PerPage := perPage } [] s

/-! ## The list adapters of package `bl`

`PaginateResp` is a package-level function that is not among the sources, so
every adapter takes the driver it calls as a parameter `drv`; the program
itself is the adapter at `drv := fun gen => PaginateResp gen fuel`. -/

/-- The result triple `(list, *binarylane.Response, error)` of a list call of
the API client. -/
abbrev ClientResult (ε α : Type) := α × Option Response × Option ε

/-- A list call of the API client, such as `client.Servers.List(ctx, opt)`,
with every argument but the list options fixed. -/
abbrev ClientCall (σ ε α : Type) := ListOptions → σ → ClientResult ε α × σ

/-- A pagination driver: what `PaginateResp(f)` does from a world state;
`none` when it does not return. -/
abbrev Driver (σ ε : Type) (W : WireType → Type) :=
  Generator σ ε W → σ → Option (DriverResult ε W × σ)

/-- The Go loop `dst := make([]β, len(src)); for i := range src { dst[i] =
g(src[i]) }`: `dst` starts as `len(src)` zero values and is written index by
index. -/
def copyLoop {α β : Type} (g : α → β) (zero : β) (src : List α) : List β :=
  (List.range src.length).foldl
    (fun dst i =>
      match src[i]? with
      | some x => dst.set i (g x)
      | none => dst)
    (List.replicate src.length zero)

/-- The same loop when the conversion of an element can fail (a type
assertion): the loop is left at the first element whose conversion fails,
and the result is `none`. -/
def convertLoop {α β : Type} (f : α → Option β) (zero : β) (src : List α) :
    Option (List β) :=
  (List.range src.length).foldlM
    (fun dst i =>
      match src[i]? with
      | some x => (f x).map fun b => dst.set i b
      | none => none)
    (List.replicate src.length zero)

/-- The page-fetch closure that the list methods build (`f` in
`serversService.List`, `listFn` in `firewallsService.List`, ...):
`list, resp, err := client...(ctx, opt)`; on an error `return nil, nil, err`;
otherwise `si := make([]interface{}, len(list))`, `si[i] = list[i]` for every
`i`, `return si, resp, err`. -/
def listClosure {σ ε : Type} {W : WireType → Type} (t : WireType)
    (call : ClientCall σ ε (Slice (W t))) : Generator σ ε W :=
  fun opt s =>
    match call opt s with
    | ((list, resp, err), s1) =>
      match err with
      | some e => ({ elems := none, resp := none, err := some e }, s1)
      | none =>
        ({ elems := some (copyLoop (toIface t) none list.toList), resp := resp, err := none }, s1)

/-- The wrappers of package `bl` (`Server`, `Kernel`, `Image`, `Action`,
`Tag`, `Region`, `Size`, `VPC`, `LoadBalancer`, `FloatingIP`, `Firewall`): a
struct embedding one pointer to the wire struct.  `none` is the nil pointer
of the zero wrapper; `Server{Server: &a}` is `⟨some a⟩`, and so is
`VPC{VPC: a}` for the pointer `a` that the VPC list carries. -/
structure Wrapper (W : WireType → Type) (t : WireType) where
  ptr : Option (W t)

/-- The list methods that share the text of `serversService.List`: the
closure `listClosure`, then `PaginateResp`, then
`list := make(Servers, len(si))` and, for each `i`, the unchecked assertion
`a := si[i].(binarylane.Server)` and `list[i] = Server{Server: &a}`. -/
inductive ListMethod
  | serversService_List | serversService_ListByTag | serversService_Kernels
  | serversService_Snapshots | serversService_Backups | serversService_Actions
  | actionsService_List | floatingIPActionsService_List | loadBalancersService_List
  | regionsService_List | sizesService_List | tagsService_List | vpcsService_List
  deriving DecidableEq, Repr

/-- The wire type that a list method asserts its elements to have. -/
def ListMethod.wire : ListMethod → WireType
  | .serversService_List => .Server
  | .serversService_ListByTag => .Server
  | .serversService_Kernels => .Kernel
  | .serversService_Snapshots => .Image
  | .serversService_Backups => .Image
  | .serversService_Actions => .Action
  | .actionsService_List => .Action
  | .floatingIPActionsService_List => .Action
  | .loadBalancersService_List => .LoadBalancer
  | .regionsService_List => .Region
  | .sizesService_List => .Size
  | .tagsService_List => .Tag
  | .vpcsService_List => .VPCPtr

/-- The body of a list method of `ListMethod` (`serversService.List`,
servers.go:81-108, and its twelve copies).  An unchecked type assertion that
fails panics. -/
def ListMethod.run {σ ε : Type} {W : WireType → Type} (m : ListMethod)
    (drv : Driver σ ε W) (call : ClientCall σ ε (Slice (W m.wire))) (s : σ) :
    Option (GoResult ε (Slice (Wrapper W m.wire)) × σ) :=
  match drv (listClosure m.wire call) s with
  | none => none
  | some ((si, err), s1) =>
    match err with
    | some e => some (.ret none (some (.ext e)), s1)
    | none =>
      match convertLoop (fun x => (typeAssert m.wire x).map fun a => Wrapper.mk (some a))
          (Wrapper.mk none) si.toList with
      | none => some (.panic, s1)
      | some list => some (.ret (some list) none, s1)

/-- The loop of `floatingIPsService.List`: `var list FloatingIPs`, then for
each `x` of `si` the unchecked assertion `fip := x.(binarylane.FloatingIP)`
and `list = append(list, FloatingIP{FloatingIP: &fip})`; `none` is a panic. -/
def appendLoop {W : WireType → Type} (t : WireType) (si : List (Iface W)) :
    Option (Slice (Wrapper W t)) :=
  si.foldlM
    (fun (list : Slice (Wrapper W t)) x =>
      (typeAssert t x).map fun fip => some (list.toList ++ [Wrapper.mk (some fip)]))
    none

/-- The method `floatingIPsService.List` (floating_ips.go:51-78). -/
def floatingIPsService.List {σ ε : Type} {W : WireType → Type}
    (drv : Driver σ ε W) (call : ClientCall σ ε (Slice (W .FloatingIP))) (s : σ) :
    Option (GoResult ε (Slice (Wrapper W .FloatingIP)) × σ) :=
  match drv (listClosure .FloatingIP call) s with
  | none => none
  | some ((si, err), s1) =>
    match err with
    | some e => some (.ret none (some (.ext e)), s1)
    | none =>
      match appendLoop .FloatingIP si.toList with
      | none => some (.panic, s1)
      | some list => some (.ret list none, s1)

/-- The function `paginatedListHelper` (firewalls.go:156-173): `PaginateResp`, then
`list := make([]Firewall, len(si))` and, for each `i`, the checked assertion
`a, ok := si[i].(binarylane.Firewall)`, with
`return nil, errors.New("unexpected value in response")` when `ok` is false,
and `list[i] = Firewall{Firewall: &a}`. -/
def paginatedListHelper {σ ε : Type} {W : WireType → Type}
    (drv : Driver σ ε W) (listFn : Generator σ ε W) (s : σ) :
    Option (GoResult ε (Slice (Wrapper W .Firewall)) × σ) :=
  match drv listFn s with
  | none => none
  | some ((si, err), s1) =>
    match err with
    | some e => some (.ret none (some (.ext e)), s1)
    | none =>
      match convertLoop (fun x => (typeAssert .Firewall x).map fun a => Wrapper.mk (some a))
          (Wrapper.mk none) si.toList with
      | none => some (.ret none (some (.new "unexpected value in response")), s1)
      | some list => some (.ret (some list) none, s1)

/-- The method `firewallsService.List` (firewalls.go:86-102). -/
def firewallsService.List {σ ε : Type} {W : WireType → Type}
    (drv : Driver σ ε W) (call : ClientCall σ ε (Slice (W .Firewall))) (s : σ) :
    Option (GoResult ε (Slice (Wrapper W .Firewall)) × σ) :=
  paginatedListHelper drv (listClosure .Firewall call) s

/-- The method `firewallsService.ListByServer` (firewalls.go:104-120), the client call
being `client.Firewalls.ListByServer(ctx, sID, opt)`. -/
def firewallsService.ListByServer {σ ε : Type} {W : WireType → Type}
    (drv : Driver σ ε W) (call : ClientCall σ ε (Slice (W .Firewall))) (s : σ) :
    Option (GoResult ε (Slice (Wrapper W .Firewall)) × σ) :=
  paginatedListHelper drv (listClosure .Firewall call) s

/-- The client type `binarylane.InvoiceList`, the fields that `invoicesService.List` uses.
The client returns a non-nil `*InvoiceList` whenever it returns no error. -/
structure InvoiceList (W : WireType → Type) where
  Invoices : Slice (W .InvoiceListItem)
  InvoicePreview : W .InvoiceListItem

/-- The client type `binarylane.Invoice`, the field that `invoicesService.Get` uses. -/
structure Invoice (W : WireType → Type) where
  InvoiceItems : Slice (W .InvoiceItem)

set_option linter.dupNamespace false in
/-- The client type `binarylane.BillingHistory`, the field that `billingHistoryService.List`
uses. -/
structure BillingHistory (W : WireType → Type) where
  BillingHistory : Slice (W .BillingHistoryEntry)

/-- The closure `listFn` of `invoicesService.List` (invoices.go:67-79).  The
world state is paired with the captured variable `invoicePreview`, which the
closure overwrites on every successful fetch. -/
def invoicesService.List.listFn {σ ε : Type} {W : WireType → Type}
    (call : ClientCall σ ε (InvoiceList W)) :
    Generator (σ × W .InvoiceListItem) ε W :=
  fun opt st =>
    match call opt st.1 with
    | ((invoiceList, resp, err), s1) =>
      match err with
      | some e => ({ elems := none, resp := none, err := some e }, (s1, st.2))
      | none =>
        ({ elems := some (copyLoop (toIface .InvoiceListItem) none invoiceList.Invoices.toList),
           resp := resp, err := none }, (s1, invoiceList.InvoicePreview))

/-- The method `invoicesService.List` (invoices.go:64-96).  `zero` is the zero value of
`binarylane.InvoiceListItem` (`var invoicePreview binarylane.InvoiceListItem`
and the elements of `make`); the result is a pointer, nil on an error. -/
def invoicesService.List {σ ε : Type} {W : WireType → Type} (zero : W .InvoiceListItem)
    (drv : Driver (σ × W .InvoiceListItem) ε W) (call : ClientCall σ ε (InvoiceList W))
    (s : σ) : Option (GoResult ε (Option (InvoiceList W)) × σ) :=
  match drv (invoicesService.List.listFn call) (s, zero) with
  | none => none
  | some ((paginatedList, err), (s1, invoicePreview)) =>
    match err with
    | some e => some (.ret none (some (.ext e)), s1)
    | none =>
      match convertLoop (typeAssert .InvoiceListItem) zero paginatedList.toList with
      | none => some (.panic, s1)
      | some list =>
        some (.ret (some { Invoices := some list, InvoicePreview := invoicePreview }) none, s1)

/-- The closure `listFn` of `invoicesService.Get` (invoices.go:99-109). -/
def invoicesService.Get.listFn {σ ε : Type} {W : WireType → Type}
    (call : ClientCall σ ε (Invoice W)) : Generator σ ε W :=
  fun opt s =>
    match call opt s with
    | ((invoice, resp, err), s1) =>
      match err with
      | some e => ({ elems := none, resp := none, err := some e }, s1)
      | none =>
        ({ elems := some (copyLoop (toIface .InvoiceItem) none invoice.InvoiceItems.toList),
           resp := resp, err := none }, s1)

/-- The method `invoicesService.Get` (invoices.go:98-127). -/
def invoicesService.Get {σ ε : Type} {W : WireType → Type} (zero : W .InvoiceItem)
    (drv : Driver σ ε W) (call : ClientCall σ ε (Invoice W)) (s : σ) :
    Option (GoResult ε (Option (Invoice W)) × σ) :=
  match drv (invoicesService.Get.listFn call) s with
  | none => none
  | some ((paginatedList, err), s1) =>
    match err with
    | some e => some (.ret none (some (.ext e)), s1)
    | none =>
      match convertLoop (typeAssert .InvoiceItem) zero paginatedList.toList with
      | none => some (.panic, s1)
      | some list => some (.ret (some { InvoiceItems := some list }) none, s1)

/-- The closure `listFn` of `billingHistoryService.List`
(billing_history.go:46-57). -/
def billingHistoryService.List.listFn {σ ε : Type} {W : WireType → Type}
    (call : ClientCall σ ε (BillingHistory W)) : Generator σ ε W :=
  fun opt s =>
    match call opt s with
    | ((historyList, resp, err), s1) =>
      match err with
      | some e => ({ elems := none, resp := none, err := some e }, s1)
      | none =>
        ({ elems := some (copyLoop (toIface .BillingHistoryEntry) none
              historyList.BillingHistory.toList),
           resp := resp, err := none }, s1)

/-- The method `billingHistoryService.List` (billing_history.go:45-68). -/
def billingHistoryService.List {σ ε : Type} {W : WireType → Type}
    (zero : W .BillingHistoryEntry) (drv : Driver σ ε W)
    (call : ClientCall σ ε (BillingHistory W)) (s : σ) :
    Option (GoResult ε (Option (BillingHistory W)) × σ) :=
  match drv (billingHistoryService.List.listFn call) s with
  | none => none
  | some ((paginatedList, err), s1) =>
    match err with
    | some e => some (.ret none (some (.ext e)), s1)
    | none =>
      match convertLoop (typeAssert .BillingHistoryEntry) zero paginatedList.toList with
      | none => some (.panic, s1)
      | some list => some (.ret (some { BillingHistory := some list }) none, s1)

/-! ## Vocabulary for the adapters -/

/-- An interface value has the wire type `t`: it is non-nil and its dynamic
type is `t`. -/
def hasWireType {W : WireType → Type} (t : WireType) : Iface W → Bool
  | none => false
  | some d => d.dynType == t

/-- The conversion of every element of a list, in order; `none` as soon as
the conversion of one element fails. -/
def convertAll {α β : Type} (f : α → Option β) : List α → Option (List β)
  | [] => some []
  | x :: xs =>
    match f x with
    | none => none
    | some b => (convertAll f xs).map fun bs => b :: bs

/-- The typed list `list` is the merged collection `si` element for element:
as many elements, and the `i`-th is `wrap a` for the value `a` of wire type
`t` that `si[i]` holds. -/
def WrapsEach {W : WireType → Type} {β : Type} (t : WireType) (wrap : W t → β)
    (si : List (Iface W)) (list : List β) : Prop :=
  list.length = si.length ∧
    ∀ (i : Nat) (x : Iface W), si[i]? = some x →
      ∃ a, typeAssert t x = some a ∧ list[i]? = some (wrap a)

/-- What a page-fetch closure returns for a successful client response that
carries the wire list `L` and the response `resp`: a non-nil element slice as
long as `L` whose `i`-th element is `L[i]` as an interface value, the same
response, and a nil error. -/
def BoxesPage {ε : Type} {W : WireType → Type} (t : WireType) (L : List (W t))
    (resp : Option Response) (r : FetchResult ε W) : Prop :=
  (∃ si, r.elems = some si ∧ si.length = L.length ∧
      ∀ i (h : i < L.length), si[i]? = some (toIface t L[i])) ∧
    r.resp = resp ∧ r.err = none

/-! ## Vocabulary for runs of a page fetcher

The fetcher is stateful, so "page `i`" of a fetcher is what its `i`-th
invocation returns when it is invoked for pages `1, 2, ...` in turn, each time
with the page size `perPage`, starting from a given world state. -/

/-- The world state after `n` successive invocations for pages
`p, p+1, ..., p+n-1`. -/
def stateFrom {σ R : Type} (gen : ListOptions → σ → R × σ) : Nat → Nat → σ → σ
  | 0, _, s => s
  | n + 1, p, s => stateFrom gen n (p + 1) (gen { Page := p, PerPage := perPage } s).2

/-- The result of the invocation for page `p + j`, after the invocations for
pages `p, ..., p+j-1`. -/
def pageFrom {σ R : Type} (gen : ListOptions → σ → R × σ) (j p : Nat) (s : σ) : R :=
  (gen { Page := p + j, PerPage := perPage } (stateFrom gen j p s)).1

/-- The world state after the first `n` invocations (pages `1..n`). -/
def stateAfter {σ R : Type} (gen : ListOptions → σ → R × σ) (s : σ) (n : Nat) : σ :=
  stateFrom gen n 1 s

/-- Page number `i + 1`: the result of the `(i+1)`-th invocation. -/
def pageAt {σ R : Type} (gen : ListOptions → σ → R × σ) (s : σ) (i : Nat) : R :=
  pageFrom gen i 1 s

/-- The concatenation `P_{p} ++ ... ++ P_{p+n-1}` of the element lists of `n`
successive pages. -/
def concatFrom {σ ε : Type} {W : WireType → Type} (gen : Generator σ ε W) :
    Nat → Nat → σ → List (Iface W)
  | 0, _, _ => []
  | n + 1, p, s =>
    (gen { Page := p, PerPage := perPage } s).1.elems.toList ++
      concatFrom gen n (p + 1) (gen { Page := p, PerPage := perPage } s).2

/-- The concatenation `P1 ++ P2 ++ ... ++ Pn` of the first `n` pages. -/
def pagesConcat {σ ε : Type} {W : WireType → Type} (gen : Generator σ ε W)
    (s : σ) : Nat → List (Iface W)
  | 0 => []
  | n + 1 => pagesConcat gen s n ++ (pageAt gen s n).elems.toList

/-- A page on which the driver goes on: the fetch succeeded and the response
carries a next link. -/
def continues {ε : Type} {W : WireType → Type} (r : FetchResult ε W) : Bool :=
  r.err.isNone && hasNextPage r.resp

/-- The concatenation, in fetch order, of the invoices of the first `n` pages
of an invoice list call. -/
def invoicesConcat {σ ε : Type} {W : WireType → Type}
    (call : ClientCall σ ε (InvoiceList W)) (s : σ) : Nat → List (W .InvoiceListItem)
  | 0 => []
  | n + 1 => invoicesConcat call s n ++ (pageAt call s n).1.Invoices.toList

/-- A page fetcher instrumented with a log of the requests it receives, the
way a mock fetcher of a test records its calls.  The log is the second
component of the world state; the fetcher itself is unchanged. -/
def logged {σ ε : Type} {W : WireType → Type} (gen : Generator σ ε W) :
    Generator (σ × List ListOptions) ε W :=
  fun opt st => ((gen opt st.1).1, ((gen opt st.1).2, st.2 ++ [opt]))

/-- The requests for `n` successive pages from page `p` on. -/
def requestsFrom : Nat → Nat → List ListOptions
  | 0, _ => []
  | n + 1, p => { Page := p, PerPage := perPage } :: requestsFrom n (p + 1)

/-- The request log of a run of `k` fetches: the `i`-th request asks for page
`i` (the first for page 1) at page size 200. -/
def requestLog (k : Nat) : List ListOptions :=
  (List.range k).map fun i => { Page := i + 1, PerPage := 200 }

/-! ## Fixtures for the examples -/

/-- Wire structs stood in for by numbers. -/
abbrev DemoW : WireType → Type := fun _ => Nat

/-- A response whose envelope carries a next link and the given total. -/
def respWithNext (total : Int) : Option Response :=
  some { Links := some { Pages := some { First := "", Prev := "", Last := "", Next := "?page=next" } },
         Meta := some { Total := total } }

/-- A response whose envelope carries no next link. -/
def respNoNext (total : Int) : Option Response :=
  some { Links := some { Pages := none }, Meta := some { Total := total } }

/-- Three pages: `[10, 11]` with a next link, an empty page with a next link,
`[12]` without a next link. -/
def demoThreePages : Generator Unit String DemoW := fun opt s =>
  if opt.Page = 1 then
    ({ elems := some [toIface .Server 10, toIface .Server 11], resp := respWithNext 3, err := none }, s)
  else if opt.Page = 2 then
    ({ elems := some [], resp := respWithNext 3, err := none }, s)
  else
    ({ elems := some [toIface .Server 12], resp := respNoNext 3, err := none }, s)

/-- The three pages of `demoThreePages`, with other (and mutually
inconsistent) `meta.total` values. -/
def demoThreePagesOtherTotal : Generator Unit String DemoW := fun opt s =>
  if opt.Page = 1 then
    ({ elems := some [toIface .Server 10, toIface .Server 11], resp := respWithNext 1000, err := none }, s)
  else if opt.Page = 2 then
    ({ elems := some [], resp := respWithNext 0, err := none }, s)
  else
    ({ elems := some [toIface .Server 12], resp := respNoNext (-5), err := none }, s)

/-- A client list call that answers page 1 with the wire list `[10, 11]` and
a next link, and every other page with an error. -/
def demoCall (t : WireType) : ClientCall Unit String (Slice (DemoW t)) := fun opt s =>
  if opt.Page = 1 then ((some [10, 11], respWithNext 2, none), s)
  else ((none, none, some "connection reset"), s)

/-- An invoice list call: page 1 carries the invoices `[10, 11]`, the preview
`7` and a next link; page 2 the invoices `[12]` and the preview `8`; every
other page fails. -/
def demoInvoiceCall : ClientCall Unit String (InvoiceList DemoW) := fun opt s =>
  if opt.Page = 1 then
    (({ Invoices := some [10, 11], InvoicePreview := 7 }, respWithNext 3, none), s)
  else if opt.Page = 2 then
    (({ Invoices := some [12], InvoicePreview := 8 }, respNoNext 3, none), s)
  else (({ Invoices := none, InvoicePreview := 0 }, none, some "connection reset"), s)

/-- An invoice call (`Invoices.Get`) with the single page `[10, 11]`. -/
def demoInvoiceGetCall : ClientCall Unit String (Invoice DemoW) := fun opt s =>
  if opt.Page = 1 then (({ InvoiceItems := some [10, 11] }, respNoNext 2, none), s)
  else (({ InvoiceItems := none }, none, some "connection reset"), s)

/-- A billing history call with the single page `[10, 11]`. -/
def demoBillingCall : ClientCall Unit String (BillingHistory DemoW) := fun opt s =>
  if opt.Page = 1 then (({ BillingHistory := some [10, 11] }, respNoNext 2, none), s)
  else (({ BillingHistory := none }, none, some "connection reset"), s)

/-- A driver that hands back the given result without calling the fetcher. -/
def constDriver {σ : Type} (r : DriverResult String DemoW) : Driver σ String DemoW :=
  fun _ s => some (r, s)

/-- Two pages: `[10]` with a next link, then a failing fetch. -/
def demoFailing : Generator Unit String DemoW := fun opt s =>
  if opt.Page = 1 then
    ({ elems := some [toIface .Server 10], resp := respWithNext 2, err := none }, s)
  else
    ({ elems := none, resp := none, err := some "connection reset" }, s)

/-! ## Package `commands`: the library functions it calls

Go strings are byte strings; the separators the package splits on (`,`, `:`
and the blank) and the digits and signs that `strconv` reads are ASCII, so a
string is taken as the list of its characters. -/

/-- Go `strings.Split` for a one-character separator, on a list of
characters: every piece between two separators, empty pieces included; a
string without separator is a single piece. -/
def splitChars (sep : Char) : List Char → List (List Char)
  | [] => [[]]
  | c :: cs =>
    if c = sep then [] :: splitChars sep cs
    else
      match splitChars sep cs with
      | [] => [[c]]
      | p :: ps => (c :: p) :: ps

/-- Go `strings.Split(s, sep)` for a one-character separator. -/
def strings.Split (s : String) (sep : Char) : List String :=
  (splitChars sep s.data).map String.mk

/-- Go `strings.SplitN(s, sep, 2)` on a list of characters: the string is cut
at the first separator only. -/
def splitFirstChars (sep : Char) : List Char → List (List Char)
  | [] => [[]]
  | c :: cs =>
    if c = sep then [[], cs]
    else
      match splitFirstChars sep cs with
      | [] => [[c]]
      | p :: ps => (c :: p) :: ps

/-- Go `strings.SplitN(s, sep, 2)` for a one-character separator. -/
def strings.SplitN2 (s : String) (sep : Char) : List String :=
  (splitFirstChars sep s.data).map String.mk

/-- The value of a decimal digit. -/
def digitValue (c : Char) : Option Nat :=
  if '0' ≤ c ∧ c ≤ '9' then some (c.toNat - '0'.toNat) else none

/-- The number that a string of decimal digits denotes, read from an
accumulator on; `none` when a character is not a digit. -/
def parseDecimal : List Char → Nat → Option Nat
  | [], acc => some acc
  | c :: cs, acc =>
    match digitValue c with
    | none => none
    | some d => parseDecimal cs (acc * 10 + d)

/-- Go `strconv.Atoi` on a 64-bit platform: an optional sign, then one or
more decimal digits, the value within the range of `int`; `none` is a
non-nil error. -/
def strconv.Atoi (s : String) : Option Int :=
  match s.data with
  | [] => none
  | c :: cs =>
    if c = '-' then
      match cs with
      | [] => none
      | _ => (parseDecimal cs 0).bind fun n => if n ≤ 2 ^ 63 then some (-(n : Int)) else none
    else if c = '+' then
      match cs with
      | [] => none
      | _ => (parseDecimal cs 0).bind fun n => if n < 2 ^ 63 then some (n : Int) else none
    else (parseDecimal (c :: cs) 0).bind fun n => if n < 2 ^ 63 then some (n : Int) else none

/-- Go `strconv.Itoa`. -/
def strconv.Itoa (n : Int) : String := toString n

/-- Go `strconv.ParseBool`; `none` is a non-nil error. -/
def strconv.ParseBool (s : String) : Option Bool :=
  if s = "1" ∨ s = "t" ∨ s = "T" ∨ s = "TRUE" ∨ s = "true" ∨ s = "True" then some true
  else if s = "0" ∨ s = "f" ∨ s = "F" ∨ s = "FALSE" ∨ s = "false" ∨ s = "False" then some false
  else none

/-- The error value of a call `fmt.Errorf(format, args...)`.  The message is
kept as the format string followed by the operands, not as the formatted
text. -/
def Errorf {ε : Type} (format : String) (args : List String) : GoError ε :=
  .new (String.intercalate " | " (format :: args))

/-- Go `append(s, xs...)`: appending nothing gives `s` back, `nil` included. -/
def goAppend {α : Type} (s : Slice α) : List α → Slice α
  | [] => s
  | x :: xs => some (s.toList ++ x :: xs)

/-- A Go map, as the list of its entries (no key occurs twice). -/
abbrev GoMap (κ ν : Type) := List (κ × ν)

/-- The lookup `v, ok := m[k]`. -/
def GoMap.get? {κ ν : Type} [DecidableEq κ] (m : GoMap κ ν) (k : κ) : Option ν :=
  (m.find? fun p => p.1 = k).map fun p => p.2

/-- The assignment `m[k] = v`. -/
def GoMap.set {κ ν : Type} [DecidableEq κ] (m : GoMap κ ν) (k : κ) (v : ν) : GoMap κ ν :=
  (k, v) :: m.filter fun p => p.1 ≠ k

/-- Go `sort.Ints` on a slice. -/
def sort.Ints (s : Slice Int) : Slice Int :=
  s.map fun l => l.insertionSort (fun a b => a ≤ b)

/-! ## Package `commands`: resolving server arguments -/

/-- The field of the client type `Image` that package `commands` reads. -/
structure binarylane.Image where
  Slug : String := ""
  deriving DecidableEq, Repr

/-- The client type `NetworkV4` (servers.go:264-269 of the client); `NetType`
is its field `Type`. -/
structure binarylane.NetworkV4 where
  IPAddress : String := ""
  Netmask : String := ""
  Gateway : String := ""
  NetType : String := ""
  deriving DecidableEq, Repr

/-- The client type `Networks` (servers.go:258-261 of the client), without its
IPv6 list. -/
structure binarylane.Networks where
  V4 : Slice binarylane.NetworkV4 := none
  deriving DecidableEq, Repr

/-- The fields of `binarylane.Server` that package `commands` reads when it
resolves server arguments and when it connects to a server; `Image` and
`Networks` are pointers, `none` is nil. -/
structure binarylane.Server where
  ID : Int
  Name : String
  Image : Option binarylane.Image := none
  Networks : Option binarylane.Networks := none
  deriving DecidableEq, Repr

/-- The loop of `allInt` (servers.go:436-448): `seen` holds the arguments met
so far, `out` the integers collected. -/
def allIntLoop {ε : Type} : List String → List String → List Int →
    Except (GoError ε) (Slice Int)
  | [], _, out => .ok (some out)
  | i :: rest, seen, out =>
    if i ∈ seen then allIntLoop rest seen out
    else
      match strconv.Atoi i with
      | none => .error (Errorf "%s is not an int" [i])
      | some id => allIntLoop rest (i :: seen) (out ++ [id])

/-- The function `allInt` (servers.go:432-450). -/
def allInt {ε : Type} (ids : List String) : Except (GoError ε) (Slice Int) :=
  allIntLoop ids [] []

/-- The struct `serverSummary` (servers.go:720-724). -/
structure serverSummary where
  count : GoMap String Int
  byID : GoMap String Int
  byName : GoMap String (Slice String)

/-- One turn of the loop of `buildServerSummary`: `sum.count[d.Name]++`,
`sum.byID[d.Name] = d.ID`, `sum.byName[d.Name] = append(sum.byName[d.Name],
strconv.Itoa(d.ID))`. -/
def serverSummary.add (sum : serverSummary) (d : binarylane.Server) : serverSummary :=
  { count := sum.count.set d.Name ((sum.count.get? d.Name).getD 0 + 1)
    byID := sum.byID.set d.Name d.ID
    byName := sum.byName.set d.Name
      (goAppend ((sum.byName.get? d.Name).getD none) [strconv.Itoa d.ID]) }

/-- The function `buildServerSummary` (servers.go:726-744); `ds_List` is
`ds.List()`, whose servers are taken by value. -/
def buildServerSummary {σ ε : Type}
    (ds_List : σ → (Slice binarylane.Server × Option (GoError ε)) × σ) (s : σ) :
    Except (GoError ε) serverSummary × σ :=
  match ds_List s with
  | ((list, err), s1) =>
    match err with
    | some e => (.error e, s1)
    | none =>
      (.ok (list.toList.foldl serverSummary.add { count := [], byID := [], byName := [] }), s1)

/-- The first loop of `matchServers` (servers.go:525-544): every argument is
looked up in the summary and its ID entered in `matchedMap`. -/
def matchServersLoop {ε : Type} (sum : serverSummary) :
    List String → GoMap Int Bool → Except (GoError ε) (GoMap Int Bool)
  | [], matchedMap => .ok matchedMap
  | idStr :: rest, matchedMap =>
    if (sum.count.get? idStr).getD 0 > 1 then
      .error (Errorf
        "There are %d Servers with the name %q; please provide a specific Server ID. [%s]"
        [toString ((sum.count.get? idStr).getD 0), idStr,
          String.intercalate ", " (Slice.toList ((sum.byName.get? idStr).getD none))])
    else
      match strconv.Atoi idStr with
      | none =>
        match sum.byID.get? idStr with
        | none => .error (Errorf "Server with the name %q could not be found." [idStr])
        | some id => matchServersLoop sum rest (matchedMap.set id true)
      | some id => matchServersLoop sum rest (matchedMap.set id true)

/-- The function `matchServers` (servers.go:514-553).  The callback `fn` acts
on the world state; ranging over `matchedMap` visits its keys in an order
that Go leaves open, and `sort.Ints` then orders them. -/
def matchServers {σ ε : Type} (ids : List String)
    (ds_List : σ → (Slice binarylane.Server × Option (GoError ε)) × σ)
    (fn : Slice Int → σ → Option (GoError ε) × σ) (s : σ) : Option (GoError ε) × σ :=
  match allInt (ε := ε) ids with
  | .ok extractedIDs => fn extractedIDs s
  | .error _ =>
    match buildServerSummary ds_List s with
    | (.error err, s1) => (some err, s1)
    | (.ok sum, s1) =>
      match matchServersLoop sum ids [] with
      | .error err => (some err, s1)
      | .ok matchedMap =>
        fn (sort.Ints (goAppend none (matchedMap.map fun p => p.1))) s1

/-- A callback that records the ID lists it is invoked with, in a log that is
the world state, and returns no error. -/
def recordingFn {ε : Type} (ids : Slice Int) (log : List (Slice Int)) :
    Option (GoError ε) × List (Slice Int) :=
  (none, log ++ [ids])

/-- A `ds.List()` that returns the given servers and no error. -/
def listReturning {σ ε : Type} (list : List binarylane.Server) (s : σ) :
    (Slice binarylane.Server × Option (GoError ε)) × σ :=
  ((some list, none), s)

/-- The number of listed servers that bear the name `a`. -/
def nameCount (list : List binarylane.Server) (a : String) : Nat :=
  (list.filter fun d => d.Name = a).length

/-! ## Package `commands`: untagging servers -/

/-- The client type `binarylane.ResourceType`; `ServerResourceType` is the
constant that package `commands` uses. -/
inductive binarylane.ResourceType
  | ServerResourceType
  | other (name : String)
  deriving DecidableEq, Repr

/-- The client type `binarylane.Resource` (its field `Type` is `ResType`
here). -/
structure binarylane.Resource where
  ID : String
  ResType : binarylane.ResourceType
  deriving DecidableEq, Repr

/-- The client type `binarylane.UntagResourcesRequest`. -/
structure binarylane.UntagResourcesRequest where
  Resources : Slice binarylane.Resource
  deriving DecidableEq, Repr

/-- The statements `r := binarylane.Resource{ID: strconv.Itoa(id), Type:
binarylane.ServerResourceType}` and `urr.Resources = append(urr.Resources,
r)` of the callback of `RunServerUntag`. -/
def RunServerUntag.push (urr : binarylane.UntagResourcesRequest) (id : Int) :
    binarylane.UntagResourcesRequest :=
  { Resources := goAppend urr.Resources
      [binarylane.Resource.mk (strconv.Itoa id) binarylane.ResourceType.ServerResourceType] }

/-- The inner loop of the callback of `RunServerUntag` (servers.go:365-378)
for one `id`: for each tag name a resource for `id` is appended to
`urr.Resources` and `ts.UntagResources(tagName, urr)` is called with the
request as it then stands; the first error ends the callback. -/
def RunServerUntag.inner {σ ε : Type}
    (ts_UntagResources : String → binarylane.UntagResourcesRequest → σ →
      Option (GoError ε) × σ) (id : Int) :
    List String → binarylane.UntagResourcesRequest → σ →
      (Option (GoError ε) × binarylane.UntagResourcesRequest) × σ
  | [], urr, s => ((none, urr), s)
  | tagName :: rest, urr, s =>
    match ts_UntagResources tagName
        (RunServerUntag.push urr id) s with
    | (some err, s1) =>
      ((some err, RunServerUntag.push urr id), s1)
    | (none, s1) =>
      RunServerUntag.inner ts_UntagResources id rest
        (RunServerUntag.push urr id) s1

/-- The outer loop of the callback of `RunServerUntag`, over the IDs; the
request `urr` is the same object throughout. -/
def RunServerUntag.outer {σ ε : Type}
    (ts_UntagResources : String → binarylane.UntagResourcesRequest → σ →
      Option (GoError ε) × σ) (tagNames : List String) :
    List Int → binarylane.UntagResourcesRequest → σ → Option (GoError ε) × σ
  | [], _, s => (none, s)
  | id :: rest, urr, s =>
    match RunServerUntag.inner ts_UntagResources id tagNames urr s with
    | ((some err, _), s1) => (some err, s1)
    | ((none, urr1), s1) => RunServerUntag.outer ts_UntagResources tagNames rest urr1 s1

/-- The callback `fn` of `RunServerUntag` (servers.go:362-381):
`urr := &binarylane.UntagResourcesRequest{}`, then the two loops. -/
def RunServerUntag.fn {σ ε : Type}
    (ts_UntagResources : String → binarylane.UntagResourcesRequest → σ →
      Option (GoError ε) × σ) (tagNames : List String) (ids : Slice Int) (s : σ) :
    Option (GoError ε) × σ :=
  RunServerUntag.outer ts_UntagResources tagNames ids.toList { Resources := none } s

/-- The function `RunServerUntag` (servers.go:344-384).  `args` is `c.Args`,
`missingArgs` the error of `blcli.NewMissingArgsErr(c.NS)`, `tagNames` the
result of `c.Doit.GetStringSlice(c.NS, blcli.ArgTagName)`. -/
def RunServerUntag {σ ε : Type} (args : List String) (missingArgs : GoError ε)
    (tagNames : Slice String × Option (GoError ε))
    (ds_List : σ → (Slice binarylane.Server × Option (GoError ε)) × σ)
    (ts_UntagResources : String → binarylane.UntagResourcesRequest → σ →
      Option (GoError ε) × σ) (s : σ) : Option (GoError ε) × σ :=
  if args.length < 1 then (some missingArgs, s)
  else
    match tagNames with
    | (_, some err) => (some err, s)
    | (names, none) =>
      matchServers args ds_List (RunServerUntag.fn ts_UntagResources names.toList) s

/-- An `UntagResources` that records each request it receives, as the tag
name and the resources the request lists at the time of the call, and
returns no error. -/
def recordingUntag {ε : Type} (tagName : String) (urr : binarylane.UntagResourcesRequest)
    (log : List (String × List binarylane.Resource)) :
    Option (GoError ε) × List (String × List binarylane.Resource) :=
  (none, log ++ [(tagName, urr.Resources.toList)])

/-! ## Package `commands`: listing snapshots -/

/-- The fields of `binarylane.Snapshot` that `RunSnapshotList` reads. -/
structure binarylane.Snapshot where
  ID : String
  Name : String
  Regions : Slice String
  deriving DecidableEq, Repr

/-- The first part of the loop body of `RunSnapshotList`
(snapshots.go:111-124): the value of `skip` after the globs; `globs` are
the `Match` methods of the compiled globs. -/
def RunSnapshotList.skipByGlob (globs : List (String → Bool))
    (snapshot : binarylane.Snapshot) : Bool :=
  match globs with
  | [] => false
  | _ =>
    globs.foldl
      (fun skip m =>
        let skip1 := if m snapshot.ID then false else skip
        if m snapshot.Name then false else skip1)
      true

/-- The region loop of `RunSnapshotList` (snapshots.go:127-134): from the
current `skip`, each region of the snapshot sets `skip` to true when it
differs from `region`, and sets it to false and ends the loop when it is
`region`. -/
def RunSnapshotList.skipByRegion (region : String) : List String → Bool → Bool
  | [], skip => skip
  | snapshotRegion :: rest, _ =>
    if region ≠ snapshotRegion then RunSnapshotList.skipByRegion region rest true
    else false

/-- The loop body of `RunSnapshotList` (snapshots.go:110-141): the final
value of `skip` for one snapshot. -/
def RunSnapshotList.skip (globs : List (String → Bool)) (region : String)
    (snapshot : binarylane.Snapshot) : Bool :=
  if !RunSnapshotList.skipByGlob globs snapshot && region != "" then
    RunSnapshotList.skipByRegion region snapshot.Regions.toList
      (RunSnapshotList.skipByGlob globs snapshot)
  else RunSnapshotList.skipByGlob globs snapshot

/-- The function `RunSnapshotList` (snapshots.go:66-145), as the snapshots
it hands to `c.Display`, or the error it returns before that.  `restype` and
`region` are the results of the two `GetString` calls, `compile` is
`glob.Compile` followed by `Match`, and `listServer`, `listVolume`,
`listAll` are the results of `ss.ListServer()`, `ss.ListVolume()` and
`ss.List()`. -/
def RunSnapshotList {ε : Type} (args : List String)
    (restype region : String × Option (GoError ε))
    (compile : String → Option (String → Bool))
    (listServer listVolume listAll : Slice binarylane.Snapshot × Option (GoError ε)) :
    Except (GoError ε) (Slice binarylane.Snapshot) :=
  match restype.2 with
  | some err => .error err
  | none =>
    match region.2 with
    | some err => .error err
    | none =>
      match convertAll (fun globStr => compile globStr) args,
          args.find? fun globStr => (compile globStr).isNone with
      | none, bad => .error (Errorf "unknown glob %q" [bad.getD ""])
      | some globs, _ =>
        match (if restype.1 = "server" then listServer
            else if restype.1 = "volume" then listVolume else listAll) with
        | (_, some err) => .error err
        | (list, none) =>
          .ok (goAppend none
            (list.toList.filter fun snapshot =>
              !RunSnapshotList.skip globs region.1 snapshot))

/-! ## The load balancer types of the client -/

/-- The client type `binarylane.ForwardingRule`. -/
structure binarylane.ForwardingRule where
  EntryProtocol : String
  EntryPort : Int
  TargetProtocol : String
  TargetPort : Int
  CertificateID : String
  TlsPassthrough : Bool
  deriving DecidableEq, Repr

/-- The client type `binarylane.HealthCheck`. -/
structure binarylane.HealthCheck where
  Protocol : String
  Port : Int
  Path : String
  CheckIntervalSeconds : Int
  ResponseTimeoutSeconds : Int
  HealthyThreshold : Int
  UnhealthyThreshold : Int
  deriving DecidableEq, Repr

/-- The client type `binarylane.StickySessions` (its field `Type` is
`SessionType` here). -/
structure binarylane.StickySessions where
  SessionType : String
  CookieName : String
  CookieTtlSeconds : Int
  deriving DecidableEq, Repr

/-- The field of `binarylane.Region` that `AsRequest` reads. -/
structure binarylane.Region where
  Slug : String
  deriving DecidableEq, Repr

/-- The client type `binarylane.LoadBalancer`; a pointer field is an
`Option`, `none` being nil. -/
structure binarylane.LoadBalancer where
  ID : Int
  Name : String
  IP : String
  SizeSlug : String
  Algorithm : String
  Status : String
  Created : String
  ForwardingRules : Slice binarylane.ForwardingRule
  HealthCheck : Option binarylane.HealthCheck
  StickySessions : Option binarylane.StickySessions
  Region : Option binarylane.Region
  ServerIDs : Slice Int
  Tag : String
  Tags : Slice String
  RedirectHttpToHttps : Bool
  EnableProxyProtocol : Bool
  EnableBackendKeepalive : Bool
  VPCID : Int
  deriving DecidableEq, Repr

/-- The client type `binarylane.LoadBalancerRequest`. -/
structure binarylane.LoadBalancerRequest where
  Name : String
  Algorithm : String
  Region : String
  SizeSlug : String
  ForwardingRules : Slice binarylane.ForwardingRule
  HealthCheck : Option binarylane.HealthCheck
  StickySessions : Option binarylane.StickySessions
  ServerIDs : Slice Int
  Tag : String
  Tags : Slice String
  RedirectHttpToHttps : Bool
  EnableProxyProtocol : Bool
  EnableBackendKeepalive : Bool
  VPCID : Int
  deriving DecidableEq, Repr

/-- The method `LoadBalancer.AsRequest` (load_balancers.go:61-90).  The
composite literal sets eleven fields and leaves `Region`, `StickySessions` and
`Tags` at their zero values; the three `if` statements then copy the health
check and the sticky sessions into fresh structs and set `Region` to the
region's slug. -/
def binarylane.LoadBalancer.AsRequest (l : binarylane.LoadBalancer) :
    binarylane.LoadBalancerRequest :=
  let r : binarylane.LoadBalancerRequest :=
    { Name := l.Name
      Algorithm := l.Algorithm
      Region := ""
      SizeSlug := l.SizeSlug
      ForwardingRules := goAppend none l.ForwardingRules.toList
      HealthCheck := l.HealthCheck
      StickySessions := none
      ServerIDs := goAppend none l.ServerIDs.toList
      Tag := l.Tag
      Tags := none
      RedirectHttpToHttps := l.RedirectHttpToHttps
      EnableProxyProtocol := l.EnableProxyProtocol
      EnableBackendKeepalive := l.EnableBackendKeepalive
      VPCID := l.VPCID }
  let r1 : binarylane.LoadBalancerRequest :=
    match l.HealthCheck with
    | some h => { r with HealthCheck := some h }
    | none => r
  let r2 : binarylane.LoadBalancerRequest :=
    match l.StickySessions with
    | some st => { r1 with StickySessions := some st }
    | none => r1
  match l.Region with
  | some region => { r2 with Region := region.Slug }
  | none => r2

/-- A load balancer with a health check, sticky sessions, a region, two
forwarding rules, two servers and two tags. -/
def demoLoadBalancer : binarylane.LoadBalancer :=
  { ID := 7, Name := "lb", IP := "10.0.0.1", SizeSlug := "lb-small", Algorithm := "round_robin",
    Status := "active", Created := "2020-01-01",
    ForwardingRules := some
      [{ EntryProtocol := "tcp", EntryPort := 80, TargetProtocol := "tcp", TargetPort := 8080,
         CertificateID := "", TlsPassthrough := false },
       { EntryProtocol := "tcp", EntryPort := 443, TargetProtocol := "tcp", TargetPort := 8443,
         CertificateID := "", TlsPassthrough := true }],
    HealthCheck := some { Protocol := "http", Port := 80, Path := "/", CheckIntervalSeconds := 10,
                          ResponseTimeoutSeconds := 5, HealthyThreshold := 5,
                          UnhealthyThreshold := 3 },
    StickySessions := some { SessionType := "cookies", CookieName := "lb",
                             CookieTtlSeconds := 300 },
    Region := some { Slug := "syd" },
    ServerIDs := some [1, 2], Tag := "web", Tags := some ["blue", "green"],
    RedirectHttpToHttps := true, EnableProxyProtocol := false, EnableBackendKeepalive := true,
    VPCID := 3 }

/-! ## Package `commands`: filling a struct from `key:value` arguments -/

/-- The value of a struct field as `reflect` sees it: a `bool`, an `int`, a
`string`, or a value of any other kind. -/
inductive FieldValue
  | bool (b : Bool)
  | int (n : Int)
  | string (s : String)
  | other
  deriving DecidableEq, Repr

/-- A struct field as `reflect` sees it: its `json` tag and its value. -/
structure StructField where
  tag : String
  value : FieldValue
  deriving DecidableEq, Repr

/-- A struct value as `reflect` sees it: its fields in declaration order. -/
abbrev StructValue := List StructField

/-- The JSON name of a field: `strings.Split(tag, ",")[0]`. -/
def jsonName (tag : String) : String :=
  (strings.Split tag ',').headD ""

/-- The first loop of `fillStructFromStringSliceArgs`
(load_balancers.go:379-386): every token is split at its colons and entered
in the map `m` when it has exactly two parts; any other token ends the
function with an error. -/
def fillMap {ε : Type} : List String → GoMap String String →
    Except (GoError ε) (GoMap String String)
  | [], m => .ok m
  | v :: rest, m =>
    match strings.Split v ':' with
    | [k, val] => fillMap rest (m.set k val)
    | p => .error (Errorf "Unexpected input value %v: must be a key:value pair" p)

/-- The `switch` of `fillStructFromStringSliceArgs` on the kind of a field
whose JSON name is a key of `m` with value `val`: the new value of the field,
or `none` for the `default` case.  A value that `strconv.ParseBool` or
`strconv.Atoi` rejects leaves the field as it is. -/
def setField (val : String) : FieldValue → Option FieldValue
  | .bool b =>
    match strconv.ParseBool val with
    | some v => some (.bool v)
    | none => some (.bool b)
  | .int n =>
    match strconv.Atoi val with
    | some v => some (.int v)
    | none => some (.int n)
  | .string _ => some (.string val)
  | .other => none

/-- The second loop of `fillStructFromStringSliceArgs`
(load_balancers.go:391-411), over the fields in order: the struct after the
loop and the error returned, if any. -/
def fillFields {ε : Type} (m : GoMap String String) :
    StructValue → StructValue × Option (GoError ε)
  | [] => ([], none)
  | f :: rest =>
    match m.get? (jsonName f.tag) with
    | none =>
      match fillFields m rest with
      | (fields, err) => (f :: fields, err)
    | some val =>
      match setField val f.value with
      | none => (f :: rest, some (Errorf "Unexpected type for struct field %v" [val]))
      | some v =>
        match fillFields m rest with
        | (fields, err) => ({ f with value := v } :: fields, err)

/-- The function `fillStructFromStringSliceArgs` (load_balancers.go:371-414):
the struct that `obj` points to after the call, and the error returned. -/
def fillStructFromStringSliceArgs {ε : Type} (obj : StructValue) (s : String) :
    StructValue × Option (GoError ε) :=
  if s.length = 0 then (obj, none)
  else
    match fillMap (ε := ε) (strings.Split s ',') [] with
    | .error e => (obj, some e)
    | .ok m => fillFields m obj

/-- The struct `binarylane.ForwardingRule` as `reflect` sees it. -/
def binarylane.ForwardingRule.reflect (r : binarylane.ForwardingRule) : StructValue :=
  [{ tag := "entry_protocol,omitempty", value := .string r.EntryProtocol },
   { tag := "entry_port,omitempty", value := .int r.EntryPort },
   { tag := "target_protocol,omitempty", value := .string r.TargetProtocol },
   { tag := "target_port,omitempty", value := .int r.TargetPort },
   { tag := "certificate_id,omitempty", value := .string r.CertificateID },
   { tag := "tls_passthrough,omitempty", value := .bool r.TlsPassthrough }]

/-- The forwarding rule that a reflected struct value stands for (`r` when
the value does not have the shape of a forwarding rule). -/
def binarylane.ForwardingRule.ofReflect (v : StructValue) (r : binarylane.ForwardingRule) :
    binarylane.ForwardingRule :=
  match (v.map fun f => f.value : List FieldValue) with
  | [FieldValue.string a, FieldValue.int b, FieldValue.string c, FieldValue.int d,
      FieldValue.string e, FieldValue.bool f] =>
    { EntryProtocol := a, EntryPort := b, TargetProtocol := c, TargetPort := d,
      CertificateID := e, TlsPassthrough := f }
  | _ => r

/-- The struct `binarylane.HealthCheck` as `reflect` sees it. -/
def binarylane.HealthCheck.reflect (h : binarylane.HealthCheck) : StructValue :=
  [{ tag := "protocol,omitempty", value := .string h.Protocol },
   { tag := "port,omitempty", value := .int h.Port },
   { tag := "path,omitempty", value := .string h.Path },
   { tag := "check_interval_seconds,omitempty", value := .int h.CheckIntervalSeconds },
   { tag := "response_timeout_seconds,omitempty", value := .int h.ResponseTimeoutSeconds },
   { tag := "healthy_threshold,omitempty", value := .int h.HealthyThreshold },
   { tag := "unhealthy_threshold,omitempty", value := .int h.UnhealthyThreshold }]

/-- The struct `binarylane.StickySessions` as `reflect` sees it. -/
def binarylane.StickySessions.reflect (st : binarylane.StickySessions) : StructValue :=
  [{ tag := "type,omitempty", value := .string st.SessionType },
   { tag := "cookie_name,omitempty", value := .string st.CookieName },
   { tag := "cookie_ttl_seconds,omitempty", value := .int st.CookieTtlSeconds }]

/-- The zero value of `binarylane.ForwardingRule`, which
`new(binarylane.ForwardingRule)` points to. -/
def binarylane.ForwardingRule.zero : binarylane.ForwardingRule :=
  { EntryProtocol := "", EntryPort := 0, TargetProtocol := "", TargetPort := 0,
    CertificateID := "", TlsPassthrough := false }

/-- The loop of `extractForwardingRules` (load_balancers.go:359-366): each
piece fills a new forwarding rule, which is appended to the result; the first
error ends the function with a nil result. -/
def extractForwardingRules.loop {ε : Type} :
    List String → Slice binarylane.ForwardingRule →
      Slice binarylane.ForwardingRule × Option (GoError ε)
  | [], forwardingRules => (forwardingRules, none)
  | v :: rest, forwardingRules =>
    match fillStructFromStringSliceArgs (ε := ε) binarylane.ForwardingRule.zero.reflect v with
    | (_, some err) => (none, some err)
    | (obj, none) =>
      extractForwardingRules.loop rest
        (goAppend forwardingRules
          [binarylane.ForwardingRule.ofReflect obj binarylane.ForwardingRule.zero])

/-- The function `extractForwardingRules` (load_balancers.go:352-369). -/
def extractForwardingRules {ε : Type} (s : String) :
    Slice binarylane.ForwardingRule × Option (GoError ε) :=
  if s.length = 0 then (none, none)
  else extractForwardingRules.loop (strings.Split s ' ') none

/-- The key of a well-formed token of two colon-separated parts. -/
def tokenKey (tok : String) : String := (strings.Split tok ':').headD ""

/-- The value of a well-formed token of two colon-separated parts. -/
def tokenValue (tok : String) : String := (strings.Split tok ':').getD 1 ""

/-- The value of the last token, among the given ones, whose key is `key`. -/
def lastValue : List String → String → Option String
  | [], _ => none
  | tok :: rest, key =>
    match lastValue rest key with
    | some v => some v
    | none => if tokenKey tok = key then some (tokenValue tok) else none

/-- A struct value whose fields are all of kind `bool`, `int` or `string`. -/
def supportedKinds (obj : StructValue) : Prop :=
  ∀ f, f ∈ obj → f.value ≠ .other

/-! ## Package `commands`: firewall rules -/

/-- The nested map that `extractRule` stores under `sources` or
`destinations`: its four entries. -/
structure RuleTargets where
  addresses : Slice String
  server_ids : Slice Int
  load_balancer_uids : Slice String
  tags : Slice String
  deriving DecidableEq, Repr

/-- A value of the `map[string]interface{}` that `extractRule` builds: a
string, or the nested map of targets. -/
inductive RuleValue
  | str (s : String)
  | targets (t : RuleTargets)
  deriving DecidableEq, Repr

/-- The local variables of `extractRule`. -/
structure extractRule.Vars where
  rule : GoMap String RuleValue
  serverIDs : Slice Int
  addresses : Slice String
  lbUIDs : Slice String
  tags : Slice String

/-- The loop of `extractRule` (firewalls.go:451-472): each token is cut at
its first colon by `strings.SplitN(v, ":", 2)`; a token without colon, or a
`server_id` whose value is no integer, ends the function with an error. -/
def extractRule.loop {ε : Type} :
    List String → extractRule.Vars → Except (GoError ε) extractRule.Vars
  | [], vars => .ok vars
  | v :: rest, vars =>
    match strings.SplitN2 v ':' with
    | [key, val] =>
      if key = "address" then
        extractRule.loop rest { vars with addresses := goAppend vars.addresses [val] }
      else if key = "server_id" then
        match strconv.Atoi val with
        | none =>
          .error (Errorf "Provided value [%v] for server id is not of type int" [key])
        | some i => extractRule.loop rest { vars with serverIDs := goAppend vars.serverIDs [i] }
      else if key = "load_balancer_uid" then
        extractRule.loop rest { vars with lbUIDs := goAppend vars.lbUIDs [val] }
      else if key = "tag" then
        extractRule.loop rest { vars with tags := goAppend vars.tags [val] }
      else extractRule.loop rest { vars with rule := vars.rule.set key (.str val) }
    | pair => .error (Errorf "Unexpected input value [%v], must be a key:value pair" pair)

/-- The function `extractRule` (firewalls.go:445-483); after the loop the
entry `rule[sd]` is assigned the nested map of targets. -/
def extractRule {ε : Type} (ruleStr sd : String) :
    Except (GoError ε) (GoMap String RuleValue) :=
  match extractRule.loop (ε := ε) (strings.Split ruleStr ',')
      { rule := [], serverIDs := none, addresses := none, lbUIDs := none, tags := none } with
  | .error e => .error e
  | .ok vars =>
    .ok (vars.rule.set sd
      (.targets { addresses := vars.addresses, server_ids := vars.serverIDs,
                  load_balancer_uids := vars.lbUIDs, tags := vars.tags }))

/-- The loop of `extractInboundRules` and `extractOutboundRules`
(firewalls.go:411-420 and 431-440): each rule string is turned into a map by
`extractRule`, the map into a rule by `decode` (`json.Marshal` followed by
`json.Unmarshal` into a new rule), and the rule is appended. -/
def extractRules.loop {ε ρ : Type} (sd : String) (decode : GoMap String RuleValue → ρ) :
    List String → Slice ρ → Except (GoError ε) (Slice ρ)
  | [], rules => .ok rules
  | v :: rest, rules =>
    match extractRule (ε := ε) v sd with
    | .error e => .error e
    | .ok rule => extractRules.loop sd decode rest (goAppend rules [decode rule])

/-- The function `extractInboundRules` (firewalls.go:405-423). -/
def extractInboundRules {ε ρ : Type} (decode : GoMap String RuleValue → ρ) (s : String) :
    Except (GoError ε) (Slice ρ) :=
  if s.length = 0 then .ok none
  else extractRules.loop "sources" decode (strings.Split s ' ') none

/-- The function `extractOutboundRules` (firewalls.go:425-443). -/
def extractOutboundRules {ε ρ : Type} (decode : GoMap String RuleValue → ρ) (s : String) :
    Except (GoError ε) (Slice ρ) :=
  if s.length = 0 then .ok none
  else extractRules.loop "destinations" decode (strings.Split s ' ') none

/-- The key of a token `key:value`: what stands before its first colon. -/
def pairKey (tok : String) : String :=
  String.mk (tok.data.takeWhile fun c => c ≠ ':')

/-- The value of a token `key:value`: what stands after its first colon,
further colons included. -/
def pairValue (tok : String) : String :=
  String.mk (tok.data.dropWhile fun c => c ≠ ':').tail

/-- The values of the tokens whose key is `key`, in order of appearance. -/
def valuesOf (toks : List String) (key : String) : List String :=
  (toks.filter fun tok => pairKey tok = key).map pairValue

/-- The value of the last token whose key is `key`. -/
def lastPairValue : List String → String → Option String
  | [], _ => none
  | tok :: rest, key =>
    match lastPairValue rest key with
    | some v => some v
    | none => if pairKey tok = key then some (pairValue tok) else none

/-- The keys that `extractRule` collects into the nested map of targets. -/
def targetKeys : List String := ["address", "server_id", "load_balancer_uid", "tag"]

/-! ## Package `commands`: server ids and SSH keys -/

/-- The loop of `extractServerIDs` (extract.go:11-17): `serverIDs` holds the
integers read so far. -/
def extractServerIDs.loop {ε : Type} :
    List String → Slice Int → Slice Int × Option (GoError ε)
  | [], serverIDs => (serverIDs, none)
  | e :: rest, serverIDs =>
    match strconv.Atoi e with
    | none =>
      (none, some (Errorf "Provided value [%v] for server id is not of type int" [e]))
    | some i => extractServerIDs.loop rest (goAppend serverIDs [i])

/-- The function `extractServerIDs` (extract.go:8-20). -/
def extractServerIDs {ε : Type} (s : List String) : Slice Int × Option (GoError ε) :=
  extractServerIDs.loop s (some [])

/-- The client type `ServerCreateSSHKey` (servers.go:201-204 of the client). -/
structure binarylane.ServerCreateSSHKey where
  ID : Int := 0
  Fingerprint : String := ""
  deriving DecidableEq, Repr

/-- The loop of `extractSSHKeys` (servers.go:388-399). -/
def extractSSHKeys.loop :
    List String → Slice binarylane.ServerCreateSSHKey → Slice binarylane.ServerCreateSSHKey
  | [], sshKeys => sshKeys
  | k :: rest, sshKeys =>
    match strconv.Atoi k with
    | some i =>
      if i > 0 then extractSSHKeys.loop rest (goAppend sshKeys [{ ID := i }])
      else extractSSHKeys.loop rest sshKeys
    | none =>
      if k ≠ "" then extractSSHKeys.loop rest (goAppend sshKeys [{ Fingerprint := k }])
      else extractSSHKeys.loop rest sshKeys

/-- The function `extractSSHKeys` (servers.go:385-402). -/
def extractSSHKeys (keys : List String) : Slice binarylane.ServerCreateSSHKey :=
  extractSSHKeys.loop keys (some [])

/-- What the specification says of one key of `extractSSHKeys`: the entry it
contributes, if any. -/
def sshKeyOf (k : String) : Option binarylane.ServerCreateSSHKey :=
  match strconv.Atoi k with
  | some i => if i > 0 then some { ID := i } else none
  | none => if k ≠ "" then some { Fingerprint := k } else none

/-! ## Package `commands`: creating a floating IP -/

/-- The client type `FloatingIPCreateRequest`. -/
structure binarylane.FloatingIPCreateRequest where
  Region : String
  ServerID : Int
  deriving DecidableEq, Repr

/-- The function `RunFloatingIPCreate` (floating_ips.go:64-93).  `region` and
`serverID` are the results of `c.Doit.GetString(c.NS, blcli.ArgRegionSlug)`
and `c.Doit.GetInt(c.NS, blcli.ArgServerID)`, whose errors the function
ignores; `missingArgs` is the error that `blcli.NewMissingArgsErr` makes of a
message; `fis_Create` is `fis.Create`, `println` is `fmt.Println` and
`display` is `c.Display` of the one address.  The result is a panic when
`Create` hands back a nil address with a nil error. -/
def RunFloatingIPCreate {σ ε φ : Type}
    (region : String × Option (GoError ε)) (serverID : Int × Option (GoError ε))
    (missingArgs : String → GoError ε)
    (fis_Create : binarylane.FloatingIPCreateRequest → σ →
      (Option φ × Option (GoError ε)) × σ)
    (println : GoError ε → σ → σ)
    (display : φ → σ → Option (GoError ε) × σ) (s : σ) : GoResult ε Unit × σ :=
  if region.1 = "" ∧ serverID.1 = 0 then
    (.ret () (some (missingArgs "Region and Server ID can't both be blank.")), s)
  else if region.1 ≠ "" ∧ serverID.1 ≠ 0 then
    (.ret () (some (Errorf "Specify region or Server ID when creating a floating IP address." [])),
      s)
  else
    match fis_Create { Region := region.1, ServerID := serverID.1 } s with
    | ((_, some err), s1) => (.ret () (some err), println err s1)
    | ((none, none), s1) => (.panic, s1)
    | ((some ip, none), s1) =>
      match display ip s1 with
      | (err, s2) => (.ret () err, s2)

/-- A service call that also records its argument: the state is paired with
the list of the arguments of the calls made so far. -/
def recordCalls {σ α β : Type} (f : α → σ → β × σ) : α → σ × List α → β × (σ × List α) :=
  fun a st =>
    match f a st.1 with
    | (b, s1) => (b, (s1, st.2 ++ [a]))

/-- An effect on the state that makes no service call. -/
def besideCalls {σ α β : Type} (f : σ → β × σ) : σ × List α → β × (σ × List α) :=
  fun st =>
    match f st.1 with
    | (b, s1) => (b, (s1, st.2))

/-- An effect without result, on a state that is paired with a record of
calls. -/
def besideCallsUnit {σ α : Type} (f : σ → σ) : σ × List α → σ × List α :=
  fun st => (f st.1, st.2)

/-! ## Package `commands`: the host pattern of `ssh`

Go's `regexp` finds the leftmost match and, among the matches that start
there, the one a backtracking search meets first: an alternative or a greedy
repetition tries the longer way first, a lazy repetition the shorter.  The
matcher below is that search, for the constructs the host pattern uses. -/

/-- The constructs of the host pattern.  A repetition is over a character
class; a group carries its number and its name (empty when it has none). -/
inductive Regex
  | bol
  | eol
  | lit (c : Char)
  | plus (cls : Char → Bool)
  | starLazy (cls : Char → Bool)
  | seq (a b : Regex)
  | opt (a : Regex)
  | group (idx : Nat) (name : String) (a : Regex)

/-- The class `\w` of Go's `regexp`: ASCII letters, digits and underscore. -/
def Regex.word (c : Char) : Bool :=
  ('0' ≤ c ∧ c ≤ '9') ∨ ('A' ≤ c ∧ c ≤ 'Z') ∨ ('a' ≤ c ∧ c ≤ 'z') ∨ c = '_'

/-- The class `\d` of Go's `regexp`: ASCII digits. -/
def Regex.digit (c : Char) : Bool := '0' ≤ c ∧ c ≤ '9'

/-- The class `.` of Go's `regexp` without the flag `s`: any character but
the newline. -/
def Regex.dot (c : Char) : Bool := c ≠ '\n'

/-- The submatches found so far: entry i is the text of group i, `none` while
the group has not taken part in the match. -/
abbrev Regex.Caps := List (Option (List Char))

/-- Greedy `x*` on a class: as many characters as possible first, then one
fewer, and so on; `k` is the rest of the search. -/
def Regex.greedyStar {β : Type} (cls : Char → Bool) :
    List Char → (List Char → Option β) → Option β
  | [], k => k []
  | x :: t, k =>
    if cls x then
      match Regex.greedyStar cls t k with
      | some r => some r
      | none => k (x :: t)
    else k (x :: t)

/-- Greedy `x+` on a class: one character of the class, then greedy `x*`. -/
def Regex.greedyPlus {β : Type} (cls : Char → Bool) :
    List Char → (List Char → Option β) → Option β
  | [], _ => none
  | x :: t, k => if cls x then Regex.greedyStar cls t k else none

/-- Lazy `x*?` on a class: no character first, then one, and so on. -/
def Regex.lazyStar {β : Type} (cls : Char → Bool) :
    List Char → (List Char → Option β) → Option β
  | [], k => k []
  | x :: t, k =>
    match k (x :: t) with
    | some r => some r
    | none => if cls x then Regex.lazyStar cls t k else none

/-- The backtracking search for a match of `re` at the head of `rem`, in a
text of `n` characters of which `rem` is what is left; `caps` holds the
submatches so far and `k` is the rest of the search. -/
def Regex.run (n : Nat) :
    Regex → List Char → Regex.Caps → (List Char → Regex.Caps → Option Regex.Caps) →
      Option Regex.Caps
  | .bol, rem, caps, k => if rem.length = n then k rem caps else none
  | .eol, rem, caps, k => if rem = [] then k rem caps else none
  | .lit c, rem, caps, k =>
    match rem with
    | [] => none
    | x :: t => if x = c then k t caps else none
  | .plus cls, rem, caps, k => Regex.greedyPlus cls rem fun r => k r caps
  | .starLazy cls, rem, caps, k => Regex.lazyStar cls rem fun r => k r caps
  | .seq a b, rem, caps, k => Regex.run n a rem caps fun r c => Regex.run n b r c k
  | .opt a, rem, caps, k =>
    match Regex.run n a rem caps k with
    | some r => some r
    | none => k rem caps
  | .group idx _ a, rem, caps, k =>
    Regex.run n a rem caps fun r c =>
      k r (c.set idx (some (rem.take (rem.length - r.length))))

/-- The names of the groups of a pattern, in the order of their opening
brackets. -/
def Regex.groupNames : Regex → List String
  | .seq a b => a.groupNames ++ b.groupNames
  | .opt a => a.groupNames
  | .group _ name a => name :: a.groupNames
  | _ => []

/-- Go `(*Regexp).SubexpNames`: the empty name of the whole match, then the
names of the groups. -/
def Regex.SubexpNames (re : Regex) : List String := "" :: re.groupNames

/-- The search for a match of `re` that starts at the head of `rem` or, when
there is none, further to the right. -/
def Regex.searchFrom (re : Regex) (n : Nat) : List Char → Option Regex.Caps
  | [] =>
    Regex.run n re [] (List.replicate re.SubexpNames.length none) fun _ c =>
      some (c.set 0 (some []))
  | x :: t =>
    match Regex.run n re (x :: t) (List.replicate re.SubexpNames.length none) fun r c =>
        some (c.set 0 (some ((x :: t).take ((x :: t).length - r.length)))) with
    | some c => some c
    | none => Regex.searchFrom re n t

/-- Go `(*Regexp).FindStringSubmatch`: nil when the pattern does not match,
else the text of the leftmost match and of each group, the empty string for a
group that took no part. -/
def Regex.FindStringSubmatch (re : Regex) (s : String) : Slice String :=
  (re.searchFrom s.data.length s.data).map fun caps =>
    caps.map fun c => String.mk (c.getD [])

/-- The pattern `sshHostRE` (ssh.go:30-32), which reads
`^((?P<m1>\w+)@)?(?P<m2>.*?)(:(?P<m3>\d+))?$`. -/
def sshHostRE : Regex :=
  .seq .bol
    (.seq (.opt (.group 1 "" (.seq (.group 2 "m1" (.plus Regex.word)) (.lit '@'))))
      (.seq (.group 3 "m2" (.starLazy Regex.dot))
        (.seq (.opt (.group 4 "" (.seq (.lit ':') (.group 5 "m3" (.plus Regex.digit)))))
          .eol)))

/-- The type `sshHostInfo` (ssh.go:172-176). -/
structure sshHostInfo where
  user : String
  host : String
  port : String
  deriving DecidableEq, Repr

/-- The loop of `extractHostInfo` (ssh.go:181-183), from index `i` on:
`r[n] = m[i]` for each name; `none` is the panic of an index out of range. -/
def extractHostInfo.loop (m : List String) :
    List String → Nat → GoMap String String → Option (GoMap String String)
  | [], _, r => some r
  | n :: names, i, r =>
    match m[i]? with
    | none => none
    | some v => extractHostInfo.loop m names (i + 1) (r.set n v)

/-- The function `extractHostInfo` (ssh.go:178-190); `none` is a panic.  A
key that the map lacks reads as the empty string. -/
def extractHostInfo (input : String) : Option sshHostInfo :=
  let m := sshHostRE.FindStringSubmatch input
  (extractHostInfo.loop m.toList sshHostRE.SubexpNames 0 []).map fun r =>
    { user := (r.get? "m1").getD "", host := (r.get? "m2").getD "", port := (r.get? "m3").getD "" }

/-! ## Package `commands`: connecting to a server -/

/-- The client's error `errNoNetworks` (servers.go:13 of the client). -/
def binarylane.errNoNetworks {ε : Type} : GoError ε := .new "no networks have been defined"

/-- The loop of `PublicIPv4` and of `PrivateIPv4` over the IPv4 networks: the
address of the first network of the type asked for, else the empty string. -/
def binarylane.Server.firstV4 (netType : String) : List binarylane.NetworkV4 → String
  | [] => ""
  | v4 :: rest =>
    if v4.NetType = netType then v4.IPAddress else binarylane.Server.firstV4 netType rest

/-- The method `Server.PublicIPv4` (servers.go:66-79 of the client). -/
def binarylane.Server.PublicIPv4 {ε : Type} (s : binarylane.Server) :
    String × Option (GoError ε) :=
  match s.Networks with
  | none => ("", some binarylane.errNoNetworks)
  | some networks => (binarylane.Server.firstV4 "public" networks.V4.toList, none)

/-- The method `Server.PrivateIPv4` (servers.go:81-94 of the client). -/
def binarylane.Server.PrivateIPv4 {ε : Type} (s : binarylane.Server) :
    String × Option (GoError ε) :=
  match s.Networks with
  | none => ("", some binarylane.errNoNetworks)
  | some networks => (binarylane.Server.firstV4 "private" networks.V4.toList, none)

/-- The value that `strconv.Atoi` returns next to a non-nil error: 0 when the
string is not a decimal number, the nearest bound of `int` when the number is
out of range. -/
def strconv.AtoiOnError (s : String) : Int :=
  match s.data with
  | [] => 0
  | c :: cs =>
    if c = '-' then
      match cs with
      | [] => 0
      | _ => if (parseDecimal cs 0).isSome then -(2 ^ 63) else 0
    else if c = '+' then
      match cs with
      | [] => 0
      | _ => if (parseDecimal cs 0).isSome then 2 ^ 63 - 1 else 0
    else if (parseDecimal (c :: cs) 0).isSome then 2 ^ 63 - 1 else 0

/-- Go `strings.Contains` on lists of characters. -/
def strings.containsChars (sub : List Char) : List Char → Bool
  | [] => sub.isEmpty
  | c :: cs => sub.isPrefixOf (c :: cs) || strings.containsChars sub cs

/-- The function `defaultSSHUser` (ssh.go:162-169); `none` is the panic of a
nil server or a nil image.  Lower-casing is that of the ASCII letters, the
only ones that can yield the letters of `coreos`. -/
def defaultSSHUser (server : Option binarylane.Server) : Option String :=
  match server with
  | none => none
  | some d =>
    match d.Image with
    | none => none
    | some image =>
      if strings.containsChars "coreos".data (image.Slug.data.map Char.toLower) then some "core"
      else some "root"

/-- The function `privateIPElsePub` (ssh.go:192-197); `none` is the panic of
a nil server. -/
def privateIPElsePub {ε : Type} (server : Option binarylane.Server) (choice : Bool) :
    Option (String × Option (GoError ε)) :=
  match server with
  | none => none
  | some d => if choice then some d.PrivateIPv4 else some d.PublicIPv4

/-- The two options that `RunSSH` hands to the runner. -/
structure sshOptions where
  AgentForwarding : Bool
  Command : String
  deriving DecidableEq, Repr

/-- What `RunSSH` hands to `c.Doit.SSH`. -/
structure sshCall where
  user : String
  host : String
  keyPath : String
  port : Int
  opts : sshOptions
  deriving DecidableEq, Repr

/-- The loop of `RunSSH` over the servers (ssh.go:129-138): the first server
whose name or whose id in decimal is the host. -/
def RunSSH.find (host : String) : List binarylane.Server → Option binarylane.Server
  | [] => none
  | d :: rest =>
    if d.Name = host then some d
    else if strconv.Itoa d.ID = host then some d
    else RunSSH.find host rest

/-- The end of `RunSSH` (ssh.go:146-159), once the server, the user and the
port are known; `ssh_Run` is `c.Doit.SSH(...).Run()`. -/
def RunSSH.connect {σ ε : Type} (server : Option binarylane.Server) (user keyPath : String)
    (port : Int) (opts : sshOptions) (privateIPChoice : Bool)
    (ssh_Run : sshCall → σ → Option (GoError ε) × σ) (s : σ) : GoResult ε Unit × σ :=
  match (if user = "" then defaultSSHUser server else some user) with
  | none => (.panic, s)
  | some user =>
    match privateIPElsePub server privateIPChoice with
    | none => (.panic, s)
    | some (_, some err) => (.ret () (some err), s)
    | some (ip, none) =>
      if ip = "" then (.ret () (some (.new "Could not find Server address")), s)
      else
        match ssh_Run ⟨user, ip, keyPath, port, opts⟩ s with
        | (err, s1) => (.ret () err, s1)

/-- The middle of `RunSSH` (ssh.go:103-144): the server, the user and the
port, from the argument `serverID` and the flags. -/
def RunSSH.resolve {σ ε : Type} (serverID user keyPath : String) (port : Int)
    (opts : sshOptions) (privateIPChoice : Bool)
    (ss_Get : Int → σ → (Option binarylane.Server × Option (GoError ε)) × σ)
    (ss_List : σ → (Slice binarylane.Server × Option (GoError ε)) × σ)
    (ssh_Run : sshCall → σ → Option (GoError ε) × σ) (s : σ) : GoResult ε Unit × σ :=
  match strconv.Atoi serverID with
  | some id =>
    match ss_Get id s with
    | ((_, some err), s1) => (.ret () (some err), s1)
    | ((blServer, none), s1) =>
      RunSSH.connect blServer user keyPath port opts privateIPChoice ssh_Run s1
  | none =>
    match ss_List s with
    | ((_, some err), s1) => (.ret () (some err), s1)
    | ((servers, none), s1) =>
      match extractHostInfo serverID with
      | none => (.panic, s1)
      | some shi =>
        match RunSSH.find shi.host servers.toList with
        | none => (.ret () (some (.new "Could not find Server")), s1)
        | some d =>
          RunSSH.connect (some d) (if shi.user ≠ "" then shi.user else user) keyPath
            (if shi.port ≠ "" ∧ strconv.Atoi shi.port = none then strconv.AtoiOnError shi.port
              else port)
            opts privateIPChoice ssh_Run s1

/-- The function `RunSSH` (ssh.go:58-160).  `args` is `c.Args`, `missingArgs`
the error of `blcli.NewMissingArgsErr(c.NS)`; `user`, `keyPath`, `port`,
`agentForwarding`, `command` and `privateIPChoice` are the results of the
calls of `c.Doit.GetString`, `GetInt` and `GetBool` for the flags, in the
order of the source; `ss_Get` and `ss_List` are `ss.Get` and `ss.List`. -/
def RunSSH {σ ε : Type} (args : List String) (missingArgs : GoError ε)
    (user keyPath : String × Option (GoError ε)) (port : Int × Option (GoError ε))
    (agentForwarding : Bool × Option (GoError ε)) (command : String × Option (GoError ε))
    (privateIPChoice : Bool × Option (GoError ε))
    (ss_Get : Int → σ → (Option binarylane.Server × Option (GoError ε)) × σ)
    (ss_List : σ → (Slice binarylane.Server × Option (GoError ε)) × σ)
    (ssh_Run : sshCall → σ → Option (GoError ε) × σ) (s : σ) : GoResult ε Unit × σ :=
  match args with
  | [] => (.ret () (some missingArgs), s)
  | serverID :: _ =>
    if serverID = "" then (.ret () (some missingArgs), s)
    else
      match user.2, keyPath.2, port.2, agentForwarding.2 with
      | some err, _, _, _ => (.ret () (some err), s)
      | none, some err, _, _ => (.ret () (some err), s)
      | none, none, some err, _ => (.ret () (some err), s)
      | none, none, none, some err => (.ret () (some err), s)
      | none, none, none, none =>
        match command.2, privateIPChoice.2 with
        | some _, _ => (.ret () none, s)
        | none, some err => (.ret () (some err), s)
        | none, none =>
          RunSSH.resolve serverID user.1 keyPath.1 port.1
            { AgentForwarding := agentForwarding.1, Command := command.1 } privateIPChoice.1
            ss_Get ss_List ssh_Run s

/-- A runner that records the call it receives and returns no error. -/
def recordingSSH {ε : Type} (call : sshCall) (log : List sshCall) :
    Option (GoError ε) × List sshCall :=
  (none, log ++ [call])

/-- A server named `web` with the public address 203.0.113.7. -/
def demoWebServer : binarylane.Server :=
  { ID := 7, Name := "web", Image := some { Slug := "ubuntu-20-04" },
    Networks := some { V4 := some [{ IPAddress := "10.0.0.7", NetType := "private" },
      { IPAddress := "203.0.113.7", NetType := "public" }] } }

/-- A server with a private address only, as `testPrivateServer` of the
tests. -/
def demoPrivateServer : binarylane.Server :=
  { ID := 1, Name := "a-server", Image := some { Slug := "" },
    Networks := some { V4 := some [{ IPAddress := "172.16.1.2", NetType := "private" }] } }

/-- An `ss.Get` that is not expected to be called. -/
def getNothing {σ ε : Type} (_ : Int) (s : σ) :
    (Option binarylane.Server × Option (GoError ε)) × σ :=
  ((none, none), s)

/-! ## The client: the image of a create request -/

/-- A value handed to `json.Marshal`: a Go string or a Go int. -/
inductive json.Operand
  | string (s : String)
  | int (n : Int)
  deriving DecidableEq, Repr

/-- The client type `ServerCreateImage` (servers.go:163-166 of the client). -/
structure binarylane.ServerCreateImage where
  ID : Int := 0
  Slug : String := ""
  deriving DecidableEq, Repr

/-- The method `ServerCreateImage.MarshalJSON` (servers.go:170-176 of the
client); `json_Marshal` is `json.Marshal`, whose result for a Go string is the
JSON string encoding and for a Go int the JSON number encoding. -/
def binarylane.ServerCreateImage.MarshalJSON {β : Type} (json_Marshal : json.Operand → β)
    (d : binarylane.ServerCreateImage) : β :=
  if d.Slug ≠ "" then json_Marshal (.string d.Slug) else json_Marshal (.int d.ID)

/-! ## The client: server actions -/

/-- A value of an `ActionRequest`. -/
inductive ActionValue
  | string (s : String)
  | int (n : Int)
  | float64 (n : Int)
  | bool (b : Bool)
  deriving DecidableEq, Repr

/-- The client type `ActionRequest`, a map from strings to values. -/
abbrev binarylane.ActionRequest := GoMap String ActionValue

/-- The function `serverActionPath` (server_actions.go:323-325 of the client). -/
def serverActionPath (serverID : Int) : String :=
  "v2/servers/" ++ toString serverID ++ "/actions"

/-- The function `serverActionPathByTag` (server_actions.go:327-329 of the
client). -/
def serverActionPathByTag (tag : String) : String :=
  "v2/servers/actions?tag_name=" ++ tag

/-- The method `ServerActionsServiceOp.doAction` (server_actions.go:232-255 of
the client).  `NewArgError` is the client's constructor of argument errors;
`client_NewRequest` is `s.client.NewRequest` for a method, a path and a body;
`client_Do` is `s.client.Do`, with the action it decodes into `root.Event`
next to its response and error.  `request` is a pointer, `none` is nil. -/
def ServerActionsServiceOp.doAction {σ ε ρ α : Type}
    (NewArgError : String → String → GoError ε)
    (client_NewRequest : String → String → binarylane.ActionRequest → σ →
      (Option ρ × Option (GoError ε)) × σ)
    (client_Do : Option ρ → σ → (Option α × Option Response × Option (GoError ε)) × σ)
    (id : Int) (request : Option binarylane.ActionRequest) (s : σ) :
    (Option α × Option Response × Option (GoError ε)) × σ :=
  if id < 1 then ((none, none, some (NewArgError "id" "cannot be less than 1")), s)
  else
    match request with
    | none => ((none, none, some (NewArgError "request" "request can't be nil")), s)
    | some body =>
      match client_NewRequest "POST" (serverActionPath id) body s with
      | ((_, some err), s1) => ((none, none, some err), s1)
      | ((req, none), s1) =>
        match client_Do req s1 with
        | ((_, resp, some err), s2) => ((none, resp, some err), s2)
        | ((event, resp, none), s2) => ((event, resp, none), s2)

/-- The method `ServerActionsServiceOp.doActionByTag`
(server_actions.go:257-280 of the client); `client_Do` comes with the actions
it decodes into `root.Actions`. -/
def ServerActionsServiceOp.doActionByTag {σ ε ρ α : Type}
    (NewArgError : String → String → GoError ε)
    (client_NewRequest : String → String → binarylane.ActionRequest → σ →
      (Option ρ × Option (GoError ε)) × σ)
    (client_Do : Option ρ → σ → (Slice α × Option Response × Option (GoError ε)) × σ)
    (tag : String) (request : Option binarylane.ActionRequest) (s : σ) :
    (Slice α × Option Response × Option (GoError ε)) × σ :=
  if tag = "" then ((none, none, some (NewArgError "tag" "cannot be empty")), s)
  else
    match request with
    | none => ((none, none, some (NewArgError "request" "request can't be nil")), s)
    | some body =>
      match client_NewRequest "POST" (serverActionPathByTag tag) body s with
      | ((_, some err), s1) => ((none, none, some err), s1)
      | ((req, none), s1) =>
        match client_Do req s1 with
        | ((_, resp, some err), s2) => ((none, resp, some err), s2)
        | ((actions, resp, none), s2) => ((actions, resp, none), s2)

/-- The methods of `ServerActionsServiceOp` that go through `doAction`
(server_actions.go:49-193 of the client), each with its arguments other than
the server id. -/
inductive ServerActionMethod
  | Shutdown
  | PowerOff
  | PowerOn
  | PowerCycle
  | Reboot
  | Restore (imageID : Int)
  | Resize (sizeSlug : String) (resizeDisk : Bool)
  | Rename (name : String)
  | Snapshot (name : String)
  | EnableBackups
  | DisableBackups
  | PasswordReset
  | RebuildByImageID (imageID : Int)
  | RebuildByImageSlug (slug : String)
  | ChangeKernel (kernelID : Int)
  | EnableIPv6
  | EnablePrivateNetworking
  deriving DecidableEq, Repr

/-- The request that each method builds. -/
def ServerActionMethod.request : ServerActionMethod → binarylane.ActionRequest
  | .Shutdown => [("type", .string "shutdown")]
  | .PowerOff => [("type", .string "power_off")]
  | .PowerOn => [("type", .string "power_on")]
  | .PowerCycle => [("type", .string "power_cycle")]
  | .Reboot => [("type", .string "reboot")]
  | .Restore imageID => [("type", .string "restore"), ("image", .float64 imageID)]
  | .Resize sizeSlug resizeDisk =>
    [("type", .string "resize"), ("size", .string sizeSlug), ("disk", .bool resizeDisk)]
  | .Rename name => [("type", .string "rename"), ("name", .string name)]
  | .Snapshot name => [("type", .string "snapshot"), ("name", .string name)]
  | .EnableBackups => [("type", .string "enable_backups")]
  | .DisableBackups => [("type", .string "disable_backups")]
  | .PasswordReset => [("type", .string "password_reset")]
  | .RebuildByImageID imageID => [("type", .string "rebuild"), ("image", .int imageID)]
  | .RebuildByImageSlug slug => [("type", .string "rebuild"), ("image", .string slug)]
  | .ChangeKernel kernelID => [("type", .string "change_kernel"), ("kernel", .int kernelID)]
  | .EnableIPv6 => [("type", .string "enable_ipv6")]
  | .EnablePrivateNetworking => [("type", .string "enable_private_networking")]

/-- A method of `ServerActionsServiceOp` on a server id: it builds its request
and returns what `doAction` returns. -/
def ServerActionMethod.run {σ ε ρ α : Type} (m : ServerActionMethod)
    (NewArgError : String → String → GoError ε)
    (client_NewRequest : String → String → binarylane.ActionRequest → σ →
      (Option ρ × Option (GoError ε)) × σ)
    (client_Do : Option ρ → σ → (Option α × Option Response × Option (GoError ε)) × σ)
    (id : Int) (s : σ) : (Option α × Option Response × Option (GoError ε)) × σ :=
  ServerActionsServiceOp.doAction NewArgError client_NewRequest client_Do id (some m.request) s

/-- The methods of `ServerActionsServiceOp` that go through `doActionByTag`. -/
inductive ServerActionByTagMethod
  | ShutdownByTag
  | PowerOffByTag
  | PowerOnByTag
  | PowerCycleByTag
  | SnapshotByTag (name : String)
  | EnableBackupsByTag
  | DisableBackupsByTag
  | EnableIPv6ByTag
  | EnablePrivateNetworkingByTag
  deriving DecidableEq, Repr

/-- The request that each by-tag method builds. -/
def ServerActionByTagMethod.request : ServerActionByTagMethod → binarylane.ActionRequest
  | .ShutdownByTag => [("type", .string "shutdown")]
  | .PowerOffByTag => [("type", .string "power_off")]
  | .PowerOnByTag => [("type", .string "power_on")]
  | .PowerCycleByTag => [("type", .string "power_cycle")]
  | .SnapshotByTag name => [("type", .string "snapshot"), ("name", .string name)]
  | .EnableBackupsByTag => [("type", .string "enable_backups")]
  | .DisableBackupsByTag => [("type", .string "disable_backups")]
  | .EnableIPv6ByTag => [("type", .string "enable_ipv6")]
  | .EnablePrivateNetworkingByTag => [("type", .string "enable_private_networking")]

/-- A by-tag method of `ServerActionsServiceOp` on a tag. -/
def ServerActionByTagMethod.run {σ ε ρ α : Type} (m : ServerActionByTagMethod)
    (NewArgError : String → String → GoError ε)
    (client_NewRequest : String → String → binarylane.ActionRequest → σ →
      (Option ρ × Option (GoError ε)) × σ)
    (client_Do : Option ρ → σ → (Slice α × Option Response × Option (GoError ε)) × σ)
    (tag : String) (s : σ) : (Slice α × Option Response × Option (GoError ε)) × σ :=
  ServerActionsServiceOp.doActionByTag NewArgError client_NewRequest client_Do tag
    (some m.request) s

/-- A `NewRequest` that records the method, the path and the body it is
called with. -/
def recordingNewRequest {ε : Type} (method path : String) (body : binarylane.ActionRequest)
    (log : List (String × String × binarylane.ActionRequest)) :
    (Option Unit × Option (GoError ε)) × List (String × String × binarylane.ActionRequest) :=
  ((some (), none), log ++ [(method, path, body)])

/-- A `Do` that returns nothing and no error. -/
def doNothing {ε ρ α β : Type} (_ : Option ρ) (s : β) :
    (Option α × Option Response × Option (GoError ε)) × β :=
  ((none, none, none), s)

/-! ## Package `bl`: wrappers around the address of a range variable

`handleTagActionResponse` and `CreateMultiple` put the address of the variable
of their `for ... range` clause into each wrapper, so what a wrapper holds is
what that variable holds when the wrapper is read. -/

/-- The variables whose address is taken, as the list of their current
values; an address is a position in the list. -/
abbrev Heap (α : Type) := List α

/-- A wrapper struct of package `bl` (`Action`, `Server`): its one field is a
pointer, `none` is nil. -/
structure PtrWrapper where
  ptr : Option Nat
  deriving DecidableEq, Repr

/-- What a wrapper holds: the value at its pointer. -/
def PtrWrapper.deref {α : Type} (heap : Heap α) (w : PtrWrapper) : Option α :=
  w.ptr.bind fun p => heap[p]?

/-- The rule of the language for the variable of a `for ... range` clause.
Up to Go 1.21, and later for a module that does not declare `go 1.22`, one
variable serves every iteration; otherwise each iteration has its own. -/
inductive RangeClause
  | oneVariable
  | freshVariable
  deriving DecidableEq, Repr

/-- The loop `for _, x := range a { out = append(out, W{W: &x}) }`, from
an element on; `v` is the address of the one variable of the clause. -/
def wrapLoop {α : Type} (rule : RangeClause) (v : Nat) :
    List α → Heap α → Slice PtrWrapper → Slice PtrWrapper × Heap α
  | [], heap, out => (out, heap)
  | x :: rest, heap, out =>
    match rule with
    | .oneVariable => wrapLoop rule v rest (heap.set v x) (goAppend out [{ ptr := some v }])
    | .freshVariable =>
      wrapLoop rule v rest (heap ++ [x]) (goAppend out [{ ptr := some heap.length }])

/-- The loop `for _, x := range a { out = append(out, W{W: &x}) }`: under
the rule of one variable the variable is made when the loop starts. -/
def rangeWrap {α : Type} (rule : RangeClause) (a : List α) (heap : Heap α)
    (out : Slice PtrWrapper) : Slice PtrWrapper × Heap α :=
  match rule, a with
  | .oneVariable, x :: _ => wrapLoop rule heap.length a (heap ++ [x]) out
  | _, _ => wrapLoop rule 0 a heap out

/-- The method `serverActionsService.handleTagActionResponse`
(server_actions.go:75-87 of package `bl`). -/
def serverActionsService.handleTagActionResponse {ε α : Type} (rule : RangeClause)
    (a : Slice α) (err : Option (GoError ε)) (heap : Heap α) :
    (Slice PtrWrapper × Option (GoError ε)) × Heap α :=
  match err with
  | some e => ((none, some e), heap)
  | none =>
    match rangeWrap rule a.toList heap (some []) with
    | (actions, heap1) => ((actions, none), heap1)

/-- The method `serversService.CreateMultiple` (servers.go:176-188 of package
`bl`); `client_CreateMultiple` is `ss.client.Servers.CreateMultiple`. -/
def serversService.CreateMultiple {σ ε ρ α : Type} (rule : RangeClause)
    (client_CreateMultiple : ρ → σ → (Slice α × Option Response × Option (GoError ε)) × σ)
    (dmcr : ρ) (s : σ) (heap : Heap α) :
    ((Slice PtrWrapper × Option (GoError ε)) × σ) × Heap α :=
  match client_CreateMultiple dmcr s with
  | ((_, _, some err), s1) => (((none, some err), s1), heap)
  | ((binarylaneServers, _, none), s1) =>
    match rangeWrap rule binarylaneServers.toList heap none with
    | (servers, heap1) => (((servers, none), s1), heap1)

/-- What the wrappers of a result hold, in order. -/
def heldBy {α : Type} (heap : Heap α) (ws : Slice PtrWrapper) : List (Option α) :=
  ws.toList.map (PtrWrapper.deref heap)

/-- A `CreateMultiple` of the client that returns the given servers. -/
def createReturning {ε α : Type} (servers : List α) (_ : Unit) (s : Unit) :
    (Slice α × Option Response × Option (GoError ε)) × Unit :=
  ((some servers, none, none), s)

/-! ## Theorems -/

theorem pageFrom_zero {σ R : Type} (gen : ListOptions → σ → R × σ)
    (p : Nat) (s : σ) :
    pageFrom gen 0 p s = (gen { Page := p, PerPage := perPage } s).1 := rfl

theorem pageFrom_succ {σ R : Type} (gen : ListOptions → σ → R × σ)
    (j p : Nat) (s : σ) :
    pageFrom gen (j + 1) p s
      = pageFrom gen j (p + 1) (gen { Page := p, PerPage := perPage } s).2 := by
  unfold pageFrom
  have h : p + (j + 1) = p + 1 + j := by omega
  rw [h]
  rfl

theorem stateFrom_succ_last {σ R : Type} (gen : ListOptions → σ → R × σ)
    (n p : Nat) (s : σ) :
    stateFrom gen (n + 1) p s
      = (gen { Page := p + n, PerPage := perPage } (stateFrom gen n p s)).2 := by
  induction n generalizing p s with
  | zero => rfl
  | succ n ih =>
    have h : p + (n + 1) = p + 1 + n := by omega
    rw [h]
    exact ih (p + 1) _

theorem concatFrom_succ_last {σ ε : Type} {W : WireType → Type} (gen : Generator σ ε W)
    (n p : Nat) (s : σ) :
    concatFrom gen (n + 1) p s
      = concatFrom gen n p s ++ (pageFrom gen n p s).elems.toList := by
  induction n generalizing p s with
  | zero => simp [concatFrom, pageFrom, stateFrom]
  | succ n ih =>
    rw [pageFrom_succ]
    conv_lhs => unfold concatFrom
    rw [ih (p + 1)]
    conv_rhs => unfold concatFrom
    simp [List.append_assoc]

theorem concatFrom_eq_pagesConcat {σ ε : Type} {W : WireType → Type}
    (gen : Generator σ ε W) (s : σ) (n : Nat) :
    concatFrom gen n 1 s = pagesConcat gen s n := by
  induction n with
  | zero => rfl
  | succ n ih => rw [concatFrom_succ_last, ih]; rfl

/-- As long as the pages signal a next page, the loop keeps fetching: after
`n` such pages it stands at page `p + n` with their elements accumulated. -/
theorem paginateLoop_continue {σ ε : Type} {W : WireType → Type}
    (gen : Generator σ ε W) (n fuel p : Nat) (acc : List (Iface W)) (s : σ)
    (h : ∀ j, j < n → continues (pageFrom gen j p s) = true) :
    paginateLoop gen (n + fuel) { Page := p, PerPage := perPage } acc s
      = paginateLoop gen fuel { Page := p + n, PerPage := perPage }
          (acc ++ concatFrom gen n p s) (stateFrom gen n p s) := by
  induction n generalizing p acc s with
  | zero => simp [concatFrom, stateFrom]
  | succ n ih =>
    have h0 := h 0 (Nat.succ_pos n)
    rw [pageFrom_zero] at h0
    simp only [continues, Bool.and_eq_true, Option.isNone_iff_eq_none] at h0
    have hs : ∀ j, j < n → continues
        (pageFrom gen j (p + 1) (gen { Page := p, PerPage := perPage } s).2) = true := by
      intro j hj
      rw [← pageFrom_succ]
      exact h (j + 1) (Nat.succ_lt_succ hj)
    have e : n + 1 + fuel = (n + fuel) + 1 := by omega
    rw [e]
    conv_lhs => unfold paginateLoop
    simp only [h0.1, h0.2, if_true]
    rw [ih (p + 1) _ _ hs]
    have e2 : p + 1 + n = p + (n + 1) := by omega
    rw [e2]
    simp [concatFrom, stateFrom, List.append_assoc]

theorem paginateLoop_stop {σ ε : Type} {W : WireType → Type}
    (gen : Generator σ ε W) (fuel : Nat) (opt : ListOptions) (acc : List (Iface W)) (s : σ)
    (hok : (gen opt s).1.err = none) (hlast : hasNextPage (gen opt s).1.resp = false) :
    paginateLoop gen (fuel + 1) opt acc s
      = some ((some (acc ++ (gen opt s).1.elems.toList), none), (gen opt s).2) := by
  unfold paginateLoop
  simp [hok, hlast]

theorem paginateLoop_fail {σ ε : Type} {W : WireType → Type}
    (gen : Generator σ ε W) (fuel : Nat) (opt : ListOptions) (acc : List (Iface W)) (s : σ)
    (e : ε) (herr : (gen opt s).1.err = some e) :
    paginateLoop gen (fuel + 1) opt acc s = some ((none, some e), (gen opt s).2) := by
  unfold paginateLoop
  simp [herr]

theorem logged_state {σ ε : Type} {W : WireType → Type} (gen : Generator σ ε W)
    (n p : Nat) (s : σ) (log : List ListOptions) :
    stateFrom (logged gen) n p (s, log)
      = (stateFrom gen n p s, log ++ requestsFrom n p) := by
  induction n generalizing p s log with
  | zero => simp [stateFrom, requestsFrom]
  | succ n ih =>
    simp only [stateFrom, requestsFrom, logged]
    rw [ih]
    simp

theorem logged_page {σ ε : Type} {W : WireType → Type} (gen : Generator σ ε W)
    (j p : Nat) (s : σ) (log : List ListOptions) :
    pageFrom (logged gen) j p (s, log) = pageFrom gen j p s := by
  unfold pageFrom
  rw [logged_state]
  rfl

theorem logged_concat {σ ε : Type} {W : WireType → Type} (gen : Generator σ ε W)
    (n p : Nat) (s : σ) (log : List ListOptions) :
    concatFrom (logged gen) n p (s, log) = concatFrom gen n p s := by
  induction n generalizing p s log with
  | zero => rfl
  | succ n ih =>
    simp only [concatFrom, logged]
    rw [ih]

theorem requestsFrom_succ_last (n p : Nat) :
    requestsFrom (n + 1) p
      = requestsFrom n p ++ [{ Page := p + n, PerPage := perPage }] := by
  induction n generalizing p with
  | zero => rfl
  | succ n ih =>
    have h : p + (n + 1) = p + 1 + n := by omega
    rw [h]
    conv_lhs => unfold requestsFrom
    rw [ih (p + 1)]
    rfl

theorem requestsFrom_one (k : Nat) : requestsFrom k 1 = requestLog k := by
  induction k with
  | zero => rfl
  | succ k ih =>
    rw [requestsFrom_succ_last, ih]
    simp [requestLog, List.range_succ, perPage, Nat.add_comm]

/-- The instrumented fetcher runs through `m` continuing pages exactly as the
plain one does, logging the `m` requests. -/
theorem logged_continue {σ ε : Type} {W : WireType → Type}
    (gen : Generator σ ε W) (m fuel p : Nat) (acc : List (Iface W)) (s : σ)
    (log : List ListOptions)
    (h : ∀ j, j < m → continues (pageFrom gen j p s) = true) :
    paginateLoop (logged gen) (m + fuel) { Page := p, PerPage := perPage } acc (s, log)
      = paginateLoop (logged gen) fuel { Page := p + m, PerPage := perPage }
          (acc ++ concatFrom gen m p s) (stateFrom gen m p s, log ++ requestsFrom m p) := by
  have h1 : ∀ j, j < m → continues (pageFrom (logged gen) j p (s, log)) = true := by
    intro j hj
    rw [logged_page]
    exact h j hj
  rw [paginateLoop_continue (logged gen) m fuel p acc (s, log) h1, logged_state, logged_concat]

/-- A run that goes through `m` continuing pages and then meets a page on
which it does not continue makes `m + 1` fetches, for pages `1..m+1`, and
the instrumented run returns what the plain run returns. -/
theorem run_stops_at {σ ε : Type} {W : WireType → Type}
    (gen : Generator σ ε W) (s : σ) (m f : Nat)
    (hnext : ∀ j, j < m → continues (pageFrom gen j 1 s) = true)
    (hlast : continues (pageFrom gen m 1 s) = false) :
    ∃ res st, PaginateResp gen (m + (f + 1)) s = some (res, st) ∧
      PaginateResp (logged gen) (m + (f + 1)) (s, [])
        = some (res, (st, requestLog (m + 1))) := by
  unfold PaginateResp
  rw [paginateLoop_continue gen m (f + 1) 1 [] s hnext,
    logged_continue gen m (f + 1) 1 [] s [] hnext]
  rw [← requestsFrom_one, requestsFrom_succ_last]
  simp only [pageFrom, continues] at hlast
  cases herr : (gen { Page := 1 + m, PerPage := perPage } (stateFrom gen m 1 s)).1.err with
  | some e =>
    refine ⟨(none, some e), _, paginateLoop_fail gen f _ _ _ e herr, ?_⟩
    rw [paginateLoop_fail (logged gen) f _ _ _ e (by simpa [logged] using herr)]
    simp [logged]
  | none =>
    have hl : hasNextPage
        (gen { Page := 1 + m, PerPage := perPage } (stateFrom gen m 1 s)).1.resp = false := by
      simpa [herr] using hlast
    refine ⟨_, _, paginateLoop_stop gen f _ _ _ herr hl, ?_⟩
    rw [paginateLoop_stop (logged gen) f _ _ _ (by simpa [logged] using herr)
      (by simpa [logged] using hl)]
    simp [logged]

/-- Two fetchers whose pages agree in elements, error and next-link presence
drive the loop the same way: same result, same requests. -/
theorem paginateLoop_agree {σ τ ε : Type} {W : WireType → Type}
    (gen1 : Generator σ ε W) (gen2 : Generator τ ε W) (fuel p : Nat)
    (acc : List (Iface W)) (s1 : σ) (s2 : τ) (log : List ListOptions)
    (h : ∀ j, (pageFrom gen1 j p s1).elems = (pageFrom gen2 j p s2).elems ∧
      (pageFrom gen1 j p s1).err = (pageFrom gen2 j p s2).err ∧
      hasNextPage (pageFrom gen1 j p s1).resp = hasNextPage (pageFrom gen2 j p s2).resp) :
    (paginateLoop (logged gen1) fuel { Page := p, PerPage := perPage } acc (s1, log)).map
        (fun r => (r.1, r.2.2))
      = (paginateLoop (logged gen2) fuel { Page := p, PerPage := perPage } acc (s2, log)).map
        (fun r => (r.1, r.2.2)) := by
  induction fuel generalizing p acc s1 s2 log with
  | zero => rfl
  | succ fuel ih =>
    obtain ⟨he, hr, hn⟩ := h 0
    simp only [pageFrom_zero] at he hr hn
    have hs : ∀ j,
        (pageFrom gen1 j (p + 1) (gen1 { Page := p, PerPage := perPage } s1).2).elems
          = (pageFrom gen2 j (p + 1) (gen2 { Page := p, PerPage := perPage } s2).2).elems ∧
        (pageFrom gen1 j (p + 1) (gen1 { Page := p, PerPage := perPage } s1).2).err
          = (pageFrom gen2 j (p + 1) (gen2 { Page := p, PerPage := perPage } s2).2).err ∧
        hasNextPage (pageFrom gen1 j (p + 1) (gen1 { Page := p, PerPage := perPage } s1).2).resp
          = hasNextPage
              (pageFrom gen2 j (p + 1) (gen2 { Page := p, PerPage := perPage } s2).2).resp := by
      intro j
      rw [← pageFrom_succ, ← pageFrom_succ]
      exact h (j + 1)
    unfold paginateLoop
    simp only [logged]
    rw [← hr, ← hn, ← he]
    cases (gen1 { Page := p, PerPage := perPage } s1).1.err with
    | some e => rfl
    | none =>
      cases hasNextPage (gen1 { Page := p, PerPage := perPage } s1).1.resp with
      | true => exact ih (p + 1) _ _ _ _ hs
      | false => rfl

/-! ### The element loops of the adapters -/

theorem set_at_length {β : Type} (A : List β) (k : Nat) (zero b : β) :
    (A ++ List.replicate (k + 1) zero).set A.length b
      = (A ++ [b]) ++ List.replicate k zero := by
  rw [List.set_append_right _ _ (Nat.le_refl _)]
  simp [List.replicate_succ]

theorem copyLoop_upto {α β : Type} (g : α → β) (zero : β) (src : List α) (n : Nat)
    (hn : n ≤ src.length) :
    (List.range n).foldl
        (fun dst i =>
          match src[i]? with
          | some x => dst.set i (g x)
          | none => dst)
        (List.replicate src.length zero)
      = (src.take n).map g ++ List.replicate (src.length - n) zero := by
  induction n with
  | zero => simp
  | succ n ih =>
    have hlt : n < src.length := hn
    rw [List.range_succ, List.foldl_append, ih (Nat.le_of_lt hlt)]
    obtain ⟨k, hk⟩ : ∃ k, src.length - n = k + 1 := ⟨src.length - n - 1, by omega⟩
    have hlen : ((src.take n).map g).length = n := by simp [Nat.min_eq_left (Nat.le_of_lt hlt)]
    have hk2 : src.length - (n + 1) = k := by omega
    simp only [List.foldl_cons, List.foldl_nil, List.getElem?_eq_getElem hlt, hk, hk2]
    have := set_at_length ((src.take n).map g) k zero (g src[n])
    rw [hlen] at this
    have e : (src.take (n + 1)).map g = (src.take n).map g ++ [g src[n]] := by
      rw [List.take_succ, List.getElem?_eq_getElem hlt, List.map_append]
      rfl
    rw [this, e]

theorem copyLoop_eq_map {α β : Type} (g : α → β) (zero : β) (src : List α) :
    copyLoop g zero src = src.map g := by
  unfold copyLoop
  rw [copyLoop_upto g zero src src.length (Nat.le_refl _)]
  simp

theorem convertAll_length {α β : Type} (f : α → Option β) (l : List α) (bs : List β)
    (h : convertAll f l = some bs) : bs.length = l.length := by
  induction l generalizing bs with
  | nil => simp [convertAll] at h; simp [← h]
  | cons x xs ih =>
    unfold convertAll at h
    cases hx : f x with
    | none => simp [hx] at h
    | some b =>
      simp only [hx] at h
      cases hxs : convertAll f xs with
      | none => simp [hxs] at h
      | some cs =>
        simp only [hxs, Option.map_some', Option.some.injEq] at h
        rw [← h, List.length_cons, ih cs hxs, List.length_cons]

theorem convertAll_append_one {α β : Type} (f : α → Option β) (l : List α) (x : α) :
    convertAll f (l ++ [x])
      = (convertAll f l).bind fun bs => (f x).map fun b => bs ++ [b] := by
  induction l with
  | nil => cases hx : f x <;> simp [convertAll, hx]
  | cons y ys ih =>
    cases hy : f y with
    | none => simp [convertAll, hy]
    | some c =>
      have h1 : convertAll f (y :: (ys ++ [x]))
          = (convertAll f (ys ++ [x])).map fun bs => c :: bs := by
        simp [convertAll, hy]
      have h2 : convertAll f (y :: ys) = (convertAll f ys).map fun bs => c :: bs := by
        simp [convertAll, hy]
      rw [List.cons_append, h1, ih, h2]
      cases convertAll f ys <;> cases f x <;> simp

theorem convertLoop_upto {α β : Type} (f : α → Option β) (zero : β) (src : List α) (n : Nat)
    (hn : n ≤ src.length) :
    (List.range n).foldlM
        (fun dst i =>
          match src[i]? with
          | some x => (f x).map fun b => dst.set i b
          | none => none)
        (List.replicate src.length zero)
      = (convertAll f (src.take n)).map fun bs => bs ++ List.replicate (src.length - n) zero := by
  induction n with
  | zero => simp [convertAll]
  | succ n ih =>
    have hlt : n < src.length := hn
    rw [List.range_succ, List.foldlM_append, ih (Nat.le_of_lt hlt), List.take_succ,
      List.getElem?_eq_getElem hlt]
    simp only [Option.toList_some, convertAll_append_one]
    obtain ⟨k, hk⟩ : ∃ k, src.length - n = k + 1 := ⟨src.length - n - 1, by omega⟩
    have hk2 : src.length - (n + 1) = k := by omega
    cases hc : convertAll f (src.take n) with
    | none => simp
    | some bs =>
      have hlen : bs.length = n := by
        rw [convertAll_length f _ bs hc]
        simp [Nat.min_eq_left (Nat.le_of_lt hlt)]
      have := fun b => set_at_length bs k zero b
      rw [hlen] at this
      cases hx : f src[n] with
      | none => simp [List.getElem?_eq_getElem hlt, hx]
      | some b => simp [List.getElem?_eq_getElem hlt, hx, hk, hk2, this]

theorem convertLoop_eq_convertAll {α β : Type} (f : α → Option β) (zero : β) (src : List α) :
    convertLoop f zero src = convertAll f src := by
  unfold convertLoop
  rw [convertLoop_upto f zero src src.length (Nat.le_refl _), List.take_length]
  cases convertAll f src <;> simp


theorem typeAssert_eq_none_iff {W : WireType → Type} (t : WireType) (x : Iface W) :
    typeAssert t x = none ↔ hasWireType t x = false := by
  cases x with
  | none => simp [typeAssert, hasWireType]
  | some d =>
    by_cases h : d.dynType = t <;> simp [typeAssert, hasWireType, h]

theorem typeAssert_toIface {W : WireType → Type} (t : WireType) (v : W t) :
    typeAssert t (toIface t v) = some v := by
  simp [typeAssert, toIface]

theorem convertAll_eq_none_iff {α β : Type} (f : α → Option β) (l : List α) :
    convertAll f l = none ↔ ∃ x, x ∈ l ∧ f x = none := by
  induction l with
  | nil => simp [convertAll]
  | cons y ys ih =>
    cases hy : f y with
    | none => simp [convertAll, hy]
    | some b => simp [convertAll, hy, ih]

theorem convertAll_wrapsEach {W : WireType → Type} {β : Type} (t : WireType)
    (wrap : W t → β) (si : List (Iface W)) (list : List β)
    (h : convertAll (fun x => (typeAssert t x).map wrap) si = some list) :
    WrapsEach t wrap si list := by
  induction si generalizing list with
  | nil =>
    simp only [convertAll, Option.some.injEq] at h
    subst h
    exact ⟨rfl, by simp⟩
  | cons y ys ih =>
    unfold convertAll at h
    cases hy : typeAssert t y with
    | none => simp [hy] at h
    | some a =>
      cases hys : convertAll (fun x => (typeAssert t x).map wrap) ys with
      | none => simp [hy, hys] at h
      | some cs =>
        simp only [hy, hys, Option.map_some', Option.some.injEq] at h
        subst h
        obtain ⟨hl, hi⟩ := ih cs hys
        refine ⟨by simp [hl], ?_⟩
        intro i x hx
        cases i with
        | zero =>
          simp only [List.getElem?_cons_zero, Option.some.injEq] at hx
          subst hx
          exact ⟨a, hy, by simp⟩
        | succ i =>
          simp only [List.getElem?_cons_succ] at hx
          obtain ⟨b, hb, hg⟩ := hi i x hx
          exact ⟨b, hb, by simpa using hg⟩

/-- The indexed loop with a type assertion ends early exactly when some
element of the merged collection lacks the wire type. -/
theorem convertLoop_eq_none_iff {W : WireType → Type} {β : Type} (t : WireType)
    (wrap : W t → β) (zero : β) (si : List (Iface W)) :
    convertLoop (fun x => (typeAssert t x).map wrap) zero si = none
      ↔ ∃ x, x ∈ si ∧ hasWireType t x = false := by
  rw [convertLoop_eq_convertAll, convertAll_eq_none_iff]
  simp only [Option.map_eq_none', typeAssert_eq_none_iff]

/-- When the indexed loop with a type assertion runs to its end, the typed
list is the merged collection element for element. -/
theorem convertLoop_wrapsEach {W : WireType → Type} {β : Type} (t : WireType)
    (wrap : W t → β) (zero : β) (si : List (Iface W)) (list : List β)
    (h : convertLoop (fun x => (typeAssert t x).map wrap) zero si = some list) :
    WrapsEach t wrap si list :=
  convertAll_wrapsEach t wrap si list (by rw [← convertLoop_eq_convertAll _ zero]; exact h)

/-- When every element has the wire type the indexed loop runs to its end. -/
theorem convertLoop_of_all {W : WireType → Type} {β : Type} (t : WireType)
    (wrap : W t → β) (zero : β) (si : List (Iface W))
    (h : ∀ x, x ∈ si → hasWireType t x = true) :
    ∃ list, convertLoop (fun x => (typeAssert t x).map wrap) zero si = some list ∧
      WrapsEach t wrap si list := by
  cases hc : convertLoop (fun x => (typeAssert t x).map wrap) zero si with
  | none =>
    obtain ⟨x, hx, hf⟩ := (convertLoop_eq_none_iff t wrap zero si).1 hc
    rw [h x hx] at hf
    exact absurd hf (by decide)
  | some list => exact ⟨list, rfl, convertLoop_wrapsEach t wrap zero si list hc⟩

theorem appendLoop_fold {W : WireType → Type} (t : WireType) (si : List (Iface W))
    (acc : Slice (Wrapper W t)) :
    (si.foldlM
        (fun (list : Slice (Wrapper W t)) x =>
          (typeAssert t x).map fun fip => some (list.toList ++ [Wrapper.mk (some fip)]))
        acc).map Slice.toList
      = (convertAll (fun x => (typeAssert t x).map fun a => Wrapper.mk (some a)) si).map
          fun bs => acc.toList ++ bs := by
  induction si generalizing acc with
  | nil => simp [convertAll]
  | cons y ys ih =>
    cases hy : typeAssert t y with
    | none => simp [List.foldlM_cons, convertAll, hy]
    | some a =>
      have e1 : convertAll (fun x => (typeAssert t x).map fun a => Wrapper.mk (some a)) (y :: ys)
          = (convertAll (fun x => (typeAssert t x).map fun a => Wrapper.mk (some a)) ys).map
              fun bs => Wrapper.mk (some a) :: bs := by
        simp [convertAll, hy]
      simp only [List.foldlM_cons, hy, Option.map_some', Option.bind_eq_bind, Option.some_bind]
      rw [ih, e1]
      cases convertAll (fun x => (typeAssert t x).map fun a => Wrapper.mk (some a)) ys with
      | none => rfl
      | some cs => simp [Slice.toList]

/-- The append loop of the floating IP list yields the same typed elements
as the conversion of every element in order. -/
theorem appendLoop_toList {W : WireType → Type} (t : WireType) (si : List (Iface W)) :
    (appendLoop t si).map Slice.toList
      = convertAll (fun x => (typeAssert t x).map fun a => Wrapper.mk (some a)) si := by
  unfold appendLoop
  rw [appendLoop_fold]
  cases convertAll (fun x => (typeAssert t x).map fun a => Wrapper.mk (some a)) si <;>
    simp [Slice.toList]

theorem appendLoop_eq_none_iff {W : WireType → Type} (t : WireType) (si : List (Iface W)) :
    appendLoop t si = none ↔ ∃ x, x ∈ si ∧ hasWireType t x = false := by
  have h := appendLoop_toList t si
  rw [← Option.map_eq_none' (f := Slice.toList), h, convertAll_eq_none_iff]
  simp only [Option.map_eq_none', typeAssert_eq_none_iff]

theorem appendLoop_of_all {W : WireType → Type} (t : WireType) (si : List (Iface W))
    (h : ∀ x, x ∈ si → hasWireType t x = true) :
    ∃ list, appendLoop t si = some list ∧
      WrapsEach t (fun a => Wrapper.mk (some a)) si list.toList := by
  cases hc : appendLoop t si with
  | none =>
    obtain ⟨x, hx, hf⟩ := (appendLoop_eq_none_iff t si).1 hc
    rw [h x hx] at hf
    exact absurd hf (by decide)
  | some list =>
    refine ⟨list, rfl, convertAll_wrapsEach t _ si _ ?_⟩
    rw [← appendLoop_toList, hc]
    rfl

/-- A run through `m` continuing pages and a last page that succeeds without
a next link returns the concatenation of the `m + 1` pages. -/
theorem paginate_complete {σ ε : Type} {W : WireType → Type}
    (gen : Generator σ ε W) (s : σ) (m f : Nat)
    (hc : ∀ j, j < m → continues (pageFrom gen j 1 s) = true)
    (ho : (pageFrom gen m 1 s).err = none)
    (hl : hasNextPage (pageFrom gen m 1 s).resp = false) :
    PaginateResp gen (m + (f + 1)) s
      = some ((some (pagesConcat gen s (m + 1)), none), stateAfter gen s (m + 1)) := by
  simp only [pageFrom] at hl ho
  unfold PaginateResp
  rw [paginateLoop_continue gen m (f + 1) 1 [] s hc, paginateLoop_stop gen f _ _ _ ho hl]
  rw [← concatFrom_eq_pagesConcat, concatFrom_succ_last, stateAfter, stateFrom_succ_last]
  simp [pageFrom]

/-- C1. If the fetcher succeeds on pages `1..n`, signals a next page on
pages `1..n-1` and none on page `n`, then `PaginateResp` (given fuel for `n`
fetches) returns, without error, exactly `P1 ++ P2 ++ ... ++ Pn`: the
element lists of the pages in fetch order, whatever they are, empty ones
included. -/
theorem PaginateResp_returns_concatenation {σ ε : Type} {W : WireType → Type}
    (gen : Generator σ ε W) (s : σ) (n fuel : Nat) (hn : 1 ≤ n) (hfuel : n ≤ fuel)
    (hok : ∀ i, i < n → (pageAt gen s i).err = none)
    (hnext : ∀ i, i + 1 < n → hasNextPage (pageAt gen s i).resp = true)
    (hlast : hasNextPage (pageAt gen s (n - 1)).resp = false) :
    PaginateResp gen fuel s
      = some ((some (pagesConcat gen s n), none), stateAfter gen s n) := by
  obtain ⟨m, rfl⟩ : ∃ m, n = m + 1 := ⟨n - 1, by omega⟩
  obtain ⟨f, rfl⟩ : ∃ f, fuel = m + (f + 1) := ⟨fuel - (m + 1), by omega⟩
  have hc : ∀ j, j < m → continues (pageFrom gen j 1 s) = true := by
    intro j hj
    have h1 := hok j (by omega)
    have h2 := hnext j (by omega)
    simp only [pageAt] at h1 h2
    simp [continues, h1, h2]
  have hl := hlast
  simp only [Nat.add_sub_cancel, pageAt] at hl
  exact paginate_complete gen s m f hc (hok m (by omega)) hl

/-- C1, on three pages `[10, 11]`, `[]`, `[12]`: the empty middle page neither
stops the aggregation nor disturbs the order. -/
theorem PaginateResp_returns_concatenation_witness :
    PaginateResp demoThreePages 7 ()
      = some ((some [toIface .Server 10, toIface .Server 11, toIface .Server 12], none), ()) :=
  PaginateResp_returns_concatenation demoThreePages () 3 7 (by decide) (by decide)
    (by decide) (fun i hi => by have h : i < 2 := by omega
                                interval_cases i <;> rfl) (by decide)

/-- C2. For every `k ≥ 1`: if pages `1..k-1` each signal a next page and
page `k` does not, `PaginateResp` (given fuel for `k` fetches) returns, and
the fetcher has been invoked exactly `k` times, the `i`-th invocation
requesting page `i` at page size 200. -/
theorem PaginateResp_fetches_pages_in_turn {σ ε : Type} {W : WireType → Type}
    (gen : Generator σ ε W) (s : σ) (k fuel : Nat) (hk : 1 ≤ k) (hfuel : k ≤ fuel)
    (hnext : ∀ i, i + 1 < k → continues (pageAt gen s i) = true)
    (hlast : continues (pageAt gen s (k - 1)) = false) :
    ∃ res st, PaginateResp gen fuel s = some (res, st) ∧
      PaginateResp (logged gen) fuel (s, []) = some (res, (st, requestLog k)) ∧
      (requestLog k).length = k ∧
      ∀ i, i < k → (requestLog k)[i]? = some { Page := i + 1, PerPage := 200 } := by
  obtain ⟨m, rfl⟩ : ∃ m, k = m + 1 := ⟨k - 1, by omega⟩
  obtain ⟨f, rfl⟩ : ∃ f, fuel = m + (f + 1) := ⟨fuel - (m + 1), by omega⟩
  obtain ⟨res, st, h1, h2⟩ := run_stops_at gen s m f
    (fun j hj => hnext j (by omega)) (by simpa using hlast)
  refine ⟨res, st, h1, h2, by simp [requestLog], ?_⟩
  intro i hi
  simp [requestLog, List.getElem?_map, List.getElem?_range hi]

/-- C2, on the three-page fetcher: three fetches, for pages 1, 2, 3, each at
page size 200. -/
theorem PaginateResp_fetches_pages_in_turn_witness :
    ∃ res st, PaginateResp demoThreePages 7 () = some (res, st) ∧
      PaginateResp (logged demoThreePages) 7 ((), []) = some (res, (st, requestLog 3)) ∧
      (requestLog 3).length = 3 ∧
      ∀ i, i < 3 → (requestLog 3)[i]? = some { Page := i + 1, PerPage := 200 } :=
  PaginateResp_fetches_pages_in_turn demoThreePages () 3 7 (by decide) (by decide)
    (fun i hi => by have h : i < 2 := by omega
                    interval_cases i <;> rfl) (by decide)

/-- C3. If the `m`-th invocation of the fetcher returns an error `e`, all
earlier invocations having succeeded with a next-page signal, `PaginateResp`
(given fuel for `m` fetches) returns the error `e` and a nil collection, and
the fetcher has been invoked exactly `m` times: nothing after the failing
fetch. -/
theorem PaginateResp_fails_fast {σ ε : Type} {W : WireType → Type}
    (gen : Generator σ ε W) (s : σ) (m fuel : Nat) (e : ε) (hm : 1 ≤ m) (hfuel : m ≤ fuel)
    (hnext : ∀ i, i + 1 < m → continues (pageAt gen s i) = true)
    (herr : (pageAt gen s (m - 1)).err = some e) :
    PaginateResp gen fuel s = some ((none, some e), stateAfter gen s m) ∧
      PaginateResp (logged gen) fuel (s, [])
        = some ((none, some e), (stateAfter gen s m, requestLog m)) ∧
      (requestLog m).length = m := by
  obtain ⟨n, rfl⟩ : ∃ n, m = n + 1 := ⟨m - 1, by omega⟩
  obtain ⟨f, rfl⟩ : ∃ f, fuel = n + (f + 1) := ⟨fuel - (n + 1), by omega⟩
  have hc : ∀ j, j < n → continues (pageFrom gen j 1 s) = true :=
    fun j hj => hnext j (by omega)
  simp only [Nat.add_sub_cancel, pageAt, pageFrom] at herr
  unfold PaginateResp
  rw [paginateLoop_continue gen n (f + 1) 1 [] s hc,
    logged_continue gen n (f + 1) 1 [] s [] hc, paginateLoop_fail gen f _ _ _ e herr,
    paginateLoop_fail (logged gen) f _ _ _ e (by simpa [logged] using herr)]
  rw [← requestsFrom_one, requestsFrom_succ_last, stateAfter, stateFrom_succ_last]
  refine ⟨rfl, by simp [logged], ?_⟩
  rw [← requestsFrom_succ_last, requestsFrom_one]
  simp [requestLog]

/-- C3, on scenario 9 of the spec: page 1 is `[10]` with a next link, the
second fetch fails; the error comes back with no collection after exactly two
fetches. -/
theorem PaginateResp_fails_fast_witness :
    PaginateResp demoFailing 5 () = some ((none, some "connection reset"), ()) ∧
      PaginateResp (logged demoFailing) 5 ((), [])
        = some ((none, some "connection reset"), ((), requestLog 2)) ∧
      (requestLog 2).length = 2 :=
  PaginateResp_fails_fast demoFailing () 2 5 "connection reset" (by decide) (by decide)
    (fun i hi => by have h : i < 1 := by omega
                    interval_cases i; rfl) (by decide)

/-- C10. Take two page fetchers that return, page by page, the same
elements, the same error status and the same next-link presence, whatever
`meta.total` their responses carry.  (1) For every amount of fuel
`PaginateResp` issues the same requests to both and returns the same result.
(2) For every `k`, however large: if pages `1..k-1` succeed with a next link
and page `k` succeeds without one, both runs make exactly `k` fetches, for
pages `1..k`, and both return `P1 ++ ... ++ Pk` without error.  (3) For every
`n`: while each of the first `n` pages succeeds with a next link the run has
not returned after `n` fetches.  So nothing but the absence of a next link
(or an error) ends the loop: no total-count check, no cap on the pages. -/
theorem PaginateResp_ignores_total {σ τ ε : Type} {W : WireType → Type}
    (gen1 : Generator σ ε W) (gen2 : Generator τ ε W) (s1 : σ) (s2 : τ)
    (h : ∀ i, (pageAt gen1 s1 i).elems = (pageAt gen2 s2 i).elems ∧
      (pageAt gen1 s1 i).err = (pageAt gen2 s2 i).err ∧
      hasNextPage (pageAt gen1 s1 i).resp = hasNextPage (pageAt gen2 s2 i).resp) :
    (∀ fuel, (PaginateResp (logged gen1) fuel (s1, [])).map (fun r => (r.1, r.2.2))
      = (PaginateResp (logged gen2) fuel (s2, [])).map (fun r => (r.1, r.2.2))) ∧
    (∀ k fuel, 1 ≤ k → k ≤ fuel →
      (∀ i, i + 1 < k → continues (pageAt gen1 s1 i) = true) →
      (pageAt gen1 s1 (k - 1)).err = none →
      hasNextPage (pageAt gen1 s1 (k - 1)).resp = false →
      ∃ st1 st2,
        PaginateResp (logged gen1) fuel (s1, [])
          = some ((some (pagesConcat gen1 s1 k), none), (st1, requestLog k)) ∧
        PaginateResp (logged gen2) fuel (s2, [])
          = some ((some (pagesConcat gen1 s1 k), none), (st2, requestLog k)) ∧
        (requestLog k).length = k) ∧
    (∀ n, (∀ i, i < n → continues (pageAt gen1 s1 i) = true) →
      PaginateResp (logged gen1) n (s1, []) = none ∧
      PaginateResp (logged gen2) n (s2, []) = none) := by
  have hagree : ∀ fuel, (PaginateResp (logged gen1) fuel (s1, [])).map (fun r => (r.1, r.2.2))
      = (PaginateResp (logged gen2) fuel (s2, [])).map (fun r => (r.1, r.2.2)) :=
    fun fuel => paginateLoop_agree gen1 gen2 fuel 1 [] s1 s2 [] h
  refine ⟨hagree, ?_, ?_⟩
  · intro k fuel hk hfuel hnext hok hlast
    obtain ⟨m, rfl⟩ : ∃ m, k = m + 1 := ⟨k - 1, by omega⟩
    obtain ⟨f, rfl⟩ : ∃ f, fuel = m + (f + 1) := ⟨fuel - (m + 1), by omega⟩
    have hc : ∀ j, j < m → continues (pageFrom gen1 j 1 s1) = true :=
      fun j hj => hnext j (by omega)
    simp only [Nat.add_sub_cancel, pageAt] at hok hlast
    have hstop : continues (pageFrom gen1 m 1 s1) = false := by
      simp [continues, hlast]
    obtain ⟨res, st, h1, h2⟩ := run_stops_at gen1 s1 m f hc hstop
    rw [paginate_complete gen1 s1 m f hc hok hlast] at h1
    simp only [Option.some.injEq, Prod.mk.injEq] at h1
    obtain ⟨hres, hst⟩ := h1
    subst hres
    have h3 := hagree (m + (f + 1))
    rw [h2] at h3
    cases h4 : PaginateResp (logged gen2) (m + (f + 1)) (s2, []) with
    | none => rw [h4] at h3; cases h3
    | some r2 =>
      rw [h4] at h3
      simp only [Option.map_some', Option.some.injEq, Prod.mk.injEq] at h3
      obtain ⟨r21, r22, r23⟩ := r2
      simp only at h3
      refine ⟨st, r22, h2, ?_, by simp [requestLog]⟩
      rw [← h3.1, ← h3.2]
  · intro n hn
    have hc1 : ∀ j, j < n → continues (pageFrom gen1 j 1 s1) = true := hn
    have hc2 : ∀ j, j < n → continues (pageFrom gen2 j 1 s2) = true := by
      intro j hj
      have h1 := hn j hj
      obtain ⟨-, he, hx⟩ := h j
      simp only [pageAt] at h1 he hx
      simp only [continues] at h1 ⊢
      rw [← he, ← hx]
      exact h1
    constructor
    · have := logged_continue gen1 n 0 1 [] s1 [] hc1
      unfold PaginateResp
      rw [Nat.add_zero] at this
      rw [this]
      rfl
    · have := logged_continue gen2 n 0 1 [] s2 [] hc2
      unfold PaginateResp
      rw [Nat.add_zero] at this
      rw [this]
      rfl

/-- C10, on two fetchers of three pages that differ only in `meta.total` (3
on every page against 1000, 0 and -5): the same requests and the same result
with fuel for seven fetches; exactly three fetches and the collection
`[10, 11, 12]` for both; and no return within two fetches. -/
theorem PaginateResp_ignores_total_witness :
    ((PaginateResp (logged demoThreePages) 7 ((), [])).map (fun r => (r.1, r.2.2))
      = (PaginateResp (logged demoThreePagesOtherTotal) 7 ((), [])).map
          (fun r => (r.1, r.2.2))) ∧
    (∃ st1 st2,
      PaginateResp (logged demoThreePages) 7 ((), [])
        = some ((some (pagesConcat demoThreePages () 3), none), (st1, requestLog 3)) ∧
      PaginateResp (logged demoThreePagesOtherTotal) 7 ((), [])
        = some ((some (pagesConcat demoThreePages () 3), none), (st2, requestLog 3)) ∧
      (requestLog 3).length = 3) ∧
    (PaginateResp (logged demoThreePages) 2 ((), []) = none ∧
      PaginateResp (logged demoThreePagesOtherTotal) 2 ((), []) = none) :=
  have hall := PaginateResp_ignores_total demoThreePages demoThreePagesOtherTotal () ()
    (fun i => by
      match i with
      | 0 => exact ⟨rfl, rfl, rfl⟩
      | 1 => exact ⟨rfl, rfl, rfl⟩
      | n + 2 =>
        have h1 : ¬ (1 + (n + 2) = 1) := by omega
        have h2 : ¬ (1 + (n + 2) = 2) := by omega
        simp [pageAt, pageFrom, demoThreePages, demoThreePagesOtherTotal, h1, h2,
          hasNextPage, respNoNext])
  ⟨hall.1 7,
    hall.2.1 3 7 (by decide) (by decide)
      (fun i hi => by have h : i < 2 := by omega
                      interval_cases i <;> rfl) (by decide) (by decide),
    hall.2.2 2 (fun i hi => by interval_cases i <;> rfl)⟩

/-! ### The page-fetch closures -/

theorem boxesPage_copyLoop {ε : Type} {W : WireType → Type} (t : WireType) (L : List (W t))
    (resp : Option Response) :
    BoxesPage (ε := ε) t L resp
      { elems := some (copyLoop (toIface t) none L), resp := resp, err := none } := by
  refine ⟨⟨_, rfl, ?_, ?_⟩, rfl, rfl⟩
  · rw [copyLoop_eq_map, List.length_map]
  · intro i h
    rw [copyLoop_eq_map, List.getElem?_map, List.getElem?_eq_getElem h]
    rfl

/-- C9. Applied to a successful client response that carries the wire list
`L`, the page-fetch closure of every list adapter (the shared closure of the
server, action, tag, region, size, VPC, load balancer, floating IP and
firewall lists, and the closures of the invoice list, the invoice and the
billing history) returns a non-nil element slice of the length of `L` whose
`i`-th element is `L[i]`, the client's response unchanged, and a nil error;
the invoice list closure also stores the page's preview. -/
theorem closures_box_the_page {σ ε : Type} {W : WireType → Type} (opt : ListOptions)
    (s s1 : σ) (resp : Option Response) :
    (∀ (t : WireType) (call : ClientCall σ ε (Slice (W t))) (list : Slice (W t)),
        call opt s = ((list, resp, none), s1) →
        BoxesPage t list.toList resp (listClosure t call opt s).1 ∧
          (listClosure t call opt s).2 = s1) ∧
    (∀ (call : ClientCall σ ε (InvoiceList W)) (invoiceList : InvoiceList W)
        (v : W .InvoiceListItem),
        call opt s = ((invoiceList, resp, none), s1) →
        BoxesPage .InvoiceListItem invoiceList.Invoices.toList resp
            (invoicesService.List.listFn call opt (s, v)).1 ∧
          (invoicesService.List.listFn call opt (s, v)).2
            = (s1, invoiceList.InvoicePreview)) ∧
    (∀ (call : ClientCall σ ε (Invoice W)) (invoice : Invoice W),
        call opt s = ((invoice, resp, none), s1) →
        BoxesPage .InvoiceItem invoice.InvoiceItems.toList resp
            (invoicesService.Get.listFn call opt s).1 ∧
          (invoicesService.Get.listFn call opt s).2 = s1) ∧
    (∀ (call : ClientCall σ ε (BillingHistory W)) (historyList : BillingHistory W),
        call opt s = ((historyList, resp, none), s1) →
        BoxesPage .BillingHistoryEntry historyList.BillingHistory.toList resp
            (billingHistoryService.List.listFn call opt s).1 ∧
          (billingHistoryService.List.listFn call opt s).2 = s1) := by
  refine ⟨?_, ?_, ?_, ?_⟩
  · intro t call list h
    simp only [listClosure, h]
    exact ⟨boxesPage_copyLoop t _ resp, trivial⟩
  · intro call invoiceList v h
    simp only [invoicesService.List.listFn, h]
    exact ⟨boxesPage_copyLoop _ _ resp, trivial⟩
  · intro call invoice h
    simp only [invoicesService.Get.listFn, h]
    exact ⟨boxesPage_copyLoop _ _ resp, trivial⟩
  · intro call historyList h
    simp only [billingHistoryService.List.listFn, h]
    exact ⟨boxesPage_copyLoop _ _ resp, trivial⟩

/-- C9, on page 1 of the demo calls: the closure of the server list turns the
wire list `[10, 11]` into the two interface values, keeping the response. -/
theorem closures_box_the_page_witness :
    BoxesPage (ε := String) (W := DemoW) .Server [10, 11] (respWithNext 2)
        (listClosure .Server (demoCall .Server) { Page := 1, PerPage := 200 } ()).1 ∧
      (listClosure .Server (demoCall .Server) { Page := 1, PerPage := 200 } ()).2 = () :=
  (closures_box_the_page (σ := Unit) (ε := String) (W := DemoW)
    { Page := 1, PerPage := 200 } () () (respWithNext 2)).1
    .Server (demoCall .Server) (some [10, 11]) rfl

/-! ### Errors -/

/-- C5. Errors pass through every list method unchanged.  (a) When the
client's page call returns an error, each page-fetch closure returns that
error with a nil element slice and a nil response.  (b) When the driver
returns an error, each list method returns that same error with a nil
collection, whatever collection the driver returned with it. -/
theorem list_methods_pass_errors_on {σ ε : Type} {W : WireType → Type} (e : ε)
    (s s1 : σ) :
    ((∀ (t : WireType) (call : ClientCall σ ε (Slice (W t))) (opt : ListOptions)
          (list : Slice (W t)) (resp : Option Response),
          call opt s = ((list, resp, some e), s1) →
          listClosure t call opt s = ({ elems := none, resp := none, err := some e }, s1)) ∧
      (∀ (call : ClientCall σ ε (InvoiceList W)) (opt : ListOptions)
          (invoiceList : InvoiceList W) (resp : Option Response) (v : W .InvoiceListItem),
          call opt s = ((invoiceList, resp, some e), s1) →
          invoicesService.List.listFn call opt (s, v)
            = ({ elems := none, resp := none, err := some e }, (s1, v))) ∧
      (∀ (call : ClientCall σ ε (Invoice W)) (opt : ListOptions) (invoice : Invoice W)
          (resp : Option Response),
          call opt s = ((invoice, resp, some e), s1) →
          invoicesService.Get.listFn call opt s
            = ({ elems := none, resp := none, err := some e }, s1)) ∧
      (∀ (call : ClientCall σ ε (BillingHistory W)) (opt : ListOptions)
          (historyList : BillingHistory W) (resp : Option Response),
          call opt s = ((historyList, resp, some e), s1) →
          billingHistoryService.List.listFn call opt s
            = ({ elems := none, resp := none, err := some e }, s1))) ∧
    ((∀ (m : ListMethod) (drv : Driver σ ε W) (call : ClientCall σ ε (Slice (W m.wire)))
          (si : Slice (Iface W)),
          drv (listClosure m.wire call) s = some ((si, some e), s1) →
          m.run drv call s = some (.ret none (some (.ext e)), s1)) ∧
      (∀ (drv : Driver σ ε W) (call : ClientCall σ ε (Slice (W .FloatingIP)))
          (si : Slice (Iface W)),
          drv (listClosure .FloatingIP call) s = some ((si, some e), s1) →
          floatingIPsService.List drv call s = some (.ret none (some (.ext e)), s1)) ∧
      (∀ (drv : Driver σ ε W) (listFn : Generator σ ε W) (si : Slice (Iface W)),
          drv listFn s = some ((si, some e), s1) →
          paginatedListHelper drv listFn s = some (.ret none (some (.ext e)), s1)) ∧
      (∀ (drv : Driver σ ε W) (call : ClientCall σ ε (Slice (W .Firewall)))
          (si : Slice (Iface W)),
          drv (listClosure .Firewall call) s = some ((si, some e), s1) →
          firewallsService.List drv call s = some (.ret none (some (.ext e)), s1) ∧
            firewallsService.ListByServer drv call s
              = some (.ret none (some (.ext e)), s1)) ∧
      (∀ (zero : W .InvoiceListItem) (drv : Driver (σ × W .InvoiceListItem) ε W)
          (call : ClientCall σ ε (InvoiceList W)) (si : Slice (Iface W))
          (v : W .InvoiceListItem),
          drv (invoicesService.List.listFn call) (s, zero) = some ((si, some e), (s1, v)) →
          invoicesService.List zero drv call s = some (.ret none (some (.ext e)), s1)) ∧
      (∀ (zero : W .InvoiceItem) (drv : Driver σ ε W) (call : ClientCall σ ε (Invoice W))
          (si : Slice (Iface W)),
          drv (invoicesService.Get.listFn call) s = some ((si, some e), s1) →
          invoicesService.Get zero drv call s = some (.ret none (some (.ext e)), s1)) ∧
      (∀ (zero : W .BillingHistoryEntry) (drv : Driver σ ε W)
          (call : ClientCall σ ε (BillingHistory W)) (si : Slice (Iface W)),
          drv (billingHistoryService.List.listFn call) s = some ((si, some e), s1) →
          billingHistoryService.List zero drv call s
            = some (.ret none (some (.ext e)), s1))) := by
  refine ⟨⟨?_, ?_, ?_, ?_⟩, ?_, ?_, ?_, ?_, ?_, ?_, ?_⟩
  · intro t call opt list resp h
    simp only [listClosure, h]
  · intro call opt invoiceList resp v h
    simp only [invoicesService.List.listFn, h]
  · intro call opt invoice resp h
    simp only [invoicesService.Get.listFn, h]
  · intro call opt historyList resp h
    simp only [billingHistoryService.List.listFn, h]
  · intro m drv call si h
    simp only [ListMethod.run, h]
  · intro drv call si h
    simp only [floatingIPsService.List, h]
  · intro drv listFn si h
    simp only [paginatedListHelper, h]
  · intro drv call si h
    simp only [firewallsService.List, firewallsService.ListByServer, paginatedListHelper, h,
      and_self]
  · intro zero drv call si v h
    simp only [invoicesService.List, h]
  · intro zero drv call si h
    simp only [invoicesService.Get, h]
  · intro zero drv call si h
    simp only [billingHistoryService.List, h]

/-- C5, on the server list over the pagination driver: page 1 succeeds with
a next link, the fetch of page 2 fails, and `List` returns that error with a
nil collection. -/
theorem list_methods_pass_errors_on_witness :
    ListMethod.serversService_List.run (W := DemoW)
        (fun gen => PaginateResp gen 5) (demoCall .Server) ()
      = some (.ret none (some (.ext "connection reset")), ()) :=
  (list_methods_pass_errors_on (σ := Unit) (W := DemoW) "connection reset" () ()).2.1
    .serversService_List (fun gen => PaginateResp gen 5) (demoCall .Server) none rfl

/-! ### The typed result -/

/-- C6. When the driver returns, without error, a merged collection `si`
every element of which has the adapter's wire type, every list adapter
returns, without error, a typed result with exactly `len(si)` elements whose
`i`-th element wraps the value of `si[i]` (for the invoice list, the invoice
and the billing history: is the value of `si[i]`). -/
theorem typed_result_wraps_each_element {σ ε : Type} {W : WireType → Type} (s s1 : σ)
    (si : Slice (Iface W)) :
    (∀ (m : ListMethod) (drv : Driver σ ε W) (call : ClientCall σ ε (Slice (W m.wire))),
        drv (listClosure m.wire call) s = some ((si, none), s1) →
        (∀ x, x ∈ si.toList → hasWireType m.wire x = true) →
        ∃ list, m.run drv call s = some (.ret (some list) none, s1) ∧
          WrapsEach m.wire (fun a => Wrapper.mk (some a)) si.toList list) ∧
    (∀ (drv : Driver σ ε W) (call : ClientCall σ ε (Slice (W .FloatingIP))),
        drv (listClosure .FloatingIP call) s = some ((si, none), s1) →
        (∀ x, x ∈ si.toList → hasWireType .FloatingIP x = true) →
        ∃ list, floatingIPsService.List drv call s = some (.ret list none, s1) ∧
          WrapsEach .FloatingIP (fun a => Wrapper.mk (some a)) si.toList list.toList) ∧
    (∀ (drv : Driver σ ε W) (listFn : Generator σ ε W),
        drv listFn s = some ((si, none), s1) →
        (∀ x, x ∈ si.toList → hasWireType .Firewall x = true) →
        ∃ list, paginatedListHelper drv listFn s = some (.ret (some list) none, s1) ∧
          WrapsEach .Firewall (fun a => Wrapper.mk (some a)) si.toList list) ∧
    (∀ (drv : Driver σ ε W) (call : ClientCall σ ε (Slice (W .Firewall))),
        drv (listClosure .Firewall call) s = some ((si, none), s1) →
        (∀ x, x ∈ si.toList → hasWireType .Firewall x = true) →
        ∃ list, firewallsService.List drv call s = some (.ret (some list) none, s1) ∧
          firewallsService.ListByServer drv call s = some (.ret (some list) none, s1) ∧
          WrapsEach .Firewall (fun a => Wrapper.mk (some a)) si.toList list) ∧
    (∀ (zero : W .InvoiceListItem) (drv : Driver (σ × W .InvoiceListItem) ε W)
        (call : ClientCall σ ε (InvoiceList W)) (v : W .InvoiceListItem),
        drv (invoicesService.List.listFn call) (s, zero) = some ((si, none), (s1, v)) →
        (∀ x, x ∈ si.toList → hasWireType .InvoiceListItem x = true) →
        ∃ list, invoicesService.List zero drv call s
            = some (.ret (some { Invoices := some list, InvoicePreview := v }) none, s1) ∧
          WrapsEach .InvoiceListItem (fun a => a) si.toList list) ∧
    (∀ (zero : W .InvoiceItem) (drv : Driver σ ε W) (call : ClientCall σ ε (Invoice W)),
        drv (invoicesService.Get.listFn call) s = some ((si, none), s1) →
        (∀ x, x ∈ si.toList → hasWireType .InvoiceItem x = true) →
        ∃ list, invoicesService.Get zero drv call s
            = some (.ret (some { InvoiceItems := some list }) none, s1) ∧
          WrapsEach .InvoiceItem (fun a => a) si.toList list) ∧
    (∀ (zero : W .BillingHistoryEntry) (drv : Driver σ ε W)
        (call : ClientCall σ ε (BillingHistory W)),
        drv (billingHistoryService.List.listFn call) s = some ((si, none), s1) →
        (∀ x, x ∈ si.toList → hasWireType .BillingHistoryEntry x = true) →
        ∃ list, billingHistoryService.List zero drv call s
            = some (.ret (some { BillingHistory := some list }) none, s1) ∧
          WrapsEach .BillingHistoryEntry (fun a => a) si.toList list) := by
  refine ⟨?_, ?_, ?_, ?_, ?_, ?_, ?_⟩
  · intro m drv call h hall
    obtain ⟨list, hl, hw⟩ :=
      convertLoop_of_all m.wire (fun a => Wrapper.mk (some a)) (Wrapper.mk none) si.toList hall
    exact ⟨list, by simp only [ListMethod.run, h, hl], hw⟩
  · intro drv call h hall
    obtain ⟨list, hl, hw⟩ := appendLoop_of_all .FloatingIP si.toList hall
    exact ⟨list, by simp only [floatingIPsService.List, h, hl], hw⟩
  · intro drv listFn h hall
    obtain ⟨list, hl, hw⟩ :=
      convertLoop_of_all .Firewall (fun a => Wrapper.mk (some a)) (Wrapper.mk none) si.toList hall
    exact ⟨list, by simp only [paginatedListHelper, h, hl], hw⟩
  · intro drv call h hall
    obtain ⟨list, hl, hw⟩ :=
      convertLoop_of_all .Firewall (fun a => Wrapper.mk (some a)) (Wrapper.mk none) si.toList hall
    exact ⟨list, by simp only [firewallsService.List, paginatedListHelper, h, hl],
      by simp only [firewallsService.ListByServer, paginatedListHelper, h, hl], hw⟩
  · intro zero drv call v h hall
    obtain ⟨list, hl, hw⟩ :=
      convertLoop_of_all .InvoiceListItem (fun a => a) zero si.toList hall
    simp only [Option.map_id'] at hl
    exact ⟨list, by simp only [invoicesService.List, h, hl], hw⟩
  · intro zero drv call h hall
    obtain ⟨list, hl, hw⟩ := convertLoop_of_all .InvoiceItem (fun a => a) zero si.toList hall
    simp only [Option.map_id'] at hl
    exact ⟨list, by simp only [invoicesService.Get, h, hl], hw⟩
  · intro zero drv call h hall
    obtain ⟨list, hl, hw⟩ :=
      convertLoop_of_all .BillingHistoryEntry (fun a => a) zero si.toList hall
    simp only [Option.map_id'] at hl
    exact ⟨list, by simp only [billingHistoryService.List, h, hl], hw⟩

/-- C6, on the billing history over the pagination driver: the single page
`[10, 11]` comes back as a typed list that matches the merged collection
element for element. -/
theorem typed_result_wraps_each_element_witness :
    ∃ list, billingHistoryService.List (W := DemoW) 0 (fun gen => PaginateResp gen 5)
          demoBillingCall ()
        = some (.ret (some { BillingHistory := some list }) none, ()) ∧
      WrapsEach (W := DemoW) .BillingHistoryEntry (fun a => a)
        (Slice.toList (some [toIface .BillingHistoryEntry 10, toIface .BillingHistoryEntry 11]))
        list :=
  (typed_result_wraps_each_element (σ := Unit) (ε := String) (W := DemoW) () ()
    (some [toIface .BillingHistoryEntry 10, toIface .BillingHistoryEntry 11])).2.2.2.2.2.2
    0 (fun gen => PaginateResp gen 5) demoBillingCall rfl
    (fun x hx => by
      simp only [Slice.toList, List.mem_cons, List.mem_singleton, List.not_mem_nil,
        or_false] at hx
      rcases hx with rfl | rfl <;> rfl)

/-! ### An element that is not of the wire type -/

/-- C4 fails for the server list: handed by the driver a merged collection
whose second element is a `binarylane.Firewall`, `serversService.List` does
not return an error (or anything else); its unchecked assertion
`si[i].(binarylane.Server)` panics.  The firewall list of the same package,
handed a merged collection whose second element is a `binarylane.Server`,
returns a nil list and the explicit error "unexpected value in response". -/
theorem serversService_List_panics_on_mismatch :
    ListMethod.serversService_List.run (W := DemoW)
        (constDriver (some [toIface .Server 10, toIface .Firewall 11], none))
        (demoCall .Server) ()
      = some (.panic, ()) ∧
    (¬ ∃ v e, ListMethod.serversService_List.run (W := DemoW)
        (constDriver (some [toIface .Server 10, toIface .Firewall 11], none))
        (demoCall .Server) ()
      = some (.ret v e, ())) ∧
    firewallsService.List (W := DemoW)
        (constDriver (some [toIface .Firewall 10, toIface .Server 11], none))
        (demoCall .Firewall) ()
      = some (.ret none (some (.new "unexpected value in response")), ()) := by
  have h : ListMethod.serversService_List.run (W := DemoW)
      (constDriver (some [toIface .Server 10, toIface .Firewall 11], none))
      (demoCall .Server) () = some (.panic, ()) := rfl
  refine ⟨h, ?_, rfl⟩
  rintro ⟨v, e, hv⟩
  rw [h] at hv
  cases hv

theorem hasWireType_toIface {W : WireType → Type} (t : WireType) (v : W t) :
    hasWireType t (toIface t v) = true := by
  simp [hasWireType, toIface]

/-- The driver only hands back elements that the fetcher returned: a property
of every element of every page is a property of every element of the merged
collection. -/
theorem paginateLoop_elements {σ ε : Type} {W : WireType → Type} (P : Iface W → Prop)
    (gen : Generator σ ε W)
    (hgen : ∀ opt s x, x ∈ (gen opt s).1.elems.toList → P x) (fuel : Nat)
    (opt : ListOptions) (acc : List (Iface W)) (s : σ) (si : Slice (Iface W))
    (err : Option ε) (s1 : σ) (hacc : ∀ x, x ∈ acc → P x)
    (h : paginateLoop gen fuel opt acc s = some ((si, err), s1)) :
    ∀ x, x ∈ si.toList → P x := by
  induction fuel generalizing opt acc s with
  | zero => simp [paginateLoop] at h
  | succ fuel ih =>
    unfold paginateLoop at h
    cases he : (gen opt s).1.err with
    | some e =>
      simp only [he, Option.some.injEq, Prod.mk.injEq] at h
      obtain ⟨⟨h1, -⟩, -⟩ := h
      subst h1
      simp [Slice.toList]
    | none =>
      have hacc2 : ∀ x, x ∈ acc ++ (gen opt s).1.elems.toList → P x := by
        intro x hx
        rcases List.mem_append.1 hx with h1 | h1
        · exact hacc x h1
        · exact hgen opt s x h1
      cases hn : hasNextPage (gen opt s).1.resp with
      | true =>
        simp only [he, hn, if_true] at h
        exact ih _ _ _ hacc2 h
      | false =>
        simp only [he, hn, Bool.false_eq_true, if_false, Option.some.injEq,
          Prod.mk.injEq] at h
        obtain ⟨⟨h1, -⟩, -⟩ := h
        subst h1
        exact hacc2

theorem listClosure_elements {σ ε : Type} {W : WireType → Type} (t : WireType)
    (call : ClientCall σ ε (Slice (W t))) (opt : ListOptions) (s : σ) (x : Iface W)
    (hx : x ∈ (listClosure t call opt s).1.elems.toList) : hasWireType t x = true := by
  rcases hcs : call opt s with ⟨⟨list, resp, err⟩, s1⟩
  cases err with
  | some e => simp [listClosure, hcs, Slice.toList] at hx
  | none =>
    simp only [listClosure, hcs, Slice.toList, copyLoop_eq_map, List.mem_map] at hx
    obtain ⟨v, -, rfl⟩ := hx
    exact hasWireType_toIface t v

/-- Over the pagination driver the unchecked assertion of the list methods
never fails: the merged collection holds only what the method's own closure
boxed, so no list method of `ListMethod` panics. -/
theorem ListMethod_run_never_panics {σ ε : Type} {W : WireType → Type} (m : ListMethod)
    (call : ClientCall σ ε (Slice (W m.wire))) (fuel : Nat) (s s1 : σ) :
    m.run (fun gen => PaginateResp gen fuel) call s ≠ some (.panic, s1) := by
  intro h
  unfold ListMethod.run at h
  rcases hp : PaginateResp (listClosure m.wire call) fuel s with _ | ⟨⟨si, err⟩, s2⟩
  · simp [hp] at h
  · cases err with
    | some e => simp [hp] at h
    | none =>
      have hall := paginateLoop_elements (fun x => hasWireType m.wire x = true)
        (listClosure m.wire call) (listClosure_elements m.wire call) fuel _ [] s si none s2
        (by simp) hp
      obtain ⟨list, hl, -⟩ := convertLoop_of_all m.wire (fun a => Wrapper.mk (some a))
        (Wrapper.mk none) si.toList hall
      simp [hp, hl] at h

/-- What each adapter does with a foreign element.  When the driver returns,
without error, a merged collection with an element that is not of the
adapter's wire type,
`paginatedListHelper`, and with it `firewallsService.List` and
`firewallsService.ListByServer`, returns a nil list and the explicit error
"unexpected value in response"; every other list adapter (the thirteen list
methods of `ListMethod`, the floating IP list, the invoice list, the invoice
and the billing history) asserts the type unchecked and panics. -/
theorem mismatch_is_an_error_only_for_firewalls {σ ε : Type} {W : WireType → Type}
    (s s1 : σ) (si : Slice (Iface W)) :
    (∀ (drv : Driver σ ε W) (listFn : Generator σ ε W),
        drv listFn s = some ((si, none), s1) →
        (∃ x, x ∈ si.toList ∧ hasWireType .Firewall x = false) →
        paginatedListHelper drv listFn s
          = some (.ret none (some (.new "unexpected value in response")), s1)) ∧
    (∀ (drv : Driver σ ε W) (call : ClientCall σ ε (Slice (W .Firewall))),
        drv (listClosure .Firewall call) s = some ((si, none), s1) →
        (∃ x, x ∈ si.toList ∧ hasWireType .Firewall x = false) →
        firewallsService.List drv call s
            = some (.ret none (some (.new "unexpected value in response")), s1) ∧
          firewallsService.ListByServer drv call s
            = some (.ret none (some (.new "unexpected value in response")), s1)) ∧
    (∀ (m : ListMethod) (drv : Driver σ ε W) (call : ClientCall σ ε (Slice (W m.wire))),
        drv (listClosure m.wire call) s = some ((si, none), s1) →
        (∃ x, x ∈ si.toList ∧ hasWireType m.wire x = false) →
        m.run drv call s = some (.panic, s1)) ∧
    (∀ (drv : Driver σ ε W) (call : ClientCall σ ε (Slice (W .FloatingIP))),
        drv (listClosure .FloatingIP call) s = some ((si, none), s1) →
        (∃ x, x ∈ si.toList ∧ hasWireType .FloatingIP x = false) →
        floatingIPsService.List drv call s = some (.panic, s1)) ∧
    (∀ (zero : W .InvoiceListItem) (drv : Driver (σ × W .InvoiceListItem) ε W)
        (call : ClientCall σ ε (InvoiceList W)) (v : W .InvoiceListItem),
        drv (invoicesService.List.listFn call) (s, zero) = some ((si, none), (s1, v)) →
        (∃ x, x ∈ si.toList ∧ hasWireType .InvoiceListItem x = false) →
        invoicesService.List zero drv call s = some (.panic, s1)) ∧
    (∀ (zero : W .InvoiceItem) (drv : Driver σ ε W) (call : ClientCall σ ε (Invoice W)),
        drv (invoicesService.Get.listFn call) s = some ((si, none), s1) →
        (∃ x, x ∈ si.toList ∧ hasWireType .InvoiceItem x = false) →
        invoicesService.Get zero drv call s = some (.panic, s1)) ∧
    (∀ (zero : W .BillingHistoryEntry) (drv : Driver σ ε W)
        (call : ClientCall σ ε (BillingHistory W)),
        drv (billingHistoryService.List.listFn call) s = some ((si, none), s1) →
        (∃ x, x ∈ si.toList ∧ hasWireType .BillingHistoryEntry x = false) →
        billingHistoryService.List zero drv call s = some (.panic, s1)) := by
  refine ⟨?_, ?_, ?_, ?_, ?_, ?_, ?_⟩
  · intro drv listFn h hx
    have hl := (convertLoop_eq_none_iff .Firewall (fun a => Wrapper.mk (some a))
      (Wrapper.mk none) si.toList).2 hx
    simp only [paginatedListHelper, h, hl]
  · intro drv call h hx
    have hl := (convertLoop_eq_none_iff .Firewall (fun a => Wrapper.mk (some a))
      (Wrapper.mk none) si.toList).2 hx
    simp only [firewallsService.List, firewallsService.ListByServer, paginatedListHelper, h, hl,
      and_self]
  · intro m drv call h hx
    have hl := (convertLoop_eq_none_iff m.wire (fun a => Wrapper.mk (some a))
      (Wrapper.mk none) si.toList).2 hx
    simp only [ListMethod.run, h, hl]
  · intro drv call h hx
    have hl := (appendLoop_eq_none_iff .FloatingIP si.toList).2 hx
    simp only [floatingIPsService.List, h, hl]
  · intro zero drv call v h hx
    have hl := (convertLoop_eq_none_iff .InvoiceListItem (fun a => a) zero si.toList).2 hx
    simp only [Option.map_id'] at hl
    simp only [invoicesService.List, h, hl]
  · intro zero drv call h hx
    have hl := (convertLoop_eq_none_iff .InvoiceItem (fun a => a) zero si.toList).2 hx
    simp only [Option.map_id'] at hl
    simp only [invoicesService.Get, h, hl]
  · intro zero drv call h hx
    have hl := (convertLoop_eq_none_iff .BillingHistoryEntry (fun a => a) zero si.toList).2 hx
    simp only [Option.map_id'] at hl
    simp only [billingHistoryService.List, h, hl]

/-- The firewall lists on a merged collection `[Firewall 10, Server 11]`:
the explicit error, and a nil list. -/
theorem mismatch_is_an_error_only_for_firewalls_witness :
    firewallsService.List (W := DemoW)
          (constDriver (some [toIface .Firewall 10, toIface .Server 11], none))
          (demoCall .Firewall) ()
        = some (.ret none (some (.new "unexpected value in response")), ()) ∧
      firewallsService.ListByServer (W := DemoW)
          (constDriver (some [toIface .Firewall 10, toIface .Server 11], none))
          (demoCall .Firewall) ()
        = some (.ret none (some (.new "unexpected value in response")), ()) :=
  (mismatch_is_an_error_only_for_firewalls (σ := Unit) (ε := String) (W := DemoW) () ()
    (some [toIface .Firewall 10, toIface .Server 11])).2.1
    (constDriver (some [toIface .Firewall 10, toIface .Server 11], none))
    (demoCall .Firewall) rfl ⟨toIface .Server 11, by simp [Slice.toList], rfl⟩

/-- C8. Whatever the driver returns, `paginatedListHelper` returns the error
"unexpected value in response" with a nil list if and only if the driver
returned no error and some element of its merged collection is not a
`binarylane.Firewall`; and whenever it returns a list, the driver returned no
error and the list has the length of the merged collection, its `i`-th
element wrapping the `i`-th merged element: no element is skipped. -/
theorem paginatedListHelper_unexpected_value_iff {σ ε : Type} {W : WireType → Type}
    (drv : Driver σ ε W) (listFn : Generator σ ε W) (s s1 : σ) (si : Slice (Iface W))
    (err : Option ε) (h : drv listFn s = some ((si, err), s1)) :
    (paginatedListHelper drv listFn s
        = some (.ret none (some (.new "unexpected value in response")), s1)
      ↔ err = none ∧ ∃ x, x ∈ si.toList ∧ hasWireType .Firewall x = false) ∧
    (∀ list e, paginatedListHelper drv listFn s = some (.ret (some list) e, s1) →
      e = none ∧ err = none ∧
        WrapsEach .Firewall (fun a => Wrapper.mk (some a)) si.toList list) := by
  cases err with
  | some e0 =>
    have hr : paginatedListHelper drv listFn s = some (.ret none (some (.ext e0)), s1) := by
      simp only [paginatedListHelper, h]
    rw [hr]
    refine ⟨⟨fun hc => ?_, fun hc => ?_⟩, fun list e hc => ?_⟩
    · simp at hc
    · simp at hc
    · simp at hc
  | none =>
    cases hl : convertLoop (fun x => (typeAssert .Firewall x).map fun a => Wrapper.mk (some a))
        (Wrapper.mk none) si.toList with
    | none =>
      have hr : paginatedListHelper drv listFn s
          = some (.ret none (some (.new "unexpected value in response")), s1) := by
        simp only [paginatedListHelper, h, hl]
      rw [hr]
      refine ⟨⟨fun _ => ⟨rfl, (convertLoop_eq_none_iff _ _ _ _).1 hl⟩, fun _ => rfl⟩,
        fun list e hc => ?_⟩
      simp at hc
    | some l =>
      have hr : paginatedListHelper drv listFn s = some (.ret (some l) none, s1) := by
        simp only [paginatedListHelper, h, hl]
      rw [hr]
      refine ⟨⟨fun hc => ?_, fun hc => ?_⟩, fun list e hc => ?_⟩
      · simp at hc
      · have hn := (convertLoop_eq_none_iff .Firewall (fun a => Wrapper.mk (some a))
          (Wrapper.mk none) si.toList).2 hc.2
        rw [hl] at hn
        cases hn
      · simp only [Option.some.injEq, Prod.mk.injEq, GoResult.ret.injEq, and_true] at hc
        obtain ⟨h1, h2⟩ := hc
        subst h1
        exact ⟨h2.symm, rfl, convertLoop_wrapsEach _ _ _ _ _ hl⟩

/-- C8, on a merged collection `[Firewall 10, Server 11]`: the error is
returned, and it is returned because of the second element. -/
theorem paginatedListHelper_unexpected_value_iff_witness :
    (paginatedListHelper (W := DemoW)
          (constDriver (some [toIface .Firewall 10, toIface .Server 11], none))
          (listClosure .Firewall (demoCall .Firewall)) ()
        = some (.ret none (some (.new "unexpected value in response")), ())
      ↔ (none : Option String) = none ∧
        ∃ x, x ∈ Slice.toList (some [toIface (W := DemoW) .Firewall 10, toIface .Server 11]) ∧
          hasWireType .Firewall x = false) ∧
    (∀ list e, paginatedListHelper (W := DemoW)
          (constDriver (some [toIface .Firewall 10, toIface .Server 11], none))
          (listClosure .Firewall (demoCall .Firewall)) ()
        = some (.ret (some list) e, ()) →
      e = none ∧ (none : Option String) = none ∧
        WrapsEach .Firewall (fun a => Wrapper.mk (some a))
          (Slice.toList (some [toIface (W := DemoW) .Firewall 10, toIface .Server 11])) list) :=
  paginatedListHelper_unexpected_value_iff
    (constDriver (some [toIface .Firewall 10, toIface .Server 11], none))
    (listClosure .Firewall (demoCall .Firewall)) () ()
    (some [toIface .Firewall 10, toIface .Server 11]) none rfl

/-! ### The invoice list and its preview -/

theorem convertAll_typeAssert_toIface {W : WireType → Type} (t : WireType) (l : List (W t)) :
    convertAll (typeAssert t) (l.map (toIface t)) = some l := by
  induction l with
  | nil => rfl
  | cons v vs ih => simp [convertAll, typeAssert_toIface, ih]

theorem invoices_listFn_fst {σ ε : Type} {W : WireType → Type}
    (call : ClientCall σ ε (InvoiceList W)) (opt : ListOptions) (s : σ)
    (v : W .InvoiceListItem) (hok : (call opt s).1.2.2 = none) :
    (invoicesService.List.listFn call opt (s, v)).1
      = { elems := some ((call opt s).1.1.Invoices.toList.map (toIface .InvoiceListItem)),
          resp := (call opt s).1.2.1, err := none } := by
  rcases hcs : call opt s with ⟨⟨il, resp, err⟩, s1⟩
  rw [hcs] at hok
  simp only at hok
  subst hok
  simp only [invoicesService.List.listFn, hcs, copyLoop_eq_map]

theorem invoices_listFn_snd {σ ε : Type} {W : WireType → Type}
    (call : ClientCall σ ε (InvoiceList W)) (opt : ListOptions) (s : σ)
    (v : W .InvoiceListItem) :
    (invoicesService.List.listFn call opt (s, v)).2
      = ((call opt s).2,
          match (call opt s).1.2.2 with
          | some _ => v
          | none => (call opt s).1.1.InvoicePreview) := by
  rcases hcs : call opt s with ⟨⟨il, resp, err⟩, s1⟩
  cases err <;> simp only [invoicesService.List.listFn, hcs]

theorem invoices_state_fst {σ ε : Type} {W : WireType → Type}
    (call : ClientCall σ ε (InvoiceList W)) (n p : Nat) (s : σ) (v : W .InvoiceListItem) :
    (stateFrom (invoicesService.List.listFn call) n p (s, v)).1 = stateFrom call n p s := by
  induction n generalizing p s v with
  | zero => rfl
  | succ n ih =>
    simp only [stateFrom]
    rw [invoices_listFn_snd]
    exact ih _ _ _

/-- On a page that the client serves without error, the closure of the
invoice list returns the page's invoices and leaves the page's preview in the
captured variable. -/
theorem invoices_page {σ ε : Type} {W : WireType → Type}
    (call : ClientCall σ ε (InvoiceList W)) (j p : Nat) (s : σ) (v : W .InvoiceListItem)
    (hok : (pageFrom call j p s).2.2 = none) :
    pageFrom (invoicesService.List.listFn call) j p (s, v)
        = { elems := some ((pageFrom call j p s).1.Invoices.toList.map
              (toIface .InvoiceListItem)),
            resp := (pageFrom call j p s).2.1, err := none } ∧
      stateFrom (invoicesService.List.listFn call) (j + 1) p (s, v)
        = (stateFrom call (j + 1) p s, (pageFrom call j p s).1.InvoicePreview) := by
  have hs := invoices_state_fst call j p s v
  rcases hst : stateFrom (invoicesService.List.listFn call) j p (s, v) with ⟨a, b⟩
  rw [hst] at hs
  simp only at hs
  subst hs
  simp only [pageFrom] at hok
  refine ⟨?_, ?_⟩
  · simp only [pageFrom, hst]
    exact invoices_listFn_fst call _ _ b hok
  · rw [stateFrom_succ_last, stateFrom_succ_last, hst, invoices_listFn_snd, hok]
    rfl

theorem invoices_pagesConcat {σ ε : Type} {W : WireType → Type}
    (call : ClientCall σ ε (InvoiceList W)) (s : σ) (v : W .InvoiceListItem) (n : Nat)
    (hok : ∀ i, i < n → (pageAt call s i).2.2 = none) :
    pagesConcat (invoicesService.List.listFn call) (s, v) n
      = (invoicesConcat call s n).map (toIface .InvoiceListItem) := by
  induction n with
  | zero => rfl
  | succ n ih =>
    simp only [pagesConcat, invoicesConcat, List.map_append]
    rw [ih (fun i hi => hok i (by omega))]
    simp only [pageAt]
    rw [(invoices_page call n 1 s v (hok n (by omega))).1]
    rfl

/-- C7. When the client serves pages `1..n` of the invoice list without
error, with a next link on pages `1..n-1` and none on page `n`,
`invoicesService.List` over the pagination driver (given fuel for `n`
fetches) returns, without error, an `InvoiceList` whose `Invoices` are the
invoices of pages `1..n` concatenated in fetch order and whose
`InvoicePreview` is the preview of page `n`, the last page fetched, whatever
previews the earlier pages carried. -/
theorem invoicesService_List_last_preview_wins {σ ε : Type} {W : WireType → Type}
    (zero : W .InvoiceListItem) (call : ClientCall σ ε (InvoiceList W)) (s : σ)
    (n fuel : Nat) (hn : 1 ≤ n) (hfuel : n ≤ fuel)
    (hok : ∀ i, i < n → (pageAt call s i).2.2 = none)
    (hnext : ∀ i, i + 1 < n → hasNextPage (pageAt call s i).2.1 = true)
    (hlast : hasNextPage (pageAt call s (n - 1)).2.1 = false) :
    invoicesService.List zero (fun gen => PaginateResp gen fuel) call s
      = some (.ret (some { Invoices := some (invoicesConcat call s n),
                           InvoicePreview := (pageAt call s (n - 1)).1.InvoicePreview }) none,
          stateAfter call s n) := by
  obtain ⟨m, rfl⟩ : ∃ m, n = m + 1 := ⟨n - 1, by omega⟩
  obtain ⟨f, rfl⟩ : ∃ f, fuel = m + (f + 1) := ⟨fuel - (m + 1), by omega⟩
  simp only [Nat.add_sub_cancel] at hlast ⊢
  have hc : ∀ j, j < m →
      continues (pageFrom (invoicesService.List.listFn call) j 1 (s, zero)) = true := by
    intro j hj
    rw [(invoices_page call j 1 s zero (hok j (by omega))).1]
    simpa [continues, pageAt] using hnext j (by omega)
  have hp := invoices_page call m 1 s zero (hok m (by omega))
  have hrun := paginate_complete (invoicesService.List.listFn call) (s, zero) m f hc
    (by rw [hp.1]) (by rw [hp.1]; exact hlast)
  rw [invoices_pagesConcat call s zero (m + 1) hok, stateAfter, hp.2] at hrun
  have hconv : convertLoop (typeAssert .InvoiceListItem) zero
      ((invoicesConcat call s (m + 1)).map (toIface .InvoiceListItem))
        = some (invoicesConcat call s (m + 1)) := by
    rw [convertLoop_eq_convertAll, convertAll_typeAssert_toIface]
  simp only [invoicesService.List, hrun, Slice.toList, hconv]
  rfl

/-- C7, on two pages whose previews disagree (7 on page 1, 8 on page 2): the
invoices are `[10, 11, 12]` and the preview is 8. -/
theorem invoicesService_List_last_preview_wins_witness :
    invoicesService.List (W := DemoW) 0 (fun gen => PaginateResp gen 5) demoInvoiceCall ()
      = some (.ret (some { Invoices := some [10, 11, 12], InvoicePreview := 8 }) none, ()) :=
  invoicesService_List_last_preview_wins (W := DemoW) 0 demoInvoiceCall () 2 5
    (by decide) (by decide) (by decide)
    (fun i hi => by have h : i < 1 := by omega
                    interval_cases i; rfl) (by decide)

/-! ### Resolving server arguments -/

/-- C11 fails on the arguments `1` and `01`: both are integers, `allInt`
tells repeated arguments apart by their text, and the callback receives the
ID list `[1, 1]`, in which server 1 occurs twice. -/
theorem matchServers_repeats_an_id :
    matchServers (ε := String) ["1", "01"] (listReturning []) recordingFn []
        = (none, [some [1, 1]]) ∧
      ¬ List.Nodup ([1, 1] : List Int) := by
  constructor
  · rfl
  · decide

theorem find?_filter_ne {κ ν : Type} [DecidableEq κ] (m : List (κ × ν)) (k k1 : κ)
    (h : ¬ k1 = k) :
    (m.filter fun p => p.1 ≠ k).find? (fun p => p.1 = k1) = m.find? (fun p => p.1 = k1) := by
  induction m with
  | nil => rfl
  | cons p ps ih =>
    by_cases hp : p.1 = k
    · have hp1 : ¬ p.1 = k1 := fun e => h (e.symm.trans hp)
      rw [List.filter_cons_of_neg (by simpa using hp),
        List.find?_cons_of_neg _ (by simpa using hp1)]
      exact ih
    · rw [List.filter_cons_of_pos (by simpa using hp)]
      by_cases hp1 : p.1 = k1
      · rw [List.find?_cons_of_pos _ (by simpa using hp1),
          List.find?_cons_of_pos _ (by simpa using hp1)]
      · rw [List.find?_cons_of_neg _ (by simpa using hp1),
          List.find?_cons_of_neg _ (by simpa using hp1)]
        exact ih

theorem GoMap.get?_set {κ ν : Type} [DecidableEq κ] (m : GoMap κ ν) (k k1 : κ) (v : ν) :
    (m.set k v).get? k1 = if k1 = k then some v else m.get? k1 := by
  unfold GoMap.set GoMap.get?
  by_cases h : k1 = k
  · subst h
    simp
  · have hk : ¬ k = k1 := fun e => h e.symm
    rw [List.find?_cons_of_neg _ (by simpa using hk), find?_filter_ne m k k1 h, if_neg h]

theorem GoMap.keys_set {κ ν : Type} [DecidableEq κ] (m : GoMap κ ν) (k : κ) (v : ν) :
    (m.set k v).map (fun p => p.1) = k :: (m.map fun p => p.1).filter fun x => x ≠ k := by
  unfold GoMap.set
  simp only [List.map_cons, List.filter_map]
  rfl

/-- The loop of `allInt` fails as soon as an argument is not an integer. -/
theorem allIntLoop_error {ε : Type} (rest seen : List String) (out : List Int)
    (hseen : ∀ x, x ∈ seen → strconv.Atoi x ≠ none)
    (h : ∃ a, a ∈ rest ∧ strconv.Atoi a = none) :
    ∃ e, allIntLoop (ε := ε) rest seen out = .error e := by
  induction rest generalizing seen out with
  | nil => simp at h
  | cons i rest ih =>
    obtain ⟨a, ha, hna⟩ := h
    unfold allIntLoop
    by_cases hi : i ∈ seen
    · simp only [hi, if_true]
      rcases List.mem_cons.1 ha with rfl | ha1
      · exact absurd hna (hseen _ hi)
      · exact ih seen out hseen ⟨a, ha1, hna⟩
    · simp only [hi, if_false]
      cases hai : strconv.Atoi i with
      | none => exact ⟨_, rfl⟩
      | some id =>
        rcases List.mem_cons.1 ha with rfl | ha1
        · rw [hai] at hna
          cases hna
        · refine ih (i :: seen) (out ++ [id]) ?_ ⟨a, ha1, hna⟩
          intro x hx
          rcases List.mem_cons.1 hx with rfl | hx1
          · rw [hai]
            simp
          · exact hseen x hx1

theorem allInt_error {ε : Type} (ids : List String)
    (h : ∃ a, a ∈ ids ∧ strconv.Atoi a = none) :
    ∃ e, allInt (ε := ε) ids = .error e :=
  allIntLoop_error ids [] [] (by simp) h

/-- The counts of `buildServerSummary`: after the loop, `count[a]` is the
count before it plus the number of listed servers named `a`. -/
theorem summary_count (list : List binarylane.Server) (sum : serverSummary) (a : String) :
    ((list.foldl serverSummary.add sum).count.get? a).getD 0
      = (sum.count.get? a).getD 0 + (nameCount list a : Int) := by
  induction list generalizing sum with
  | nil => simp [nameCount]
  | cons d ds ih =>
    rw [List.foldl_cons, ih]
    simp only [serverSummary.add, GoMap.get?_set, nameCount, List.filter_cons]
    by_cases h : d.Name = a
    · subst h
      simp
      omega
    · have h1 : ¬ a = d.Name := fun e => h e.symm
      simp [h, h1]

/-- The first loop of `matchServers` ends in an error when some argument is
the name of more than one server. -/
theorem matchServersLoop_ambiguous {ε : Type} (sum : serverSummary) (ids : List String)
    (m : GoMap Int Bool) (h : ∃ a, a ∈ ids ∧ 1 < (sum.count.get? a).getD 0) :
    ∃ e, matchServersLoop (ε := ε) sum ids m = .error e := by
  induction ids generalizing m with
  | nil => simp at h
  | cons i rest ih =>
    obtain ⟨a, ha, hc⟩ := h
    unfold matchServersLoop
    by_cases hi : (sum.count.get? i).getD 0 > 1
    · simp only [hi, if_true]
      exact ⟨_, rfl⟩
    · simp only [hi, if_false]
      have ha1 : a ∈ rest := by
        rcases List.mem_cons.1 ha with rfl | ha1
        · exact absurd hc hi
        · exact ha1
      cases strconv.Atoi i with
      | none =>
        cases sum.byID.get? i with
        | none => exact ⟨_, rfl⟩
        | some id => exact ih _ ⟨a, ha1, hc⟩
      | some id => exact ih _ ⟨a, ha1, hc⟩

/-- C12. When some argument is not an integer, `ds.List()` returns the
server list without error, and some argument is the name of more than one
listed server, `matchServers` returns an error and leaves the world as
`ds.List()` left it, whatever the callback is: the callback is not invoked. -/
theorem matchServers_ambiguous_name {σ ε : Type} (ids : List String)
    (ds_List : σ → (Slice binarylane.Server × Option (GoError ε)) × σ) (s s1 : σ)
    (list : Slice binarylane.Server)
    (hnonint : ∃ a, a ∈ ids ∧ strconv.Atoi a = none)
    (hlist : ds_List s = ((list, none), s1))
    (hamb : ∃ a, a ∈ ids ∧ 1 < nameCount list.toList a) :
    ∃ e, ∀ fn, matchServers ids ds_List fn s = (some e, s1) := by
  obtain ⟨e0, he0⟩ := allInt_error (ε := ε) ids hnonint
  obtain ⟨a, ha, hc⟩ := hamb
  have hcount : 1 < ((list.toList.foldl serverSummary.add
      { count := [], byID := [], byName := [] }).count.get? a).getD 0 := by
    rw [summary_count]
    simp [GoMap.get?]
    omega
  obtain ⟨e, he⟩ := matchServersLoop_ambiguous (ε := ε) _ ids [] ⟨a, ha, hcount⟩
  refine ⟨e, fun fn => ?_⟩
  simp only [matchServers, he0, buildServerSummary, hlist, he]

/-- C12, on the argument `web` with two servers named `web`: an error, and
the recording callback has recorded nothing. -/
theorem matchServers_ambiguous_name_witness :
    ∃ e, ∀ fn, matchServers (ε := String) ["web"]
        (listReturning [{ ID := 1, Name := "web" }, { ID := 2, Name := "web" }]) fn
        ([] : List (Slice Int)) = (some e, []) :=
  matchServers_ambiguous_name ["web"] _ [] []
    (some [{ ID := 1, Name := "web" }, { ID := 2, Name := "web" }])
    ⟨"web", by simp, rfl⟩ rfl ⟨"web", by simp, by decide⟩

theorem GoMap.mem_keys_set {κ ν : Type} [DecidableEq κ] (m : GoMap κ ν) (k n : κ) (v : ν) :
    n ∈ (m.set k v).map (fun p => p.1) ↔ n = k ∨ n ∈ m.map fun p => p.1 := by
  rw [GoMap.keys_set]
  by_cases h : n = k
  · simp [h]
  · simp [h]

theorem GoMap.nodup_keys_set {κ ν : Type} [DecidableEq κ] (m : GoMap κ ν) (k : κ) (v : ν)
    (h : (m.map fun p => p.1).Nodup) : ((m.set k v).map fun p => p.1).Nodup := by
  rw [GoMap.keys_set, List.nodup_cons]
  exact ⟨by simp [List.mem_filter], h.filter _⟩

/-- The `byID` entry that `buildServerSummary` leaves for a name is the ID of
the last listed server with that name. -/
theorem summary_byID (list : List binarylane.Server) (sum : serverSummary) (a : String) :
    (list.foldl serverSummary.add sum).byID.get? a
      = list.foldl (fun acc d => if d.Name = a then some d.ID else acc) (sum.byID.get? a) := by
  induction list generalizing sum with
  | nil => rfl
  | cons d ds ih =>
    rw [List.foldl_cons, List.foldl_cons, ih]
    congr 1
    simp only [serverSummary.add, GoMap.get?_set]
    by_cases h : d.Name = a
    · simp [h]
    · have h1 : ¬ a = d.Name := fun e => h e.symm
      simp [h, h1]

theorem lastID_cases (list : List binarylane.Server) (a : String) (init : Option Int) :
    (nameCount list a = 0 ∧
        list.foldl (fun acc d => if d.Name = a then some d.ID else acc) init = init) ∨
      ∃ d, d ∈ list ∧ d.Name = a ∧
        list.foldl (fun acc d => if d.Name = a then some d.ID else acc) init = some d.ID := by
  induction list generalizing init with
  | nil => exact Or.inl ⟨rfl, rfl⟩
  | cons d ds ih =>
    rw [List.foldl_cons]
    by_cases h : d.Name = a
    · rcases ih (if d.Name = a then some d.ID else init) with ⟨-, h2⟩ | ⟨d1, hd1, hn, h2⟩
      · exact Or.inr ⟨d, List.mem_cons_self _ _, h, by rw [h2, if_pos h]⟩
      · exact Or.inr ⟨d1, List.mem_cons_of_mem _ hd1, hn, h2⟩
    · rcases ih (if d.Name = a then some d.ID else init) with ⟨h1, h2⟩ | ⟨d1, hd1, hn, h2⟩
      · refine Or.inl ⟨?_, by rw [h2, if_neg h]⟩
        simpa [nameCount, List.filter_cons, h] using h1
      · exact Or.inr ⟨d1, List.mem_cons_of_mem _ hd1, hn, h2⟩

theorem nameCount_pos_of_mem (list : List binarylane.Server) (d : binarylane.Server)
    (hd : d ∈ list) : 0 < nameCount list d.Name := by
  unfold nameCount
  exact List.length_pos_of_mem (List.mem_filter.2 ⟨hd, by simp⟩)

/-- A name borne by exactly one listed server belongs to one server only. -/
theorem nameCount_one_unique (list : List binarylane.Server) (a : String)
    (h : nameCount list a = 1) (d1 d2 : binarylane.Server) (h1 : d1 ∈ list) (h2 : d2 ∈ list)
    (n1 : d1.Name = a) (n2 : d2.Name = a) : d1 = d2 := by
  unfold nameCount at h
  obtain ⟨x, hx⟩ := List.length_eq_one.1 h
  have m1 : d1 ∈ list.filter fun d => d.Name = a := List.mem_filter.2 ⟨h1, by simpa using n1⟩
  have m2 : d2 ∈ list.filter fun d => d.Name = a := List.mem_filter.2 ⟨h2, by simpa using n2⟩
  rw [hx] at m1 m2
  rw [List.mem_singleton.1 m1, List.mem_singleton.1 m2]

/-- The first loop of `matchServers` runs to its end when no argument is the
name of several servers and every argument that is not an integer has a
`byID` entry; the keys of `matchedMap` are then the keys it had, the integer
arguments and the `byID` entries of the other arguments. -/
theorem matchServersLoop_ok {ε : Type} (sum : serverSummary) (ids : List String)
    (m : GoMap Int Bool)
    (hcount : ∀ a, a ∈ ids → ¬ (sum.count.get? a).getD 0 > 1)
    (hfound : ∀ a, a ∈ ids → strconv.Atoi a = none → ∃ n, sum.byID.get? a = some n)
    (hm : (m.map fun p => p.1).Nodup) :
    ∃ m1, matchServersLoop (ε := ε) sum ids m = .ok m1 ∧ (m1.map fun p => p.1).Nodup ∧
      ∀ n, n ∈ m1.map (fun p => p.1) ↔
        n ∈ m.map (fun p => p.1) ∨ (∃ a, a ∈ ids ∧ strconv.Atoi a = some n) ∨
          ∃ a, a ∈ ids ∧ strconv.Atoi a = none ∧ sum.byID.get? a = some n := by
  induction ids generalizing m with
  | nil => exact ⟨m, rfl, hm, by simp⟩
  | cons i rest ih =>
    have hc := hcount i (List.mem_cons_self _ _)
    have hcr : ∀ a, a ∈ rest → ¬ (sum.count.get? a).getD 0 > 1 :=
      fun a ha => hcount a (List.mem_cons_of_mem _ ha)
    have hfr : ∀ a, a ∈ rest → strconv.Atoi a = none → ∃ n, sum.byID.get? a = some n :=
      fun a ha => hfound a (List.mem_cons_of_mem _ ha)
    unfold matchServersLoop
    simp only [hc, if_false]
    cases hi : strconv.Atoi i with
    | none =>
      obtain ⟨id, hid⟩ := hfound i (List.mem_cons_self _ _) hi
      simp only [hid]
      obtain ⟨m1, h1, h2, h3⟩ := ih (m.set id true) hcr hfr (GoMap.nodup_keys_set m id true hm)
      refine ⟨m1, h1, h2, fun n => ?_⟩
      rw [h3 n, GoMap.mem_keys_set]
      constructor
      · rintro ((rfl | h) | ⟨a, ha, hn⟩ | ⟨a, ha, hn, hb⟩)
        · exact Or.inr (Or.inr ⟨i, List.mem_cons_self _ _, hi, hid⟩)
        · exact Or.inl h
        · exact Or.inr (Or.inl ⟨a, List.mem_cons_of_mem _ ha, hn⟩)
        · exact Or.inr (Or.inr ⟨a, List.mem_cons_of_mem _ ha, hn, hb⟩)
      · rintro (h | ⟨a, ha, hn⟩ | ⟨a, ha, hn, hb⟩)
        · exact Or.inl (Or.inr h)
        · rcases List.mem_cons.1 ha with rfl | ha1
          · rw [hi] at hn
            cases hn
          · exact Or.inr (Or.inl ⟨a, ha1, hn⟩)
        · rcases List.mem_cons.1 ha with rfl | ha1
          · rw [hid] at hb
            exact Or.inl (Or.inl (Option.some.inj hb).symm)
          · exact Or.inr (Or.inr ⟨a, ha1, hn, hb⟩)
    | some id =>
      simp only
      obtain ⟨m1, h1, h2, h3⟩ := ih (m.set id true) hcr hfr (GoMap.nodup_keys_set m id true hm)
      refine ⟨m1, h1, h2, fun n => ?_⟩
      rw [h3 n, GoMap.mem_keys_set]
      constructor
      · rintro ((rfl | h) | ⟨a, ha, hn⟩ | ⟨a, ha, hn, hb⟩)
        · exact Or.inr (Or.inl ⟨i, List.mem_cons_self _ _, hi⟩)
        · exact Or.inl h
        · exact Or.inr (Or.inl ⟨a, List.mem_cons_of_mem _ ha, hn⟩)
        · exact Or.inr (Or.inr ⟨a, List.mem_cons_of_mem _ ha, hn, hb⟩)
      · rintro (h | ⟨a, ha, hn⟩ | ⟨a, ha, hn, hb⟩)
        · exact Or.inl (Or.inr h)
        · rcases List.mem_cons.1 ha with rfl | ha1
          · rw [hi] at hn
            exact Or.inl (Or.inl (Option.some.inj hn).symm)
          · exact Or.inr (Or.inl ⟨a, ha1, hn⟩)
        · rcases List.mem_cons.1 ha with rfl | ha1
          · rw [hi] at hn
            cases hn
          · exact Or.inr (Or.inr ⟨a, ha1, hn, hb⟩)

/-- For a name borne by exactly one listed server, the `byID` entry of the
summary is the ID of that server. -/
theorem summary_byID_unique (list : List binarylane.Server) (a : String)
    (h : nameCount list a = 1) (n : Int) :
    (list.foldl serverSummary.add { count := [], byID := [], byName := [] }).byID.get? a
        = some n ↔ ∃ d, d ∈ list ∧ d.Name = a ∧ d.ID = n := by
  rw [summary_byID]
  rcases lastID_cases list a (GoMap.get? ([] : GoMap String Int) a) with
    ⟨h0, -⟩ | ⟨d, hd, hn, hf⟩
  · rw [h0] at h
    cases h
  · rw [hf]
    constructor
    · intro e
      exact ⟨d, hd, hn, Option.some.inj e⟩
    · rintro ⟨d1, hd1, hn1, rfl⟩
      rw [nameCount_one_unique list a h d d1 hd hd1 hn hn1]

/-- C13 fails on the arguments `web` and `7` when one server is named `web`
and two servers are named `7`: one argument is not an integer, and it is the
name of exactly one server, yet `matchServers` returns an error and the
recording callback has recorded nothing. -/
theorem matchServers_integer_that_is_a_name :
    (∃ a, a ∈ ["web", "7"] ∧ strconv.Atoi a = none) ∧
      (∀ a, a ∈ ["web", "7"] → strconv.Atoi a = none →
        nameCount [{ ID := 1, Name := "web" }, { ID := 2, Name := "7" },
          { ID := 3, Name := "7" }] a = 1) ∧
      ∃ e, matchServers (ε := String) ["web", "7"]
          (listReturning [{ ID := 1, Name := "web" }, { ID := 2, Name := "7" },
            { ID := 3, Name := "7" }]) recordingFn []
        = (some e, []) := by
  refine ⟨⟨"web", by simp, rfl⟩, ?_, ⟨_, rfl⟩⟩
  intro a ha hn
  simp only [List.mem_cons, List.mem_singleton, List.not_mem_nil, or_false] at ha
  rcases ha with rfl | rfl
  · decide
  · exact absurd hn (by decide)

/-- C13, amended.  When some argument is not an integer, `ds.List()` returns
the server list without error, every argument that is not an integer is the
name of exactly one listed server, and no argument at all (integer or not)
is the name of more than one listed server, `matchServers` returns what one
invocation of the callback returns, made right after `ds.List()` with an ID
list in strictly ascending order whose members are exactly the integer
arguments and the IDs of the servers that the other arguments name. -/
theorem matchServers_resolves_names {σ ε : Type} (ids : List String)
    (ds_List : σ → (Slice binarylane.Server × Option (GoError ε)) × σ) (s s1 : σ)
    (list : Slice binarylane.Server)
    (hnonint : ∃ a, a ∈ ids ∧ strconv.Atoi a = none)
    (hlist : ds_List s = ((list, none), s1))
    (hnames : ∀ a, a ∈ ids → strconv.Atoi a = none → nameCount list.toList a = 1)
    (hamb : ∀ a, a ∈ ids → nameCount list.toList a ≤ 1) :
    ∃ out : List Int, (∀ fn, matchServers ids ds_List fn s = fn (some out) s1) ∧
      out.Sorted (fun a b => a < b) ∧
      ∀ n, n ∈ out ↔ (∃ a, a ∈ ids ∧ strconv.Atoi a = some n) ∨
        ∃ a, a ∈ ids ∧ strconv.Atoi a = none ∧ ∃ d, d ∈ list.toList ∧ d.Name = a ∧ d.ID = n := by
  obtain ⟨e0, he0⟩ := allInt_error (ε := ε) ids hnonint
  have hcount : ∀ a, a ∈ ids → ¬ ((list.toList.foldl serverSummary.add
      { count := [], byID := [], byName := [] }).count.get? a).getD 0 > 1 := by
    intro a ha
    rw [summary_count]
    have := hamb a ha
    simp [GoMap.get?]
    omega
  have hfound : ∀ a, a ∈ ids → strconv.Atoi a = none → ∃ n, (list.toList.foldl
      serverSummary.add { count := [], byID := [], byName := [] }).byID.get? a = some n := by
    intro a ha hn
    have h1 := hnames a ha hn
    rw [summary_byID]
    rcases lastID_cases list.toList a (GoMap.get? ([] : GoMap String Int) a) with
      ⟨h0, -⟩ | ⟨d, -, -, hf⟩
    · rw [h0] at h1
      cases h1
    · exact ⟨d.ID, hf⟩
  obtain ⟨m1, hm1, hnd, hmem⟩ := matchServersLoop_ok (ε := ε) _ ids [] hcount hfound
    List.nodup_nil
  have hkeys : ∀ n, n ∈ m1.map (fun p => p.1) ↔ (∃ a, a ∈ ids ∧ strconv.Atoi a = some n) ∨
      ∃ a, a ∈ ids ∧ strconv.Atoi a = none ∧
        ∃ d, d ∈ list.toList ∧ d.Name = a ∧ d.ID = n := by
    intro n
    rw [hmem n]
    constructor
    · rintro (h | h | ⟨a, ha, hn, hb⟩)
      · simp at h
      · exact Or.inl h
      · exact Or.inr ⟨a, ha, hn, (summary_byID_unique _ a (hnames a ha hn) n).1 hb⟩
    · rintro (h | ⟨a, ha, hn, hd⟩)
      · exact Or.inr (Or.inl h)
      · exact Or.inr (Or.inr ⟨a, ha, hn, (summary_byID_unique _ a (hnames a ha hn) n).2 hd⟩)
  have hne : m1.map (fun p => p.1) ≠ [] := by
    obtain ⟨a, ha, hn⟩ := hnonint
    obtain ⟨n, hb⟩ := hfound a ha hn
    have : n ∈ m1.map (fun p => p.1) := (hmem n).2 (Or.inr (Or.inr ⟨a, ha, hn, hb⟩))
    exact List.ne_nil_of_mem this
  have happ : goAppend none (m1.map fun p => p.1) = some (m1.map fun p => p.1) := by
    cases hk : m1.map (fun p => p.1) with
    | nil => exact absurd hk hne
    | cons x xs => simp [goAppend, Slice.toList]
  have hperm := List.perm_insertionSort (fun a b : Int => a ≤ b) (m1.map fun p => p.1)
  refine ⟨(m1.map fun p => p.1).insertionSort (fun a b => a ≤ b), fun fn => ?_, ?_, ?_⟩
  · simp only [matchServers, he0, buildServerSummary, hlist, hm1, happ, sort.Ints,
      Option.map_some']
  · exact (List.sorted_insertionSort (fun a b : Int => a ≤ b) _).lt_of_le
      (hperm.nodup_iff.2 hnd)
  · intro n
    rw [hperm.mem_iff, hkeys n]

/-- C13 amended, on the arguments `web`, `3` and `1` with the servers `web`
(ID 1) and `db` (ID 3): the callback is invoked once, with `[1, 3]`. -/
theorem matchServers_resolves_names_witness :
    ∃ out : List Int,
      (∀ fn, matchServers (ε := String) ["web", "3", "1"]
          (listReturning [{ ID := 1, Name := "web" }, { ID := 3, Name := "db" }]) fn
          ([] : List (Slice Int)) = fn (some out) []) ∧
      out.Sorted (fun a b => a < b) ∧
      ∀ n, n ∈ out ↔ (∃ a, a ∈ ["web", "3", "1"] ∧ strconv.Atoi a = some n) ∨
        ∃ a, a ∈ ["web", "3", "1"] ∧ strconv.Atoi a = none ∧
          ∃ d, d ∈ Slice.toList (some [({ ID := 1, Name := "web" } : binarylane.Server),
            { ID := 3, Name := "db" }]) ∧ d.Name = a ∧ d.ID = n :=
  matchServers_resolves_names ["web", "3", "1"] _ [] []
    (some [{ ID := 1, Name := "web" }, { ID := 3, Name := "db" }])
    ⟨"web", by simp, rfl⟩ rfl
    (fun a ha hn => by
      simp only [List.mem_cons, List.mem_singleton, List.not_mem_nil, or_false] at ha
      rcases ha with rfl | rfl | rfl
      · decide
      · exact absurd hn (by decide)
      · exact absurd hn (by decide))
    (fun a ha => by
      simp only [List.mem_cons, List.mem_singleton, List.not_mem_nil, or_false] at ha
      rcases ha with rfl | rfl | rfl <;> decide)

/-! ### Untagging servers -/

/-- C20 fails for one server and two tags: `RunServerUntag` on the argument
`1` with the tag names `a` and `b` issues two requests, and the second one,
for tag `b`, lists server 1 twice, because the resource is appended to the
same request once per tag.  With a single tag it issues the one request that
lists server 1 once. -/
theorem RunServerUntag_lists_server_twice :
    RunServerUntag (ε := String) ["1"] (.new "missing arguments") (some ["a", "b"], none)
        (listReturning []) recordingUntag []
      = (none,
          [("a", [{ ID := "1", ResType := .ServerResourceType }]),
           ("b", [{ ID := "1", ResType := .ServerResourceType },
                  { ID := "1", ResType := .ServerResourceType }])]) ∧
    RunServerUntag (ε := String) ["1"] (.new "missing arguments") (some ["my-tag"], none)
        (listReturning []) recordingUntag []
      = (none, [("my-tag", [{ ID := "1", ResType := .ServerResourceType }])]) := by
  constructor <;> rfl

/-! ### Listing snapshots -/

theorem skipByRegion_eq (region : String) (regions : List String) (skip : Bool) :
    RunSnapshotList.skipByRegion region regions skip
      = match regions with
        | [] => skip
        | _ => !decide (region ∈ regions) := by
  induction regions generalizing skip with
  | nil => rfl
  | cons r rs ih =>
    unfold RunSnapshotList.skipByRegion
    by_cases h : region = r
    · simp [h]
    · simp only [ne_eq, h, not_false_eq_true, if_true, ih]
      cases rs with
      | nil => simp [h]
      | cons r1 rs1 => simp [h]

/-- With a region filter, `RunSnapshotList` keeps a snapshot that passes the
globs exactly when the snapshot has no regions at all or the filter is one
of its regions. -/
theorem snapshot_kept_iff (globs : List (String → Bool)) (region : String)
    (snapshot : binarylane.Snapshot) (hr : region ≠ "")
    (hg : RunSnapshotList.skipByGlob globs snapshot = false) :
    RunSnapshotList.skip globs region snapshot = false
      ↔ snapshot.Regions.toList = [] ∨ region ∈ snapshot.Regions.toList := by
  unfold RunSnapshotList.skip
  have hr1 : (region != "") = true := by simpa using hr
  simp only [hg, hr1, Bool.not_false, Bool.and_self, if_true, skipByRegion_eq]
  cases snapshot.Regions.toList with
  | nil => simp
  | cons r rs =>
    simp only [Bool.not_eq_false', decide_eq_true_eq, List.mem_cons, List.cons_ne_nil, false_or]

/-- C19 fails on a snapshot without regions: `snapshot list --region syd`
with no glob displays the snapshot `snap`, whose `Regions` is empty and so
does not contain `syd`. -/
theorem RunSnapshotList_shows_regionless_snapshot :
    RunSnapshotList (ε := String) [] ("", none) ("syd", none) (fun _ => none)
        (none, none) (none, none)
        (some [{ ID := "1", Name := "snap", Regions := some [] }], none)
      = .ok (some [{ ID := "1", Name := "snap", Regions := some [] }]) ∧
    "syd" ∉ Slice.toList (some ([] : List String)) := by
  constructor
  · rfl
  · simp [Slice.toList]

/-! ### The request of a load balancer -/

theorem goAppend_nil_toList {α : Type} (xs : List α) :
    (goAppend none xs).toList = xs := by
  cases xs <;> rfl

/-- C18 fails for `Tags`: the request of a load balancer with the tags
`blue` and `green` carries no tags. -/
theorem AsRequest_drops_tags :
    demoLoadBalancer.Tags = some ["blue", "green"] ∧
      demoLoadBalancer.AsRequest.Tags = none := by
  constructor <;> rfl

/-- C18, amended.  For every load balancer `l`, `l.AsRequest()` has `l`'s
`Name`, `Algorithm`, `SizeSlug`, `Tag`, `RedirectHttpToHttps`,
`EnableProxyProtocol`, `EnableBackendKeepalive` and `VPCID`; its
`ForwardingRules` and `ServerIDs` hold `l`'s elements in order (and are nil
when `l` has none); its `HealthCheck` and `StickySessions` are present
exactly when `l`'s are and then equal them; its `Region` is `l.Region.Slug`
when `l` has a region and empty otherwise; and its `Tags` is nil whatever
`l.Tags` is. -/
theorem AsRequest_carries_values (l : binarylane.LoadBalancer) :
    l.AsRequest.Name = l.Name ∧ l.AsRequest.Algorithm = l.Algorithm ∧
      l.AsRequest.SizeSlug = l.SizeSlug ∧ l.AsRequest.Tag = l.Tag ∧
      l.AsRequest.RedirectHttpToHttps = l.RedirectHttpToHttps ∧
      l.AsRequest.EnableProxyProtocol = l.EnableProxyProtocol ∧
      l.AsRequest.EnableBackendKeepalive = l.EnableBackendKeepalive ∧
      l.AsRequest.VPCID = l.VPCID ∧
      l.AsRequest.ForwardingRules.toList = l.ForwardingRules.toList ∧
      (l.ForwardingRules.toList = [] → l.AsRequest.ForwardingRules = none) ∧
      l.AsRequest.ServerIDs.toList = l.ServerIDs.toList ∧
      (l.ServerIDs.toList = [] → l.AsRequest.ServerIDs = none) ∧
      l.AsRequest.HealthCheck = l.HealthCheck ∧
      l.AsRequest.StickySessions = l.StickySessions ∧
      l.AsRequest.Region = (match l.Region with
        | some region => region.Slug
        | none => "") ∧
      l.AsRequest.Tags = none := by
  unfold binarylane.LoadBalancer.AsRequest
  cases hh : l.HealthCheck <;> cases hs : l.StickySessions <;> cases hr : l.Region <;>
    simp only [goAppend_nil_toList, true_and, and_true, and_self] <;>
    exact ⟨fun h => by rw [h]; rfl, fun h => by rw [h]; rfl⟩

/-! ### Forwarding rules -/

/-- C14 fails: the example of the help text of `--forwarding-rules` is
rejected.  It is cut at its blanks into four pieces, the first of which,
`entry_protocol:tcp,`, ends in a comma and so has an empty second token, which
is not a `key:value` pair.  Without the blanks the example is accepted and
yields the one forwarding rule. -/
theorem extractForwardingRules_rejects_documented_example :
    extractForwardingRules (ε := String)
        "entry_protocol:tcp, entry_port:3306, target_protocol:tcp, target_port:3306"
      = (none, some (Errorf "Unexpected input value %v: must be a key:value pair" [""])) ∧
    extractForwardingRules (ε := String)
        "entry_protocol:tcp,entry_port:3306,target_protocol:tcp,target_port:3306"
      = (some [{ EntryProtocol := "tcp", EntryPort := 3306, TargetProtocol := "tcp",
                 TargetPort := 3306, CertificateID := "", TlsPassthrough := false }], none) := by
  constructor <;> rfl

/-! ### Filling a struct -/

theorem string_length_eq_zero (s : String) : s.length = 0 ↔ s = "" := by
  constructor
  · intro h
    have hd : s.data = [] := List.length_eq_zero.1 h
    exact String.ext hd
  · rintro rfl
    rfl

theorem split_two (tok : String) (h : (strings.Split tok ':').length = 2) :
    strings.Split tok ':' = [tokenKey tok, tokenValue tok] := by
  unfold tokenKey tokenValue
  match hs : strings.Split tok ':' with
  | [a, b] => rfl
  | [] => simp [hs] at h
  | [a] => simp [hs] at h
  | a :: b :: c :: rest => simp [hs] at h

/-- The first loop of `fillStructFromStringSliceArgs` ends in an error
exactly when some token does not consist of two colon-separated parts. -/
theorem fillMap_error_iff {ε : Type} (toks : List String) (m : GoMap String String) :
    (∃ e, fillMap (ε := ε) toks m = .error e)
      ↔ ∃ tok, tok ∈ toks ∧ (strings.Split tok ':').length ≠ 2 := by
  induction toks generalizing m with
  | nil => simp [fillMap]
  | cons v rest ih =>
    by_cases h : (strings.Split v ':').length = 2
    · have h2 := split_two v h
      unfold fillMap
      rw [h2]
      simp only [ih, List.mem_cons]
      constructor
      · rintro ⟨tok, ht, hl⟩
        exact ⟨tok, Or.inr ht, hl⟩
      · rintro ⟨tok, rfl | ht, hl⟩
        · exact absurd h hl
        · exact ⟨tok, ht, hl⟩
    · constructor
      · intro _
        exact ⟨v, List.mem_cons_self _ _, h⟩
      · intro _
        unfold fillMap
        match hs : strings.Split v ':' with
        | [a, b] => simp [hs] at h
        | [] => exact ⟨_, rfl⟩
        | [a] => exact ⟨_, rfl⟩
        | a :: b :: c :: rest1 => exact ⟨_, rfl⟩

theorem lastValue_cons (tok : String) (rest : List String) (key : String) :
    lastValue (tok :: rest) key
      = match lastValue rest key with
        | some v => some v
        | none => if tokenKey tok = key then some (tokenValue tok) else none := rfl

/-- When every token consists of two colon-separated parts, the first loop of
`fillStructFromStringSliceArgs` yields a map that binds each key to the value
of the last token with that key. -/
theorem fillMap_ok {ε : Type} (toks : List String) (m : GoMap String String)
    (h : ∀ tok, tok ∈ toks → (strings.Split tok ':').length = 2) :
    ∃ m1, fillMap (ε := ε) toks m = .ok m1 ∧
      ∀ key, m1.get? key = match lastValue toks key with
        | some v => some v
        | none => m.get? key := by
  induction toks generalizing m with
  | nil => exact ⟨m, rfl, fun key => rfl⟩
  | cons v rest ih =>
    have h2 := split_two v (h v (List.mem_cons_self _ _))
    obtain ⟨m1, hm1, hget⟩ := ih (m.set (tokenKey v) (tokenValue v))
      (fun tok ht => h tok (List.mem_cons_of_mem _ ht))
    refine ⟨m1, ?_, fun key => ?_⟩
    · unfold fillMap
      rw [h2]
      exact hm1
    · rw [hget key, lastValue_cons]
      cases lastValue rest key with
      | some v1 => rfl
      | none =>
        simp only [GoMap.get?_set]
        by_cases hk : key = tokenKey v
        · simp [hk]
        · have hk1 : ¬ tokenKey v = key := fun e => hk e.symm
          simp [hk, hk1]

/-- On a struct whose fields are all of kind `bool`, `int` or `string`, the
second loop of `fillStructFromStringSliceArgs` returns no error and treats
each field on its own. -/
theorem fillFields_supported {ε : Type} (m : GoMap String String) (obj : StructValue)
    (hk : supportedKinds obj) :
    fillFields (ε := ε) m obj
      = (obj.map fun f =>
          match m.get? (jsonName f.tag) with
          | none => f
          | some val => { f with value := (setField val f.value).getD f.value },
        none) := by
  induction obj with
  | nil => rfl
  | cons f rest ih =>
    have hr : supportedKinds rest := fun g hg => hk g (List.mem_cons_of_mem _ hg)
    have hf := hk f (List.mem_cons_self _ _)
    obtain ⟨tag, value⟩ := f
    unfold fillFields
    rw [ih hr]
    cases hg : m.get? (jsonName tag) with
    | none => simp [hg]
    | some val =>
      cases value with
      | other => exact absurd rfl hf
      | bool b => cases hp : strconv.ParseBool val <;> simp [setField, hg, hp]
      | int n => cases hp : strconv.Atoi val <;> simp [setField, hg, hp]
      | string x => simp [setField, hg]

/-- On a struct whose fields are all of kind `bool`, `int` or `string`,
`fillStructFromStringSliceArgs` returns an error exactly when its input is
not empty and some comma-separated token does not consist of two
colon-separated parts. -/
theorem fill_error_iff {ε : Type} (obj : StructValue) (s : String)
    (hk : supportedKinds obj) :
    (fillStructFromStringSliceArgs (ε := ε) obj s).2 ≠ none
      ↔ s ≠ "" ∧ ∃ tok, tok ∈ strings.Split s ',' ∧ (strings.Split tok ':').length ≠ 2 := by
  unfold fillStructFromStringSliceArgs
  by_cases hs : s.length = 0
  · have hs1 := (string_length_eq_zero s).1 hs
    simp [hs, hs1]
  · have hs1 : s ≠ "" := fun e => hs ((string_length_eq_zero s).2 e)
    simp only [hs, if_false, hs1, ne_eq, not_false_eq_true, true_and]
    rw [← fillMap_error_iff (ε := ε) (strings.Split s ',') []]
    cases hm : fillMap (ε := ε) (strings.Split s ',') [] with
    | error e => simp
    | ok m => simp [fillFields_supported m obj hk]

theorem fill_empty {ε : Type} (obj : StructValue) :
    fillStructFromStringSliceArgs (ε := ε) obj "" = (obj, none) := rfl

/-- C16. For the `ForwardingRule`, `HealthCheck` and `StickySessions`
structs, `fillStructFromStringSliceArgs` returns an error if and only if its
input is not empty and some comma-separated token does not consist of
exactly two colon-separated parts; on the empty string it returns no error
and leaves the struct as it was. -/
theorem fill_error_iff_malformed_token {ε : Type} (s : String) :
    (∀ r : binarylane.ForwardingRule,
      ((fillStructFromStringSliceArgs (ε := ε) r.reflect s).2 ≠ none
        ↔ s ≠ "" ∧ ∃ tok, tok ∈ strings.Split s ',' ∧ (strings.Split tok ':').length ≠ 2) ∧
      fillStructFromStringSliceArgs (ε := ε) r.reflect "" = (r.reflect, none)) ∧
    (∀ h : binarylane.HealthCheck,
      ((fillStructFromStringSliceArgs (ε := ε) h.reflect s).2 ≠ none
        ↔ s ≠ "" ∧ ∃ tok, tok ∈ strings.Split s ',' ∧ (strings.Split tok ':').length ≠ 2) ∧
      fillStructFromStringSliceArgs (ε := ε) h.reflect "" = (h.reflect, none)) ∧
    (∀ st : binarylane.StickySessions,
      ((fillStructFromStringSliceArgs (ε := ε) st.reflect s).2 ≠ none
        ↔ s ≠ "" ∧ ∃ tok, tok ∈ strings.Split s ',' ∧ (strings.Split tok ':').length ≠ 2) ∧
      fillStructFromStringSliceArgs (ε := ε) st.reflect "" = (st.reflect, none)) := by
  refine ⟨fun r => ⟨fill_error_iff _ s ?_, fill_empty _⟩,
    fun h => ⟨fill_error_iff _ s ?_, fill_empty _⟩,
    fun st => ⟨fill_error_iff _ s ?_, fill_empty _⟩⟩
  · intro f hf
    simp only [binarylane.ForwardingRule.reflect, List.mem_cons, List.mem_singleton,
      List.not_mem_nil, or_false] at hf
    rcases hf with rfl | rfl | rfl | rfl | rfl | rfl <;> simp
  · intro f hf
    simp only [binarylane.HealthCheck.reflect, List.mem_cons, List.mem_singleton,
      List.not_mem_nil, or_false] at hf
    rcases hf with rfl | rfl | rfl | rfl | rfl | rfl | rfl <;> simp
  · intro f hf
    simp only [binarylane.StickySessions.reflect, List.mem_cons, List.mem_singleton,
      List.not_mem_nil, or_false] at hf
    rcases hf with rfl | rfl | rfl <;> simp

/-- C17. On a non-empty string whose comma-separated tokens all consist of
two colon-separated parts, and a struct whose fields are all of kind `bool`,
`int` or `string`, `fillStructFromStringSliceArgs` returns no error and
leaves a struct with the same fields, in which a field whose JSON name is no
key keeps its value, and a field whose JSON name is a key, the last token
with that key having the value `val`, holds `val` if it is a string field,
the integer that `val` denotes if it is an int field, and the boolean that
`val` denotes if it is a bool field; an int or bool field keeps its value
when `val` denotes no integer or boolean. -/
theorem fill_sets_the_named_fields {ε : Type} (obj : StructValue) (s : String)
    (hs : s ≠ "") (hk : supportedKinds obj)
    (hwf : ∀ tok, tok ∈ strings.Split s ',' → (strings.Split tok ':').length = 2) :
    (fillStructFromStringSliceArgs (ε := ε) obj s).2 = none ∧
      (fillStructFromStringSliceArgs (ε := ε) obj s).1.length = obj.length ∧
      ∀ (i : Nat) (f : StructField), obj[i]? = some f →
        ∃ g, (fillStructFromStringSliceArgs (ε := ε) obj s).1[i]? = some g ∧
          g.tag = f.tag ∧
          (lastValue (strings.Split s ',') (jsonName f.tag) = none → g.value = f.value) ∧
          ∀ val, lastValue (strings.Split s ',') (jsonName f.tag) = some val →
            (∀ old, f.value = .string old → g.value = .string val) ∧
            (∀ old n, f.value = .int old → strconv.Atoi val = some n → g.value = .int n) ∧
            (∀ old, f.value = .int old → strconv.Atoi val = none → g.value = f.value) ∧
            (∀ old b, f.value = .bool old → strconv.ParseBool val = some b →
              g.value = .bool b) ∧
            (∀ old, f.value = .bool old → strconv.ParseBool val = none →
              g.value = f.value) := by
  have hs0 : ¬ s.length = 0 := fun e => hs ((string_length_eq_zero s).1 e)
  obtain ⟨m, hm, hget⟩ := fillMap_ok (ε := ε) (strings.Split s ',') [] hwf
  have hfill : fillStructFromStringSliceArgs (ε := ε) obj s
      = (obj.map fun f =>
          match m.get? (jsonName f.tag) with
          | none => f
          | some val => { f with value := (setField val f.value).getD f.value },
        none) := by
    unfold fillStructFromStringSliceArgs
    simp only [hs0, if_false, hm]
    exact fillFields_supported m obj hk
  rw [hfill]
  refine ⟨rfl, by simp, fun i f hf => ?_⟩
  have hlook : m.get? (jsonName f.tag) = lastValue (strings.Split s ',') (jsonName f.tag) := by
    rw [hget]
    cases lastValue (strings.Split s ',') (jsonName f.tag) <;> rfl
  simp only [List.getElem?_map, hf, Option.map_some', hlook]
  cases hl : lastValue (strings.Split s ',') (jsonName f.tag) with
  | none => exact ⟨f, rfl, rfl, fun _ => rfl, fun val hv => by cases hv⟩
  | some val =>
    refine ⟨_, rfl, rfl, ?_, ?_⟩
    · intro hn
      cases hn
    intro val1 hv
    cases hv
    refine ⟨?_, ?_, ?_, ?_, ?_⟩
    · intro old ho
      simp [ho, setField]
    · intro old n ho hn
      simp [ho, setField, hn]
    · intro old ho hn
      simp [ho, setField, hn]
    · intro old b ho hb
      simp [ho, setField, hb]
    · intro old ho hb
      simp [ho, setField, hb]

/-- C17, on a forwarding rule with the certificate `c1` and the string
`entry_protocol:tcp,entry_port:3306,tls_passthrough:true`: the three named
fields are set and the other three keep their values. -/
theorem fill_sets_the_named_fields_witness :
    binarylane.ForwardingRule.ofReflect
        (fillStructFromStringSliceArgs (ε := String)
          (binarylane.ForwardingRule.reflect
            { EntryProtocol := "", EntryPort := 0, TargetProtocol := "http", TargetPort := 80,
              CertificateID := "c1", TlsPassthrough := false })
          "entry_protocol:tcp,entry_port:3306,tls_passthrough:true").1
        binarylane.ForwardingRule.zero
      = { EntryProtocol := "tcp", EntryPort := 3306, TargetProtocol := "http",
          TargetPort := 80, CertificateID := "c1", TlsPassthrough := true } ∧
    (fillStructFromStringSliceArgs (ε := String)
        (binarylane.ForwardingRule.reflect
          { EntryProtocol := "", EntryPort := 0, TargetProtocol := "http", TargetPort := 80,
            CertificateID := "c1", TlsPassthrough := false })
        "entry_protocol:tcp,entry_port:3306,tls_passthrough:true").2 = none :=
  ⟨rfl,
    (fill_sets_the_named_fields (ε := String)
      (binarylane.ForwardingRule.reflect
        { EntryProtocol := "", EntryPort := 0, TargetProtocol := "http", TargetPort := 80,
          CertificateID := "c1", TlsPassthrough := false })
      "entry_protocol:tcp,entry_port:3306,tls_passthrough:true" (by decide)
      (by unfold supportedKinds; decide) (by decide)).1⟩

/-! ### Firewall rules -/

/-- C15 fails on the rule string `sources:x` for inbound rules: `sources` is
none of the four collected keys, yet the map does not bind it to `x`; the
nested map of targets, assigned last, has taken its place. -/
theorem extractRule_overwrites_the_targets_key :
    "sources" ∉ targetKeys ∧
      ∃ rule, extractRule (ε := String) "sources:x" "sources" = .ok rule ∧
        rule.get? "sources" ≠ some (.str "x") ∧
        rule.get? "sources"
          = some (.targets { addresses := none, server_ids := none,
                             load_balancer_uids := none, tags := none }) := by
  refine ⟨by decide, _, rfl, by decide, rfl⟩

theorem splitFirstChars_of_mem (l : List Char) (h : ':' ∈ l) :
    splitFirstChars ':' l
      = [l.takeWhile fun c => c ≠ ':', (l.dropWhile fun c => c ≠ ':').tail] := by
  induction l with
  | nil => simp at h
  | cons c cs ih =>
    unfold splitFirstChars
    by_cases hc : c = ':'
    · simp [hc]
    · have hcs : ':' ∈ cs := by
        rcases List.mem_cons.1 h with e | e
        · exact absurd e.symm hc
        · exact e
      simp only [hc, if_false, ih hcs]
      simp [List.takeWhile_cons, List.dropWhile_cons, hc]

theorem splitN2_of_colon (tok : String) (h : ':' ∈ tok.data) :
    strings.SplitN2 tok ':' = [pairKey tok, pairValue tok] := by
  unfold strings.SplitN2 pairKey pairValue
  rw [splitFirstChars_of_mem tok.data h]
  rfl

theorem goAppend_goAppend {α : Type} (s : Slice α) (xs ys : List α) :
    goAppend (goAppend s xs) ys = goAppend s (xs ++ ys) := by
  cases xs with
  | nil => rfl
  | cons x xs1 =>
    cases ys with
    | nil => simp [goAppend]
    | cons y ys1 => simp [goAppend, Slice.toList]

theorem goAppend_nil {α : Type} (s : Slice α) : goAppend s [] = s := rfl

theorem valuesOf_cons (tok : String) (rest : List String) (key : String) :
    valuesOf (tok :: rest) key
      = if pairKey tok = key then pairValue tok :: valuesOf rest key
        else valuesOf rest key := by
  unfold valuesOf
  by_cases h : pairKey tok = key <;> simp [List.filter_cons, h]

theorem lastPairValue_cons (tok : String) (rest : List String) (key : String) :
    lastPairValue (tok :: rest) key
      = match lastPairValue rest key with
        | some v => some v
        | none => if pairKey tok = key then some (pairValue tok) else none := rfl

/-- The loop of `extractRule` runs to its end when every token has a colon
and every `server_id` value is an integer; it appends to the four lists the
values of the tokens with the four collected keys, in order, and binds every
other key to the value of its last token. -/
theorem extractRule_loop_ok {ε : Type} (toks : List String) (vars : extractRule.Vars)
    (hwf : ∀ tok, tok ∈ toks → ':' ∈ tok.data)
    (hint : ∀ tok, tok ∈ toks → pairKey tok = "server_id" →
      strconv.Atoi (pairValue tok) ≠ none) :
    ∃ vars1, extractRule.loop (ε := ε) toks vars = .ok vars1 ∧
      vars1.addresses = goAppend vars.addresses (valuesOf toks "address") ∧
      vars1.serverIDs
        = goAppend vars.serverIDs ((valuesOf toks "server_id").filterMap strconv.Atoi) ∧
      vars1.lbUIDs = goAppend vars.lbUIDs (valuesOf toks "load_balancer_uid") ∧
      vars1.tags = goAppend vars.tags (valuesOf toks "tag") ∧
      ∀ key, key ∉ targetKeys →
        vars1.rule.get? key = match lastPairValue toks key with
          | some v => some (.str v)
          | none => vars.rule.get? key := by
  induction toks generalizing vars with
  | nil => exact ⟨vars, rfl, rfl, rfl, rfl, rfl, fun key _ => rfl⟩
  | cons v rest ih =>
    have hsplit := splitN2_of_colon v (hwf v (List.mem_cons_self _ _))
    have hwr : ∀ tok, tok ∈ rest → ':' ∈ tok.data :=
      fun tok ht => hwf tok (List.mem_cons_of_mem _ ht)
    have hir : ∀ tok, tok ∈ rest → pairKey tok = "server_id" →
        strconv.Atoi (pairValue tok) ≠ none :=
      fun tok ht => hint tok (List.mem_cons_of_mem _ ht)
    unfold extractRule.loop
    rw [hsplit]
    simp only [valuesOf_cons, lastPairValue_cons]
    by_cases h1 : pairKey v = "address"
    · obtain ⟨vars1, hl, ha, hs, hb, ht, hr⟩ :=
        ih { vars with addresses := goAppend vars.addresses [pairValue v] } hwr hir
      refine ⟨vars1, by rw [if_pos h1]; exact hl, ?_, ?_, ?_, ?_, fun key hk => ?_⟩
      · rw [ha, goAppend_goAppend]
        simp [h1]
      · rw [hs]
        simp [h1]
      · rw [hb]
        simp [h1]
      · rw [ht]
        simp [h1]
      · rw [hr key hk]
        have hne : ¬ pairKey v = key := by
          intro e
          rw [← e, h1] at hk
          exact hk (by decide)
        simp only [hne, if_false]
        cases lastPairValue rest key <;> rfl
    · by_cases h2 : pairKey v = "server_id"
      · obtain ⟨i, hi⟩ := Option.ne_none_iff_exists'.1 (hint v (List.mem_cons_self _ _) h2)
        obtain ⟨vars1, hl, ha, hs, hb, ht, hr⟩ :=
          ih { vars with serverIDs := goAppend vars.serverIDs [i] } hwr hir
        refine ⟨vars1, by rw [if_neg h1, if_pos h2]; simp only [hi]; exact hl, ?_, ?_, ?_, ?_,
          fun key hk => ?_⟩
        · rw [ha]
          simp [h2]
        · rw [hs, goAppend_goAppend]
          simp [h2, hi]
        · rw [hb]
          simp [h2]
        · rw [ht]
          simp [h2]
        · rw [hr key hk]
          have hne : ¬ pairKey v = key := by
            intro e
            rw [← e, h2] at hk
            exact hk (by decide)
          simp only [hne, if_false]
          cases lastPairValue rest key <;> rfl
      · by_cases h3 : pairKey v = "load_balancer_uid"
        · obtain ⟨vars1, hl, ha, hs, hb, ht, hr⟩ :=
            ih { vars with lbUIDs := goAppend vars.lbUIDs [pairValue v] } hwr hir
          refine ⟨vars1, by rw [if_neg h1, if_neg h2, if_pos h3]; exact hl, ?_, ?_, ?_, ?_,
            fun key hk => ?_⟩
          · rw [ha]
            simp [h3]
          · rw [hs]
            simp [h3]
          · rw [hb, goAppend_goAppend]
            simp [h3]
          · rw [ht]
            simp [h3]
          · rw [hr key hk]
            have hne : ¬ pairKey v = key := by
              intro e
              rw [← e, h3] at hk
              exact hk (by decide)
            simp only [hne, if_false]
            cases lastPairValue rest key <;> rfl
        · by_cases h4 : pairKey v = "tag"
          · obtain ⟨vars1, hl, ha, hs, hb, ht, hr⟩ :=
              ih { vars with tags := goAppend vars.tags [pairValue v] } hwr hir
            refine ⟨vars1, by rw [if_neg h1, if_neg h2, if_neg h3, if_pos h4]; exact hl, ?_, ?_, ?_,
              ?_, fun key hk => ?_⟩
            · rw [ha]
              simp [h4]
            · rw [hs]
              simp [h4]
            · rw [hb]
              simp [h4]
            · rw [ht, goAppend_goAppend]
              simp [h4]
            · rw [hr key hk]
              have hne : ¬ pairKey v = key := by
                intro e
                rw [← e, h4] at hk
                exact hk (by decide)
              simp only [hne, if_false]
              cases lastPairValue rest key <;> rfl
          · obtain ⟨vars1, hl, ha, hs, hb, ht, hr⟩ :=
              ih { vars with rule := vars.rule.set (pairKey v) (.str (pairValue v)) } hwr hir
            refine ⟨vars1, by rw [if_neg h1, if_neg h2, if_neg h3, if_neg h4]; exact hl, ?_, ?_, ?_, ?_,
              fun key hk => ?_⟩
            · rw [ha]
              simp [h1]
            · rw [hs]
              simp [h2]
            · rw [hb]
              simp [h3]
            · rw [ht]
              simp [h4]
            · rw [hr key hk]
              cases lastPairValue rest key with
              | some x => rfl
              | none =>
                simp only [GoMap.get?_set]
                by_cases hk1 : key = pairKey v
                · simp [hk1]
                · have hk2 : ¬ pairKey v = key := fun e => hk1 e.symm
                  simp [hk1, hk2]

theorem dropWhile_colon (l : List Char) (h : ':' ∈ l) :
    l.dropWhile (fun c => c ≠ ':') = ':' :: (l.dropWhile fun c => c ≠ ':').tail := by
  induction l with
  | nil => simp at h
  | cons c cs ih =>
    by_cases hc : c = ':'
    · simp [hc]
    · have hcs : ':' ∈ cs := by
        rcases List.mem_cons.1 h with e | e
        · exact absurd e.symm hc
        · exact e
      simpa [List.dropWhile_cons, hc] using ih hcs

/-- A token with a colon is its key, a colon and its value, and the key has
no colon: the cut is at the first colon. -/
theorem pair_recompose (tok : String) (h : ':' ∈ tok.data) :
    tok = pairKey tok ++ ":" ++ pairValue tok ∧ ':' ∉ (pairKey tok).data := by
  constructor
  · apply String.ext
    have h1 := List.takeWhile_append_dropWhile (fun c => decide (c ≠ ':')) tok.data
    rw [dropWhile_colon tok.data h] at h1
    simp only [pairKey, pairValue, String.data_append]
    show tok.data = _ ++ [':'] ++ _
    rw [List.append_assoc]
    exact h1.symm
  · intro hm
    have := List.mem_takeWhile_imp hm
    simp at this

theorem splitChars_ne_nil (sep : Char) (l : List Char) : splitChars sep l ≠ [] := by
  cases l with
  | nil => simp [splitChars]
  | cons c cs =>
    unfold splitChars
    by_cases h : c = sep
    · simp [h]
    · cases splitChars sep cs <;> simp [h]

theorem split_ne_nil (s : String) (sep : Char) : strings.Split s sep ≠ [] := by
  unfold strings.Split
  simpa using splitChars_ne_nil sep s.data

/-- The loop of `extractInboundRules` and `extractOutboundRules` appends one
decoded rule per rule string, in order, when `extractRule` accepts every rule
string. -/
theorem extractRules_loop_ok {ε ρ : Type} (sd : String)
    (decode : GoMap String RuleValue → ρ) (pieces : List String) (acc : Slice ρ)
    (h : ∀ v, v ∈ pieces → ∃ rule, extractRule (ε := ε) v sd = .ok rule) :
    ∃ rules, List.Forall₂ (fun v rule => extractRule (ε := ε) v sd = .ok rule) pieces rules ∧
      extractRules.loop (ε := ε) sd decode pieces acc
        = .ok (goAppend acc (rules.map decode)) := by
  induction pieces generalizing acc with
  | nil => exact ⟨[], List.Forall₂.nil, rfl⟩
  | cons v rest ih =>
    obtain ⟨rule, hrule⟩ := h v (List.mem_cons_self _ _)
    obtain ⟨rules, hf, hl⟩ := ih (goAppend acc [decode rule])
      (fun w hw => h w (List.mem_cons_of_mem _ hw))
    refine ⟨rule :: rules, List.Forall₂.cons hrule hf, ?_⟩
    unfold extractRules.loop
    simp only [hrule, hl, goAppend_goAppend, List.map_cons, List.singleton_append]

theorem extractRules_nonempty {ε ρ : Type} (sd : String)
    (decode : GoMap String RuleValue → ρ) (s : String)
    (h : ∀ v, v ∈ strings.Split s ' ' → ∃ rule, extractRule (ε := ε) v sd = .ok rule) :
    ∃ rules, List.Forall₂ (fun v rule => extractRule (ε := ε) v sd = .ok rule)
        (strings.Split s ' ') rules ∧
      extractRules.loop (ε := ε) sd decode (strings.Split s ' ') none
        = .ok (some (rules.map decode)) := by
  obtain ⟨rules, hf, hl⟩ := extractRules_loop_ok (ε := ε) sd decode (strings.Split s ' ') none h
  refine ⟨rules, hf, ?_⟩
  rw [hl]
  cases hr : rules with
  | nil =>
    rw [hr] at hf
    cases hs : strings.Split s ' ' with
    | nil => exact absurd hs (split_ne_nil s ' ')
    | cons a b =>
      rw [hs] at hf
      cases hf
  | cons a b => simp [goAppend, Slice.toList]

/-- C15, amended.  (1) For every rule string whose comma-separated tokens
all contain a colon and whose `server_id` values are all integers,
`extractRule` cuts each token at its first colon only and returns a map
whose `sd` entry holds the values of the `address` tokens, the integers of
the `server_id` tokens and the values of the `load_balancer_uid` and `tag`
tokens, each in order of appearance (nil when there is none), and which
binds every key other than these four and other than `sd` itself to the
value of the last token with that key.  (2) `extractInboundRules` and
`extractOutboundRules` return no rules for the empty string and, when
`extractRule` accepts every blank-separated rule string, one decoded rule per
rule string, in order.  (3) The key and the value of a token are what
`strings.SplitN(tok, ":", 2)` yields: the key has no colon, and the token is
the key, a colon and the value. -/
theorem extractRule_collects_targets {ε ρ : Type} (sd : String)
    (decode : GoMap String RuleValue → ρ) :
    (∀ ruleStr : String,
      (∀ tok, tok ∈ strings.Split ruleStr ',' → ':' ∈ tok.data) →
      (∀ tok, tok ∈ strings.Split ruleStr ',' → pairKey tok = "server_id" →
        strconv.Atoi (pairValue tok) ≠ none) →
      ∃ rule, extractRule (ε := ε) ruleStr sd = .ok rule ∧
        rule.get? sd = some (.targets
          { addresses := goAppend none (valuesOf (strings.Split ruleStr ',') "address"),
            server_ids := goAppend none
              ((valuesOf (strings.Split ruleStr ',') "server_id").filterMap strconv.Atoi),
            load_balancer_uids :=
              goAppend none (valuesOf (strings.Split ruleStr ',') "load_balancer_uid"),
            tags := goAppend none (valuesOf (strings.Split ruleStr ',') "tag") }) ∧
        ∀ key, key ∉ targetKeys → key ≠ sd →
          rule.get? key
            = (lastPairValue (strings.Split ruleStr ',') key).map RuleValue.str) ∧
    (∀ s : String, s ≠ "" →
      (∀ v, v ∈ strings.Split s ' ' → ∃ rule, extractRule (ε := ε) v "sources" = .ok rule) →
      ∃ rules, List.Forall₂ (fun v rule => extractRule (ε := ε) v "sources" = .ok rule)
          (strings.Split s ' ') rules ∧
        extractInboundRules (ε := ε) decode s = .ok (some (rules.map decode))) ∧
    (∀ s : String, s ≠ "" →
      (∀ v, v ∈ strings.Split s ' ' →
        ∃ rule, extractRule (ε := ε) v "destinations" = .ok rule) →
      ∃ rules, List.Forall₂ (fun v rule => extractRule (ε := ε) v "destinations" = .ok rule)
          (strings.Split s ' ') rules ∧
        extractOutboundRules (ε := ε) decode s = .ok (some (rules.map decode))) ∧
    extractInboundRules (ε := ε) decode "" = .ok none ∧
    extractOutboundRules (ε := ε) decode "" = .ok none ∧
    (∀ tok : String, ':' ∈ tok.data →
      strings.SplitN2 tok ':' = [pairKey tok, pairValue tok] ∧
        tok = pairKey tok ++ ":" ++ pairValue tok ∧ ':' ∉ (pairKey tok).data) := by
  refine ⟨fun ruleStr hwf hint => ?_, fun s hs h => ?_, fun s hs h => ?_, rfl, rfl,
    fun tok h => ⟨splitN2_of_colon tok h, (pair_recompose tok h).1, (pair_recompose tok h).2⟩⟩
  · obtain ⟨vars1, hl, ha, hsv, hb, ht, hr⟩ := extractRule_loop_ok (ε := ε)
      (strings.Split ruleStr ',')
      { rule := [], serverIDs := none, addresses := none, lbUIDs := none, tags := none }
      hwf hint
    have he : extractRule (ε := ε) ruleStr sd
        = .ok (vars1.rule.set sd
            (.targets { addresses := vars1.addresses, server_ids := vars1.serverIDs,
                        load_balancer_uids := vars1.lbUIDs, tags := vars1.tags })) := by
      simp only [extractRule, hl]
    refine ⟨_, he, ?_, fun key hk hne => ?_⟩
    · rw [GoMap.get?_set, if_pos rfl, ha, hsv, hb, ht]
    · rw [GoMap.get?_set, if_neg hne, hr key hk]
      cases lastPairValue (strings.Split ruleStr ',') key <;> rfl
  · have hs0 : ¬ s.length = 0 := fun e => hs ((string_length_eq_zero s).1 e)
    obtain ⟨rules, hf, hl⟩ := extractRules_nonempty (ε := ε) "sources" decode s h
    exact ⟨rules, hf, by simp only [extractInboundRules, hs0, if_false, hl]⟩
  · have hs0 : ¬ s.length = 0 := fun e => hs ((string_length_eq_zero s).1 e)
    obtain ⟨rules, hf, hl⟩ := extractRules_nonempty (ε := ε) "destinations" decode s h
    exact ⟨rules, hf, by simp only [extractOutboundRules, hs0, if_false, hl]⟩

/-- C15 amended, on the outbound rule of the tests,
`protocol:tcp,ports:22,tag:back:end,address:::/0`: the tag `back:end` and
the address `::/0` keep their colons, and `protocol` is bound to `tcp`. -/
theorem extractRule_collects_targets_witness :
    ∃ rule, extractRule (ε := String) "protocol:tcp,ports:22,tag:back:end,address:::/0"
          "destinations" = .ok rule ∧
      rule.get? "destinations" = some (.targets
        { addresses := some ["::/0"], server_ids := none, load_balancer_uids := none,
          tags := some ["back:end"] }) ∧
      ∀ key, key ∉ targetKeys → key ≠ "destinations" →
        rule.get? key
          = (lastPairValue (strings.Split "protocol:tcp,ports:22,tag:back:end,address:::/0" ',')
              key).map RuleValue.str :=
  (extractRule_collects_targets (ε := String) "destinations"
    (fun (m : GoMap String RuleValue) => m)).1
    "protocol:tcp,ports:22,tag:back:end,address:::/0" (by decide) (by decide)

/-! ### Server ids and SSH keys -/

theorem extractServerIDs_loop_ok {ε : Type} (s : List String) (acc : List Int) :
    ((extractServerIDs.loop (ε := ε) s (some acc)).2 ≠ none ↔
      ∃ e, e ∈ s ∧ strconv.Atoi e = none) ∧
    ((extractServerIDs.loop (ε := ε) s (some acc)).2 = none →
      ∃ ids : List Int, extractServerIDs.loop (ε := ε) s (some acc) = (some (acc ++ ids), none) ∧
        s.map strconv.Atoi = ids.map some) := by
  induction s generalizing acc with
  | nil =>
    refine ⟨?_, fun _ => ⟨[], by simp [extractServerIDs.loop], rfl⟩⟩
    simp [extractServerIDs.loop]
  | cons e rest ih =>
    cases h : strconv.Atoi e with
    | none =>
      simp only [extractServerIDs.loop, h]
      refine ⟨⟨fun _ => ⟨e, List.mem_cons_self _ _, h⟩, fun _ => by simp⟩, fun hn => ?_⟩
      exact absurd hn (by simp)
    | some i =>
      simp only [extractServerIDs.loop, h, goAppend, Slice.toList]
      obtain ⟨ih1, ih2⟩ := ih (acc ++ [i])
      constructor
      · rw [ih1]
        constructor
        · rintro ⟨x, hx, hxn⟩
          exact ⟨x, List.mem_cons_of_mem _ hx, hxn⟩
        · rintro ⟨x, hx, hxn⟩
          rcases List.mem_cons.mp hx with rfl | hx
          · rw [h] at hxn; cases hxn
          · exact ⟨x, hx, hxn⟩
      · intro hn
        obtain ⟨ids, h1, h2⟩ := ih2 hn
        refine ⟨i :: ids, ?_, ?_⟩
        · rw [h1]; simp
        · simp [h, h2]

/-- C25. The function `extractServerIDs` returns an error if and only if some
input string does not parse as an integer; otherwise it returns a list of the
same length as its input whose i-th element is the integer that `strconv.Atoi`
reads from the i-th string. -/
theorem extractServerIDs_error_iff_not_integer {ε : Type} (s : List String) :
    ((extractServerIDs (ε := ε) s).2 ≠ none ↔ ∃ e, e ∈ s ∧ strconv.Atoi e = none) ∧
    ((extractServerIDs (ε := ε) s).2 = none →
      ∃ ids : List Int, (extractServerIDs (ε := ε) s).1 = some ids ∧
        ids.length = s.length ∧
        ∀ i : Nat, i < s.length → (s[i]?).bind strconv.Atoi = ids[i]?) := by
  obtain ⟨h1, h2⟩ := extractServerIDs_loop_ok (ε := ε) s []
  refine ⟨h1, fun hn => ?_⟩
  obtain ⟨ids, he, hm⟩ := h2 hn
  refine ⟨ids, ?_, ?_, ?_⟩
  · unfold extractServerIDs; rw [he]; simp
  · have := congrArg List.length hm
    simpa using this.symm
  · intro i _
    have := congrArg (fun l => l[i]?) hm
    simp only [List.getElem?_map] at this
    cases hs : s[i]? with
    | none => rw [hs] at this; simp only [Option.map_none'] at this
              cases hi : ids[i]? with
              | none => rfl
              | some v => rw [hi] at this; cases this
    | some e =>
      rw [hs] at this; simp only [Option.map_some'] at this
      cases hi : ids[i]? with
      | none => rw [hi] at this; cases this
      | some v => rw [hi] at this; simp only [Option.map_some', Option.some.injEq] at this
                  simpa using this

theorem extractSSHKeys_loop_eq (keys : List String) (acc : List binarylane.ServerCreateSSHKey) :
    extractSSHKeys.loop keys (some acc) = some (acc ++ keys.filterMap sshKeyOf) := by
  induction keys generalizing acc with
  | nil => simp [extractSSHKeys.loop]
  | cons k rest ih =>
    cases h : strconv.Atoi k with
    | some i =>
      by_cases hi : i > 0
      · simp only [extractSSHKeys.loop, h, hi, if_true, goAppend, Slice.toList]
        rw [ih]
        simp [List.filterMap_cons, sshKeyOf, h, hi]
      · simp only [extractSSHKeys.loop, h, hi, if_false]
        rw [ih]
        simp [List.filterMap_cons, sshKeyOf, h, hi]
    | none =>
      by_cases hk : k ≠ ""
      · simp only [extractSSHKeys.loop, h, hk, if_true, goAppend, Slice.toList]
        rw [ih]
        simp [List.filterMap_cons, sshKeyOf, h, hk]
      · simp only [extractSSHKeys.loop, h, hk, if_false]
        rw [ih]
        simp [List.filterMap_cons, sshKeyOf, h, hk]

/-- C22. For every list of key strings, `extractSSHKeys` returns a non-nil
list that holds, in input order, the entry with `ID` i for each key that
parses as an integer i > 0 and the entry with `Fingerprint` k for each
non-empty key k that does not parse as an integer; keys that parse as an
integer that is not positive and empty keys contribute nothing, so the list
is empty and non-nil when nothing remains. -/
theorem extractSSHKeys_keeps_ids_and_fingerprints (keys : List String) :
    extractSSHKeys keys = some (keys.filterMap sshKeyOf) ∧
    (∀ k i, strconv.Atoi k = some i →
      sshKeyOf k = if i > 0 then some { ID := i } else none) ∧
    (∀ k, strconv.Atoi k = none →
      sshKeyOf k = if k ≠ "" then some { Fingerprint := k } else none) ∧
    ((∀ k, k ∈ keys → sshKeyOf k = none) → extractSSHKeys keys = some []) := by
  have h := extractSSHKeys_loop_eq keys []
  refine ⟨by simpa [extractSSHKeys] using h, ?_, ?_, ?_⟩
  · intro k i hk; simp [sshKeyOf, hk]
  · intro k hk; simp [sshKeyOf, hk]
  · intro hall
    unfold extractSSHKeys
    rw [h, List.nil_append, List.filterMap_eq_nil_iff.mpr hall]

/-! ### Creating a floating IP -/

/-- C21. Run with a `Create` that records its requests, `RunFloatingIPCreate`
calls `Create` if and only if exactly one of the region (non-empty) and the
server ID (non-zero) is given; it then calls it once, with the request that
holds that region and that server ID.  When both are blank or both are given
it returns an error, calls nothing and leaves the state as it was. -/
theorem RunFloatingIPCreate_calls_Create_iff_one_given {σ ε φ : Type}
    (region : String × Option (GoError ε)) (serverID : Int × Option (GoError ε))
    (missingArgs : String → GoError ε)
    (fis_Create : binarylane.FloatingIPCreateRequest → σ →
      (Option φ × Option (GoError ε)) × σ)
    (println : GoError ε → σ → σ)
    (display : φ → σ → Option (GoError ε) × σ) (s : σ) :
    ((RunFloatingIPCreate region serverID missingArgs (recordCalls fis_Create)
        (fun err => besideCallsUnit (println err)) (fun ip => besideCalls (display ip))
        (s, [])).2.2 ≠ [] ↔
      ((region.1 ≠ "" ∧ serverID.1 = 0) ∨ (region.1 = "" ∧ serverID.1 ≠ 0))) ∧
    (((region.1 ≠ "" ∧ serverID.1 = 0) ∨ (region.1 = "" ∧ serverID.1 ≠ 0)) →
      (RunFloatingIPCreate region serverID missingArgs (recordCalls fis_Create)
        (fun err => besideCallsUnit (println err)) (fun ip => besideCalls (display ip))
        (s, [])).2.2 = [{ Region := region.1, ServerID := serverID.1 }]) ∧
    (¬ ((region.1 ≠ "" ∧ serverID.1 = 0) ∨ (region.1 = "" ∧ serverID.1 ≠ 0)) →
      (RunFloatingIPCreate region serverID missingArgs (recordCalls fis_Create)
        (fun err => besideCallsUnit (println err)) (fun ip => besideCalls (display ip))
        (s, [])).2 = (s, []) ∧
      ∃ err, (RunFloatingIPCreate region serverID missingArgs (recordCalls fis_Create)
        (fun err => besideCallsUnit (println err)) (fun ip => besideCalls (display ip))
        (s, [])).1 = .ret () (some err)) := by
  have hcall : ¬ (region.1 = "" ∧ serverID.1 = 0) → ¬ (region.1 ≠ "" ∧ serverID.1 ≠ 0) →
      (RunFloatingIPCreate region serverID missingArgs (recordCalls fis_Create)
        (fun err => besideCallsUnit (println err)) (fun ip => besideCalls (display ip))
        (s, [])).2.2 = [{ Region := region.1, ServerID := serverID.1 }] := by
    intro h1 h2
    unfold RunFloatingIPCreate
    rw [if_neg h1, if_neg h2]
    unfold recordCalls
    rcases hc : fis_Create { Region := region.1, ServerID := serverID.1 } s with
      ⟨⟨ip, err⟩, s1⟩
    cases err with
    | some e => simp [besideCallsUnit]
    | none =>
      cases ip with
      | none => simp
      | some ip =>
        simp only [besideCalls, List.nil_append]
  by_cases hr : region.1 = "" <;> by_cases hs : serverID.1 = 0
  · have hnone : ¬ ((region.1 ≠ "" ∧ serverID.1 = 0) ∨ (region.1 = "" ∧ serverID.1 ≠ 0)) := by
      rintro (⟨h, _⟩ | ⟨_, h⟩)
      · exact h hr
      · exact h hs
    have hrun : RunFloatingIPCreate region serverID missingArgs (recordCalls fis_Create)
        (fun err => besideCallsUnit (println err)) (fun ip => besideCalls (display ip))
        (s, []) =
        (.ret () (some (missingArgs "Region and Server ID can't both be blank.")), (s, [])) := by
      unfold RunFloatingIPCreate
      rw [if_pos ⟨hr, hs⟩]
    refine ⟨?_, fun h => absurd h hnone, fun _ => ?_⟩
    · rw [hrun]; simp [hr, hs]
    · rw [hrun]; exact ⟨rfl, _, rfl⟩
  · have hone : (region.1 ≠ "" ∧ serverID.1 = 0) ∨ (region.1 = "" ∧ serverID.1 ≠ 0) :=
      Or.inr ⟨hr, hs⟩
    have hc := hcall (fun h => hs h.2) (fun h => h.1 hr)
    refine ⟨?_, fun _ => hc, fun h => absurd hone h⟩
    rw [hc]; simp [hr, hs]
  · have hone : (region.1 ≠ "" ∧ serverID.1 = 0) ∨ (region.1 = "" ∧ serverID.1 ≠ 0) :=
      Or.inl ⟨hr, hs⟩
    have hc := hcall (fun h => hr h.1) (fun h => h.2 hs)
    refine ⟨?_, fun _ => hc, fun h => absurd hone h⟩
    rw [hc]; simp [hr, hs]
  · have hnone : ¬ ((region.1 ≠ "" ∧ serverID.1 = 0) ∨ (region.1 = "" ∧ serverID.1 ≠ 0)) := by
      rintro (⟨_, h⟩ | ⟨h, _⟩)
      · exact hs h
      · exact hr h
    have hrun : RunFloatingIPCreate region serverID missingArgs (recordCalls fis_Create)
        (fun err => besideCallsUnit (println err)) (fun ip => besideCalls (display ip))
        (s, []) =
        (.ret () (some (Errorf
          "Specify region or Server ID when creating a floating IP address." [])),
          (s, [])) := by
      unfold RunFloatingIPCreate
      rw [if_neg (fun h => hr h.1), if_pos ⟨hr, hs⟩]
    refine ⟨?_, fun h => absurd h hnone, fun _ => ?_⟩
    · rw [hrun]; simp [hr, hs]
    · rw [hrun]; exact ⟨rfl, _, rfl⟩

/-! ### The host pattern of `ssh` -/

theorem Regex.greedyStar_all {β : Type} (cls : Char → Bool) (u rest : List Char)
    (k : List Char → Option β) (r : β) (hu : ∀ c, c ∈ u → cls c = true)
    (hk : k rest = some r) (hrest : ∀ x t, rest = x :: t → cls x = false) :
    Regex.greedyStar cls (u ++ rest) k = some r := by
  induction u with
  | nil =>
    cases rest with
    | nil => simpa [Regex.greedyStar] using hk
    | cons x t => simp [Regex.greedyStar, hrest x t rfl, hk]
  | cons a u ih =>
    have ha := hu a (List.mem_cons_self _ _)
    have := ih fun c hc => hu c (List.mem_cons_of_mem _ hc)
    simp [Regex.greedyStar, ha, this]

theorem Regex.greedyPlus_all {β : Type} (cls : Char → Bool) (u rest : List Char)
    (k : List Char → Option β) (r : β) (hne : u ≠ []) (hu : ∀ c, c ∈ u → cls c = true)
    (hk : k rest = some r) (hrest : ∀ x t, rest = x :: t → cls x = false) :
    Regex.greedyPlus cls (u ++ rest) k = some r := by
  cases u with
  | nil => exact absurd rfl hne
  | cons a u =>
    have ha := hu a (List.mem_cons_self _ _)
    have := Regex.greedyStar_all cls u rest k r (fun c hc => hu c (List.mem_cons_of_mem _ hc))
      hk hrest
    simp [Regex.greedyPlus, ha, this]

theorem Regex.greedyStar_none {β : Type} (cls : Char → Bool) (l : List Char)
    (k : List Char → Option β)
    (hk : ∀ l1 r, l = l1 ++ r → (∀ c, c ∈ l1 → cls c = true) → k r = none) :
    Regex.greedyStar cls l k = none := by
  induction l with
  | nil => simpa [Regex.greedyStar] using hk [] [] rfl (by simp)
  | cons x t ih =>
    have h0 : k (x :: t) = none := hk [] (x :: t) rfl (by simp)
    by_cases hx : cls x = true
    · have := ih fun l1 r hl h1 => hk (x :: l1) r (by rw [hl]; rfl) (by
        intro c hc
        rcases List.mem_cons.mp hc with rfl | hc
        · exact hx
        · exact h1 c hc)
      simp [Regex.greedyStar, hx, this, h0]
    · simp [Regex.greedyStar, hx, h0]

theorem Regex.greedyPlus_none {β : Type} (cls : Char → Bool) (l : List Char)
    (k : List Char → Option β)
    (hk : ∀ l1 r, l = l1 ++ r → l1 ≠ [] → (∀ c, c ∈ l1 → cls c = true) → k r = none) :
    Regex.greedyPlus cls l k = none := by
  cases l with
  | nil => rfl
  | cons x t =>
    by_cases hx : cls x = true
    · have := Regex.greedyStar_none cls t k fun l1 r hl h1 =>
        hk (x :: l1) r (by rw [hl]; rfl) (by simp) (by
          intro c hc
          rcases List.mem_cons.mp hc with rfl | hc
          · exact hx
          · exact h1 c hc)
      simp [Regex.greedyPlus, hx, this]
    · simp [Regex.greedyPlus, hx]

theorem Regex.lazyStar_first {β : Type} (cls : Char → Bool) (h rest : List Char)
    (k : List Char → Option β) (r : β) (hh : ∀ c, c ∈ h → cls c = true)
    (hk : k rest = some r)
    (hearly : ∀ h1 x h2, h = h1 ++ x :: h2 → k (x :: h2 ++ rest) = none) :
    Regex.lazyStar cls (h ++ rest) k = some r := by
  induction h with
  | nil =>
    cases rest with
    | nil => simpa [Regex.lazyStar] using hk
    | cons x t => simp [Regex.lazyStar, hk]
  | cons a h ih =>
    have ha := hh a (List.mem_cons_self _ _)
    have h0 : k (a :: h ++ rest) = none := hearly [] a h rfl
    have := ih (fun c hc => hh c (List.mem_cons_of_mem _ hc))
      (fun h1 x h2 hl => hearly (a :: h1) x h2 (by rw [hl]; rfl))
    simp only [List.cons_append] at h0 ⊢
    simp [Regex.lazyStar, ha, this, h0]

theorem Regex.searchFrom_of_run (re : Regex) (n : Nat) (l : List Char) (c : Regex.Caps)
    (h : Regex.run n re l (List.replicate re.SubexpNames.length none)
      (fun r c => some (c.set 0 (some (l.take (l.length - r.length))))) = some c) :
    Regex.searchFrom re n l = some c := by
  cases l with
  | nil => simpa [Regex.searchFrom] using h
  | cons x t => simp only [Regex.searchFrom, h]

theorem take_length_sub (a b : List Char) : (a ++ b).take ((a ++ b).length - b.length) = a := by
  simp


theorem Regex.greedyPlus_all_end {β : Type} (cls : Char → Bool) (u : List Char)
    (k : List Char → Option β) (r : β) (hne : u ≠ []) (hu : ∀ c, c ∈ u → cls c = true)
    (hk : k [] = some r) : Regex.greedyPlus cls u k = some r := by
  have := Regex.greedyPlus_all cls u [] k r hne hu hk (fun x t h => by cases h)
  rwa [List.append_nil] at this

theorem digit_colon : Regex.digit ':' = false := by decide

theorem word_at : Regex.word '@' = false := by decide

theorem Regex.greedyPlus_digits_fail {β : Type} (l p : List Char) (k : List Char → Option β)
    (hk : ∀ r, r ≠ [] → k r = none) :
    Regex.greedyPlus Regex.digit (l ++ ':' :: p) k = none := by
  apply Regex.greedyPlus_none
  intro l1 r hl _ h1
  apply hk
  rintro rfl
  rw [List.append_nil] at hl
  have : ':' ∈ l1 := by rw [← hl]; simp
  have := h1 _ this
  rw [digit_colon] at this
  cases this

theorem sshHostRE_full (u h p : List Char) (hune : u ≠ [])
    (hu : ∀ c, c ∈ u → Regex.word c = true) (hh : '\n' ∉ h) (hpne : p ≠ [])
    (hp : ∀ c, c ∈ p → Regex.digit c = true) :
    sshHostRE.searchFrom (u ++ '@' :: (h ++ ':' :: p)).length (u ++ '@' :: (h ++ ':' :: p)) =
      some [some (u ++ '@' :: (h ++ ':' :: p)), some (u ++ ['@']), some u, some h,
        some (':' :: p), some p] := by
  apply Regex.searchFrom_of_run
  simp only [sshHostRE, Regex.run, if_true]
  rw [Regex.greedyPlus_all Regex.word u ('@' :: (h ++ ':' :: p)) _
    [some (u ++ '@' :: (h ++ ':' :: p)), some (u ++ ['@']), some u, some h,
        some (':' :: p), some p] hune hu]
  · simp only [if_true]
    apply Regex.lazyStar_first
    · intro c hc
      simp only [Regex.dot, decide_eq_true_eq]
      rintro rfl
      exact hh hc
    · simp only [if_true]
      rw [Regex.greedyPlus_all_end Regex.digit p _ _ hpne hp]
      have t1 := take_length_sub u ('@' :: (h ++ ':' :: p))
      have t2 := take_length_sub (u ++ ['@']) (h ++ ':' :: p)
      have t3 := take_length_sub h (':' :: p)
      simp only [List.append_assoc, List.singleton_append] at t2
      simp only [if_true, t1, t2, t3, List.length_nil, Nat.sub_zero, List.take_length]
      rfl
    · intro h1 x h2 hl
      simp only [List.cons_append]
      by_cases hx : x = ':'
      · subst hx
        simp only [if_true]
        rw [Regex.greedyPlus_digits_fail]
        · simp
        · intro r hr; simp [hr]
      · simp [hx]
  · intro x t hxt
    cases hxt
    exact word_at

theorem Regex.lazyStar_first_end {β : Type} (cls : Char → Bool) (h : List Char)
    (k : List Char → Option β) (r : β) (hh : ∀ c, c ∈ h → cls c = true)
    (hk : k [] = some r) (hearly : ∀ h1 x h2, h = h1 ++ x :: h2 → k (x :: h2) = none) :
    Regex.lazyStar cls h k = some r := by
  have := Regex.lazyStar_first cls h [] k r hh hk (fun h1 x h2 hl => by
    rw [List.append_nil]; exact hearly h1 x h2 hl)
  rwa [List.append_nil] at this

theorem sshHostRE_host (h : List Char) (hn : '\n' ∉ h) (hat : '@' ∉ h) (hc : ':' ∉ h) :
    sshHostRE.searchFrom h.length h = some [some h, none, none, some h, none, none] := by
  apply Regex.searchFrom_of_run
  simp only [sshHostRE, Regex.run, if_true]
  rw [Regex.greedyPlus_none Regex.word h]
  · simp only
    apply Regex.lazyStar_first_end
    · intro c hc
      simp only [Regex.dot, decide_eq_true_eq]
      rintro rfl
      exact hn hc
    · simp only [if_true, Nat.sub_self, List.length_nil, Nat.sub_zero, List.take_length]
      rfl
    · intro h1 x h2 hl
      have hx : x ≠ ':' := by
        rintro rfl
        exact hc (by rw [hl]; simp)
      simp [hx]
  · intro l1 r hl _ _
    cases r with
    | nil => rfl
    | cons x t =>
      have hx : x ≠ '@' := by
        rintro rfl
        exact hat (by rw [hl]; simp)
      simp [hx]


theorem string_data_ne_nil (s : String) (h : s ≠ "") : s.data ≠ [] := by
  intro hd
  apply h
  cases s
  simp only at hd
  rw [hd]

/-- On texts without a newline the host pattern reads what it is meant to
read.  For every user of one or more word characters, every host without a
newline and every port of one or more decimal digits, `extractHostInfo` reads
`user@host:port` as exactly that user, host and port; and when such a host
has neither an `@` nor a colon, `extractHostInfo` reads the host alone as
that host with an empty user and an empty port. -/
theorem extractHostInfo_reads_user_host_port (user host port : String)
    (hu : user ≠ "") (huw : ∀ c, c ∈ user.data → Regex.word c = true)
    (hh : '\n' ∉ host.data)
    (hp : port ≠ "") (hpd : ∀ c, c ∈ port.data → Regex.digit c = true) :
    extractHostInfo (user ++ "@" ++ host ++ ":" ++ port)
      = some { user := user, host := host, port := port } ∧
    ('@' ∉ host.data → ':' ∉ host.data →
      extractHostInfo host = some { user := "", host := host, port := "" }) := by
  constructor
  · have hd : (user ++ "@" ++ host ++ ":" ++ port).data
        = user.data ++ '@' :: (host.data ++ ':' :: port.data) := by
      simp [String.data_append]
    unfold extractHostInfo Regex.FindStringSubmatch
    rw [hd, sshHostRE_full user.data host.data port.data (string_data_ne_nil user hu) huw hh
      (string_data_ne_nil port hp) hpd]
    simp [extractHostInfo.loop, Regex.SubexpNames, Regex.groupNames, sshHostRE, GoMap.set,
      GoMap.get?, Slice.toList]
  · intro hat hc
    unfold extractHostInfo Regex.FindStringSubmatch
    rw [sshHostRE_host host.data hh hat hc]
    simp [extractHostInfo.loop, Regex.SubexpNames, Regex.groupNames, sshHostRE, GoMap.set,
      GoMap.get?, Slice.toList]

theorem extractHostInfo_reads_user_host_port_witness :
    extractHostInfo ("root" ++ "@" ++ "host" ++ ":" ++ "22")
      = some { user := "root", host := "host", port := "22" } ∧
    ('@' ∉ "host".data → ':' ∉ "host".data →
      extractHostInfo "host" = some { user := "", host := "host", port := "" }) :=
  extractHostInfo_reads_user_host_port "root" "host" "22" (by decide) (by decide) (by decide)
    (by decide) (by decide)

theorem Regex.greedyStar_sound {β : Type} (cls : Char → Bool) (l : List Char)
    (k : List Char → Option β) (r : β) (h : Regex.greedyStar cls l k = some r) :
    ∃ l1, k l1 = some r := by
  induction l with
  | nil => exact ⟨[], by simpa [Regex.greedyStar] using h⟩
  | cons x t ih =>
    simp only [Regex.greedyStar] at h
    split_ifs at h with hx
    · cases hg : Regex.greedyStar cls t k with
      | some v =>
        rw [hg] at h
        simp only [Option.some.injEq] at h
        exact ih (by rw [hg, h])
      | none =>
        rw [hg] at h
        exact ⟨_, h⟩
    · exact ⟨_, h⟩

theorem Regex.greedyPlus_sound {β : Type} (cls : Char → Bool) (l : List Char)
    (k : List Char → Option β) (r : β) (h : Regex.greedyPlus cls l k = some r) :
    ∃ l1, k l1 = some r := by
  cases l with
  | nil => simp [Regex.greedyPlus] at h
  | cons x t =>
    simp only [Regex.greedyPlus] at h
    split_ifs at h
    exact Regex.greedyStar_sound cls t k r h

theorem Regex.lazyStar_sound {β : Type} (cls : Char → Bool) (l : List Char)
    (k : List Char → Option β) (r : β) (h : Regex.lazyStar cls l k = some r) :
    ∃ l1, k l1 = some r := by
  induction l with
  | nil => exact ⟨[], by simpa [Regex.lazyStar] using h⟩
  | cons x t ih =>
    simp only [Regex.lazyStar] at h
    cases hk : k (x :: t) with
    | some v =>
      rw [hk] at h
      simp only [Option.some.injEq] at h
      exact ⟨_, by rw [hk, h]⟩
    | none =>
      rw [hk] at h
      simp only at h
      split_ifs at h
      exact ih h

theorem Regex.lazyStar_total {β : Type} (cls : Char → Bool) (l : List Char)
    (k : List Char → Option β) (hl : ∀ c, c ∈ l → cls c = true) (hk : (k []).isSome) :
    (Regex.lazyStar cls l k).isSome := by
  induction l with
  | nil => simpa [Regex.lazyStar] using hk
  | cons x t ih =>
    simp only [Regex.lazyStar]
    cases hx : k (x :: t) with
    | some v => rfl
    | none =>
      simp only [hl x (List.mem_cons_self _ _), if_true]
      exact ih fun c hc => hl c (List.mem_cons_of_mem _ hc)

/-- Every result of a search comes from the rest of the search, run on
submatches of the same number. -/
theorem Regex.run_sound (n m : Nat) (re : Regex) :
    ∀ (rem : List Char) (caps : Regex.Caps)
      (k : List Char → Regex.Caps → Option Regex.Caps) (res : Regex.Caps),
      caps.length = m → Regex.run n re rem caps k = some res →
      ∃ r c, c.length = m ∧ k r c = some res := by
  induction re with
  | bol =>
    intro rem caps k res hc h
    simp only [Regex.run] at h
    split_ifs at h
    exact ⟨_, _, hc, h⟩
  | eol =>
    intro rem caps k res hc h
    simp only [Regex.run] at h
    split_ifs at h
    exact ⟨_, _, hc, h⟩
  | lit c =>
    intro rem caps k res hc h
    cases rem with
    | nil => simp [Regex.run] at h
    | cons x t =>
      simp only [Regex.run] at h
      split_ifs at h
      exact ⟨_, _, hc, h⟩
  | plus cls =>
    intro rem caps k res hc h
    simp only [Regex.run] at h
    obtain ⟨l1, h1⟩ := Regex.greedyPlus_sound _ _ _ _ h
    exact ⟨_, _, hc, h1⟩
  | starLazy cls =>
    intro rem caps k res hc h
    simp only [Regex.run] at h
    obtain ⟨l1, h1⟩ := Regex.lazyStar_sound _ _ _ _ h
    exact ⟨_, _, hc, h1⟩
  | seq a b iha ihb =>
    intro rem caps k res hc h
    simp only [Regex.run] at h
    obtain ⟨r, c, hc1, h1⟩ := iha _ _ _ _ hc h
    exact ihb _ _ _ _ hc1 h1
  | opt a iha =>
    intro rem caps k res hc h
    simp only [Regex.run] at h
    cases ha : Regex.run n a rem caps k with
    | some v =>
      rw [ha] at h
      simp only [Option.some.injEq] at h
      exact iha _ _ _ _ hc (by rw [ha, h])
    | none =>
      rw [ha] at h
      exact ⟨_, _, hc, h⟩
  | group idx name a iha =>
    intro rem caps k res hc h
    simp only [Regex.run] at h
    obtain ⟨r, c, hc1, h1⟩ := iha _ _ _ _ hc h
    exact ⟨_, _, by rw [List.length_set]; exact hc1, h1⟩

theorem Regex.searchFrom_length (re : Regex) (n : Nat) (l : List Char) (res : Regex.Caps)
    (h : Regex.searchFrom re n l = some res) : res.length = re.SubexpNames.length := by
  induction l with
  | nil =>
    simp only [Regex.searchFrom] at h
    obtain ⟨r, c, hc, h1⟩ := Regex.run_sound n _ re _ _ _ _ (List.length_replicate _ _) h
    simp only [Option.some.injEq] at h1
    rw [← h1, List.length_set, hc]
  | cons x t ih =>
    simp only [Regex.searchFrom] at h
    cases hr : Regex.run n re (x :: t) (List.replicate re.SubexpNames.length none) fun r c =>
        some (c.set 0 (some ((x :: t).take ((x :: t).length - r.length)))) with
    | some v =>
      rw [hr] at h
      simp only [Option.some.injEq] at h
      obtain ⟨r, c, hc, h1⟩ := Regex.run_sound n _ re _ _ _ _ (List.length_replicate _ _) hr
      simp only [Option.some.injEq] at h1
      rw [← h, ← h1, List.length_set, hc]
    | none =>
      rw [hr] at h
      exact ih h

theorem sshHostRE_matches (l : List Char) (hn : '\n' ∉ l) :
    (sshHostRE.searchFrom l.length l).isSome := by
  have hrun : (Regex.run l.length sshHostRE l (List.replicate sshHostRE.SubexpNames.length none)
      fun r c => some (c.set 0 (some (l.take (l.length - r.length))))).isSome := by
    simp only [sshHostRE, Regex.run, if_true]
    cases hg : Regex.greedyPlus Regex.word l _ with
    | some v => rfl
    | none =>
      simp only
      apply Regex.lazyStar_total
      · intro c hc
        simp only [Regex.dot, decide_eq_true_eq]
        rintro rfl
        exact hn hc
      · rfl
  obtain ⟨c, hc⟩ := Option.isSome_iff_exists.mp hrun
  rw [Regex.searchFrom_of_run _ _ _ c hc]
  rfl

theorem extractHostInfo_loop_isSome (m names : List String) (i : Nat)
    (r : GoMap String String) (h : i + names.length ≤ m.length) :
    (extractHostInfo.loop m names i r).isSome := by
  induction names generalizing i r with
  | nil => rfl
  | cons n names ih =>
    simp only [List.length_cons] at h
    have hi : i < m.length := by omega
    simp only [extractHostInfo.loop, List.getElem?_eq_getElem hi]
    exact ih _ _ (by omega)

/-- On a text without a newline `extractHostInfo` returns. -/
theorem extractHostInfo_returns_without_newline (input : String) (hn : '\n' ∉ input.data) :
    (extractHostInfo input).isSome := by
  obtain ⟨c, hc⟩ := Option.isSome_iff_exists.mp (sshHostRE_matches input.data hn)
  have hlen := Regex.searchFrom_length _ _ _ _ hc
  unfold extractHostInfo Regex.FindStringSubmatch
  rw [hc]
  simp only [Option.map_some', Slice.toList, Option.isSome_map']
  apply extractHostInfo_loop_isSome
  simp [hlen]

/-- C23 fails for a host with a newline that is given alone: `web` followed
by a newline has neither an `@` nor a colon, yet `extractHostInfo` does not
return it as the host with an empty user and an empty port, it panics (the
pattern does not match, so the lookup `m[i]` indexes a nil slice).  The same
host without the newline is read as the host, and `admin@web:22` as user,
host and port. -/
theorem extractHostInfo_host_alone_with_newline :
    '@' ∉ "web\n".data ∧ ':' ∉ "web\n".data ∧
    extractHostInfo "web\n" = none ∧
    extractHostInfo "web\n" ≠ some { user := "", host := "web\n", port := "" } ∧
    extractHostInfo "web" = some { user := "", host := "web", port := "" } ∧
    extractHostInfo "admin@web:22" = some { user := "admin", host := "web", port := "22" } := by
  refine ⟨by decide, by decide, by decide, by decide, by decide, by decide⟩

/-- C29 fails for an input with a newline: the host pattern does not match
`a`, newline, `b`, because `.` stops at the newline and `$` stands for the end
of the text only; `FindStringSubmatch` returns nil and the lookup `m[i]`
panics.  Inputs without a newline, such as those of the tests, are read. -/
theorem extractHostInfo_panics_on_newline :
    sshHostRE.FindStringSubmatch "a\nb" = none ∧
    extractHostInfo "a\nb" = none ∧
    extractHostInfo "root@host:22" = some { user := "root", host := "host", port := "22" } ∧
    extractHostInfo "host:22" = some { user := "", host := "host", port := "22" } := by
  decide

/-! ### Connecting to a server -/

theorem firstV4_eq_find (netType : String) (l : List binarylane.NetworkV4) :
    binarylane.Server.firstV4 netType l =
      match l.find? (fun v4 => v4.NetType = netType) with
      | some v4 => v4.IPAddress
      | none => "" := by
  induction l with
  | nil => rfl
  | cons v4 rest ih =>
    by_cases h : v4.NetType = netType
    · simp [binarylane.Server.firstV4, h, List.find?_cons]
    · simp [binarylane.Server.firstV4, h, List.find?_cons, ih]

/-- C24. The method `Server.PublicIPv4` returns the error `errNoNetworks` if
and only if the server's `Networks` is nil; otherwise it returns, with no
error, the address of the first IPv4 network whose type is `public`, or the
empty string when there is none.  On an empty address the end of `RunSSH`
returns the error `Could not find Server address` and runs nothing, as
`RunSSH` does for the name of a server that has a private address only. -/
theorem PublicIPv4_first_public_address {σ ε : Type} (d : binarylane.Server) :
    ((d.PublicIPv4 (ε := ε)).2 = some binarylane.errNoNetworks ↔ d.Networks = none) ∧
    (∀ networks, d.Networks = some networks →
      d.PublicIPv4 (ε := ε) =
        ((match networks.V4.toList.find? (fun v4 => v4.NetType = "public") with
          | some v4 => v4.IPAddress
          | none => ""), none)) ∧
    (∀ (user keyPath : String) (port : Int) (opts : sshOptions)
        (ssh_Run : sshCall → σ → Option (GoError ε) × σ) (s : σ),
      user ≠ "" ∨ d.Image ≠ none →
      d.PublicIPv4 (ε := ε) = ("", none) →
      RunSSH.connect (some d) user keyPath port opts false ssh_Run s
        = (.ret () (some (.new "Could not find Server address")), s)) ∧
    RunSSH (ε := ε) ["a-server"] (.new "missing arguments") ("", none) ("", none)
        (22, none) (false, none) ("", none) (false, none) getNothing
        (listReturning [demoPrivateServer]) recordingSSH []
      = (.ret () (some (.new "Could not find Server address")), []) := by
  refine ⟨?_, ?_, ?_, rfl⟩
  · unfold binarylane.Server.PublicIPv4
    cases h : d.Networks with
    | none => simp
    | some n => simp
  · intro networks hn
    unfold binarylane.Server.PublicIPv4
    rw [hn]
    simp only [firstV4_eq_find]
  · intro user keyPath port opts ssh_Run s hu hip
    unfold RunSSH.connect
    have hpriv : privateIPElsePub (ε := ε) (some d) false = some ("", none) := by
      simp [privateIPElsePub, hip]
    by_cases hue : user = ""
    · rcases hu with hu | hu
      · exact absurd hue hu
      · cases himg : d.Image with
        | none => exact absurd himg hu
        | some image =>
          simp only [hue, if_true, defaultSSHUser, himg]
          split_ifs <;> simp [hpriv]
    · simp [hue, hpriv]

/-- C28 fails for the argument `web:2222`: with the flag `--ssh-port` at 22,
`RunSSH` hands port 22 to the runner, not 2222, because the port of the
argument is taken only when `strconv.Atoi` fails on it.  The user of the
argument `admin@web` does replace the user of the flag. -/
theorem RunSSH_ignores_port_of_argument :
    RunSSH (ε := String) ["web:2222"] (.new "missing arguments") ("", none) ("", none)
        (22, none) (false, none) ("", none) (false, none) getNothing
        (listReturning [demoWebServer]) recordingSSH []
      = (.ret () none,
          [{ user := "root", host := "203.0.113.7", keyPath := "", port := 22,
             opts := { AgentForwarding := false, Command := "" } }]) ∧
    RunSSH (ε := String) ["admin@web"] (.new "missing arguments") ("root", none) ("", none)
        (22, none) (false, none) ("", none) (false, none) getNothing
        (listReturning [demoWebServer]) recordingSSH []
      = (.ret () none,
          [{ user := "admin", host := "203.0.113.7", keyPath := "", port := 22,
             opts := { AgentForwarding := false, Command := "" } }]) := by
  constructor <;> rfl

/-! ### The image of a create request -/

/-- C26. For every `ServerCreateImage`, `MarshalJSON` returns what
`json.Marshal` makes of the string `Slug` whenever `Slug` is not empty,
whatever `ID` is, and what `json.Marshal` makes of the integer `ID` when
`Slug` is empty. -/
theorem MarshalJSON_slug_else_id {β : Type} (json_Marshal : json.Operand → β)
    (d : binarylane.ServerCreateImage) :
    (d.Slug ≠ "" → ∀ id : Int,
      binarylane.ServerCreateImage.MarshalJSON json_Marshal { ID := id, Slug := d.Slug }
        = json_Marshal (.string d.Slug)) ∧
    (d.Slug ≠ "" → d.MarshalJSON json_Marshal = json_Marshal (.string d.Slug)) ∧
    (d.Slug = "" → d.MarshalJSON json_Marshal = json_Marshal (.int d.ID)) := by
  refine ⟨fun h id => ?_, fun h => ?_, fun h => ?_⟩
  · simp [binarylane.ServerCreateImage.MarshalJSON, h]
  · simp [binarylane.ServerCreateImage.MarshalJSON, h]
  · simp [binarylane.ServerCreateImage.MarshalJSON, h]

/-! ### Server actions -/

/-- C30. For every server id below 1, every action request (nil included) and
every behaviour of the HTTP client, `doAction` returns a nil action, a nil
response and the argument error for `id`, in the state it started from: it
calls neither `NewRequest` nor `Do`.  So does each of the methods that go
through it.  For the empty tag `doActionByTag` and the by-tag methods do the
same with the argument error for `tag`. -/
theorem doAction_rejects_id_below_one {σ ε ρ α : Type}
    (NewArgError : String → String → GoError ε)
    (client_NewRequest : String → String → binarylane.ActionRequest → σ →
      (Option ρ × Option (GoError ε)) × σ)
    (client_Do : Option ρ → σ → (Option α × Option Response × Option (GoError ε)) × σ)
    (client_DoByTag : Option ρ → σ → (Slice α × Option Response × Option (GoError ε)) × σ)
    (id : Int) (s : σ) (h : id < 1) :
    (∀ request, ServerActionsServiceOp.doAction NewArgError client_NewRequest client_Do id
        request s = ((none, none, some (NewArgError "id" "cannot be less than 1")), s)) ∧
    (∀ m : ServerActionMethod, m.run NewArgError client_NewRequest client_Do id s
        = ((none, none, some (NewArgError "id" "cannot be less than 1")), s)) ∧
    (∀ request, ServerActionsServiceOp.doActionByTag NewArgError client_NewRequest
        client_DoByTag "" request s
        = ((none, none, some (NewArgError "tag" "cannot be empty")), s)) ∧
    (∀ m : ServerActionByTagMethod, m.run NewArgError client_NewRequest client_DoByTag "" s
        = ((none, none, some (NewArgError "tag" "cannot be empty")), s)) := by
  refine ⟨fun request => ?_, fun m => ?_, fun request => ?_, fun m => ?_⟩
  · unfold ServerActionsServiceOp.doAction
    rw [if_pos h]
  · unfold ServerActionMethod.run ServerActionsServiceOp.doAction
    rw [if_pos h]
  · unfold ServerActionsServiceOp.doActionByTag
    rw [if_pos rfl]
  · unfold ServerActionByTagMethod.run ServerActionsServiceOp.doActionByTag
    rw [if_pos rfl]

theorem doAction_rejects_id_below_one_witness :
    (0 : Int) < 1 ∧
    (∀ request, ServerActionsServiceOp.doAction (ε := String) (α := Unit)
        (fun arg msg => .new (arg ++ " is invalid because " ++ msg)) recordingNewRequest
        doNothing 0 request []
        = ((none, none, some (.new ("id" ++ " is invalid because " ++ "cannot be less than 1"))),
            [])) ∧
    (∀ m : ServerActionMethod, m.run (ε := String) (α := Unit)
        (fun arg msg => .new (arg ++ " is invalid because " ++ msg)) recordingNewRequest
        doNothing 0 []
        = ((none, none, some (.new ("id" ++ " is invalid because " ++ "cannot be less than 1"))),
            [])) ∧
    (∀ request, ServerActionsServiceOp.doActionByTag (ε := String) (α := Unit)
        (fun arg msg => .new (arg ++ " is invalid because " ++ msg)) recordingNewRequest
        (fun _ s => ((none, none, none), s)) "" request []
        = ((none, none, some (.new ("tag" ++ " is invalid because " ++ "cannot be empty"))),
            [])) ∧
    (∀ m : ServerActionByTagMethod, m.run (ε := String) (α := Unit)
        (fun arg msg => .new (arg ++ " is invalid because " ++ msg)) recordingNewRequest
        (fun _ s => ((none, none, none), s)) "" []
        = ((none, none, some (.new ("tag" ++ " is invalid because " ++ "cannot be empty"))),
            [])) :=
  ⟨by decide, doAction_rejects_id_below_one _ recordingNewRequest doNothing
    (fun _ s => ((none, none, none), s)) 0 [] (by decide)⟩

/-! ### Wrappers around the address of a range variable -/

theorem wrapLoop_fresh {α : Type} (v : Nat) (a : List α) (heap : Heap α)
    (out : List PtrWrapper) :
    ∃ ws : List PtrWrapper,
      (wrapLoop .freshVariable v a heap (some out)) = (some (out ++ ws), heap ++ a) ∧
      ws.map (PtrWrapper.deref (heap ++ a)) = a.map some := by
  induction a generalizing heap out with
  | nil => exact ⟨[], by simp [wrapLoop], rfl⟩
  | cons x rest ih =>
    obtain ⟨ws, h1, h2⟩ := ih (heap ++ [x]) (out ++ [{ ptr := some heap.length }])
    refine ⟨{ ptr := some heap.length } :: ws, ?_, ?_⟩
    · simp only [wrapLoop, goAppend, Slice.toList]
      rw [h1]
      simp
    · simp only [List.append_assoc, List.singleton_append] at h2
      simp [h2, PtrWrapper.deref, List.getElem_append_right]

/-- Under the rule of a fresh variable per iteration the i-th wrapper of
`handleTagActionResponse` holds the i-th action. -/
theorem handleTagActionResponse_fresh {ε α : Type} (a : List α) :
    ∃ ws heap, serverActionsService.handleTagActionResponse (ε := ε) .freshVariable (some a)
        none [] = ((some ws, none), heap) ∧ heldBy heap (some ws) = a.map some := by
  obtain ⟨ws, h1, h2⟩ := wrapLoop_fresh 0 a [] []
  refine ⟨ws, a, ?_, ?_⟩
  · unfold serverActionsService.handleTagActionResponse rangeWrap
    cases a with
    | nil => simp [wrapLoop] at h1 ⊢; simp [h1, Slice.toList, wrapLoop]
    | cons x rest =>
      simp only [Slice.toList]
      rw [h1]
      simp
  · simpa [heldBy, Slice.toList] using h2

/-- C27 fails for two actions: under the rule of one variable per loop, the
rule of the language up to Go 1.21, `handleTagActionResponse` on the actions
`first` and `second` returns two wrappers with the same pointer, and both
hold `second`; `CreateMultiple` does the same with two created servers.  For
a single element the wrapper holds it. -/
theorem handleTagActionResponse_wrappers_share_the_variable :
    serverActionsService.handleTagActionResponse (ε := String) .oneVariable
        (some ["first", "second"]) none []
      = ((some [{ ptr := some 0 }, { ptr := some 0 }], none), ["second"]) ∧
    heldBy ["second"] (some [{ ptr := some 0 }, { ptr := some 0 }])
      = [some "second", some "second"] ∧
    serversService.CreateMultiple (ε := String) .oneVariable
        (createReturning ["web-1", "web-2"]) () () []
      = (((some [{ ptr := some 0 }, { ptr := some 0 }], none), ()), ["web-2"]) ∧
    serverActionsService.handleTagActionResponse (ε := String) .oneVariable
        (some ["only"]) none []
      = ((some [{ ptr := some 0 }], none), ["only"]) := by
  refine ⟨rfl, rfl, rfl, rfl⟩

end BlCli
